import Mathlib

/-! AHEVCAssembler: RTP/HEVC depacketization

A shallow embedding of `src/av/media/libstagefright/rtsp/AHEVCAssembler.cpp`.

* An `ABuffer` is a record of its payload bytes, its `int32Data` (the sequence
  number) and the meta entries the assembler reads or writes.
* The assembler members, the `ARTPSource` members the assembler touches and the
  calls it makes on its collaborators (posted access units, intra-refresh
  requests, retransmission requests, abandoned-buffer notices) are one `State`.
* Bytes are natural numbers; `uint32_t` arithmetic is written with an explicit
  `% 2^32`.  A failed `CHECK` (abort) is `none`.
-/

namespace AHEVCAssembler

/-! ## Constants -/

def H265_NALU_MASK : Nat := 0x3F
def H265_NALU_VPS : Nat := 0x20
def H265_NALU_SPS : Nat := 0x21
def H265_NALU_PPS : Nat := 0x22
def H265_NALU_AP : Nat := 0x30
def H265_NALU_FU : Nat := 0x31
def H265_NALU_PACI : Nat := 0x32

/-- Conversion of a C integer to `uint32_t`. -/
def u32 (x : Int) : Nat := (x % 4294967296).toNat

/-- Conversion of a C integer to `uint16_t`. -/
def u16 (x : Int) : Nat := (x % 65536).toNat

/-- Conversion of a C integer to `uint64_t`. -/
def u64 (x : Int) : Nat := (x % 18446744073709551616).toNat

/-! ## Data model -/

/-- An `ABuffer` as the assembler sees it: the bytes of `data()` (so `size()` is
`data.length`), `int32Data()` (the sequence number), and the meta entries
`"rtp-time"`, `"cvo"`, `"source"` (present or not) and `"damaged"`.
Every buffer carries an `"rtp-time"` entry. -/
structure ABuffer where
  data : List Nat
  int32Data : Int
  rtpTime : Nat
  cvo : Option Int
  source : Bool
  damaged : Bool
deriving DecidableEq, Repr

/-- The status codes of `ARTPAssembler::AssemblyStatus`. -/
inductive AssemblyStatus where
  | MALFORMED_PACKET
  | WRONG_SEQUENCE_NUMBER
  | NOT_ENOUGH_DATA
  | OK
deriving DecidableEq, Repr

/-- A retransmission request: the arguments of `ARTPSource::setSeqNumToNACK`.
The mask is `none` when the shift that computes it has an amount outside the
range in which C++ defines it. -/
structure NackRequest where
  nackStartAt : Int
  mask : Option Nat
  queueHeadSeqNum : Nat
deriving DecidableEq, Repr

/-- The members of `AHEVCAssembler`, the members of its `ARTPSource`, and the
record of the calls made on the collaborators. -/
structure State where
  mAccessUnitRTPTime : Nat
  mNextExpectedSeqNoValid : Bool
  mNextExpectedSeqNo : Nat
  mAccessUnitDamaged : Bool
  mFirstIFrameProvided : Bool
  mLastIFrameProvidedAtMs : Int
  mWidth : Int
  mHeight : Int
  mNALUnits : List ABuffer
  /-- access units posted through `mNotifyMsg`, oldest first -/
  posted : List ABuffer
  /-- `source->queue()` -/
  queue : List ABuffer
  mHighestNackNumber : Int
  mFirstRtpTime : Nat
  mFirstSysTime : Int
  mClockRate : Int
  staticJitterTimeMs : Int
  dynamicJitterTimeMs : Int
  /-- number of calls of `source->onIssueFIRByAssembler()` -/
  firIssued : Nat
  /-- calls of `source->setSeqNumToNACK`, oldest first -/
  nackRequests : List NackRequest
  /-- arguments of the calls of `source->noticeAbandonBuffer`, oldest first -/
  abandoned : List Int
deriving DecidableEq, Repr

/-- What the assembler takes from outside `AHEVCAssembler.cpp`: the clock
(`ALooper::GetNowUs()`, sampled once per invocation), the inline helpers
`MsToRtp` and `findRTPTime` of `ARTPAssembler.h`, and
`HevcParameterSets::FindHEVCDimensions` (the width and height it leaves in its
out-parameters, which start at 0). -/
structure Env where
  nowUs : Int
  MsToRtp : Int → Int → Int
  findRTPTime : Nat → ABuffer → Int
  FindHEVCDimensions : List Nat → Int × Int

/-- The state built by the constructor of `AHEVCAssembler`, attached to a source
with the given parameters and an empty queue. -/
def State.init (firstRtpTime : Nat) (firstSysTime clockRate staticMs dynamicMs : Int) : State :=
  { mAccessUnitRTPTime := 0
    mNextExpectedSeqNoValid := false
    mNextExpectedSeqNo := 0
    mAccessUnitDamaged := false
    mFirstIFrameProvided := false
    mLastIFrameProvidedAtMs := 0
    mWidth := 0
    mHeight := 0
    mNALUnits := []
    posted := []
    queue := []
    mHighestNackNumber := 0
    mFirstRtpTime := firstRtpTime
    mFirstSysTime := firstSysTime
    mClockRate := clockRate
    staticJitterTimeMs := staticMs
    dynamicJitterTimeMs := dynamicMs
    firIssued := 0
    nackRequests := []
    abandoned := [] }

/-- A fresh `new ABuffer(n)`: `n` bytes, `int32Data` 0, empty meta. -/
def ABuffer.new (n : Nat) : ABuffer :=
  { data := List.replicate n 0, int32Data := 0, rtpTime := 0, cvo := none,
    source := false, damaged := false }

/-- Modelled from the spec: `ARTPAssembler::CopyTimes` is defined outside
`src/`.  It propagates the timing metadata of `src` to `dst`: the `"rtp-time"`
entry and the sequence number. -/
def CopyTimes (dst src : ABuffer) : ABuffer :=
  { dst with rtpTime := src.rtpTime, int32Data := src.int32Data }

/-- The C `memcpy(dst + offset, src, src.length)` on a byte list. -/
def memcpy (dst : List Nat) (offset : Nat) (src : List Nat) : List Nat :=
  dst.take offset ++ src ++ dst.drop (offset + src.length)

/-- The read `data[i]` of a `uint8_t`. -/
def byteAt (data : List Nat) (i : Nat) : Nat := data.getD i 0 % 256

/-- The expression `(data[0] >> 1) & H265_NALU_MASK`. -/
def nalTypeOf (data : List Nat) : Nat :=
  (byteAt data 0 >>> 1) &&& H265_NALU_MASK

/-! ## Keyframe gate -/

def checkSpsUpdated (env : Env) (buffer : ABuffer) (s : State) : State :=
  if buffer.data.length = 0 then s
  else
    let nalType := nalTypeOf buffer.data
    if nalType = H265_NALU_SPS then
      let (width, height) := env.FindHEVCDimensions buffer.data
      if width ≠ s.mWidth ∨ height ≠ s.mHeight then
        { s with mFirstIFrameProvided := false, mWidth := width, mHeight := height }
      else s
    else s

def checkIFrameProvided (env : Env) (buffer : ABuffer) (s : State) : State :=
  if buffer.data.length = 0 then s
  else
    let nalType := nalTypeOf buffer.data
    if nalType > 0x0F ∧ nalType < 0x18 then
      let s := { s with mLastIFrameProvidedAtMs := Int.tdiv env.nowUs 1000 }
      if !s.mFirstIFrameProvided then
        { s with mFirstIFrameProvided := true }
      else s
    else s

def dropFramesUntilIframe (buffer : ABuffer) (s : State) : Bool :=
  if buffer.data.length = 0 then false
  else
    let nalType := nalTypeOf buffer.data
    !s.mFirstIFrameProvided && decide (nalType < 0x10)

/-! ## Access unit assembler -/

/-- First loop of `submitAccessUnit`: `totalSize += 4 + (*it)->size()`. -/
def submitTotalSize : List ABuffer → Nat → Nat
  | [], totalSize => totalSize
  | nal :: rest, totalSize => submitTotalSize rest (totalSize + (4 + nal.data.length))

/-- Second loop of `submitAccessUnit`, on (the bytes of `accessUnit`, `offset`,
`cvo`): write the start code, then the unit, and look up the unit's `"cvo"`. -/
def submitCopy : List ABuffer → List Nat × Nat × Int → List Nat × Nat × Int
  | [], st => st
  | nal :: rest, (bytes, offset, cvo) =>
    let bytes := memcpy bytes offset [0x00, 0x00, 0x00, 0x01]
    let offset := offset + 4
    let bytes := memcpy bytes offset nal.data
    let offset := offset + nal.data.length
    let cvo := nal.cvo.getD cvo
    submitCopy rest (bytes, offset, cvo)

def submitAccessUnit (s : State) : Option State :=
  match s.mNALUnits with
  | [] => none
  | first :: _ =>
    let totalSize := submitTotalSize s.mNALUnits 0
    let accessUnit := ABuffer.new totalSize
    let (bytes, _, cvo) := submitCopy s.mNALUnits (accessUnit.data, 0, -1)
    let accessUnit := { accessUnit with data := bytes }
    let accessUnit := CopyTimes accessUnit first
    let accessUnit := if cvo ≥ 0 then { accessUnit with cvo := some cvo } else accessUnit
    let accessUnit :=
      if s.mAccessUnitDamaged then { accessUnit with damaged := true } else accessUnit
    some { s with mNALUnits := [], mAccessUnitDamaged := false,
                  posted := s.posted ++ [accessUnit] }

def addSingleNALUnit (env : Env) (buffer : ABuffer) (s : State) : Option State := do
  let s := checkSpsUpdated env buffer s
  let s := checkIFrameProvided env buffer s
  let rtpTime := buffer.rtpTime
  if dropFramesUntilIframe buffer s then
    let s := if buffer.source then { s with firIssued := s.firIssued + 1 } else s
    pure s
  else
    let s ← if !s.mNALUnits.isEmpty && decide (rtpTime ≠ s.mAccessUnitRTPTime)
            then submitAccessUnit s else pure s
    pure { s with mAccessUnitRTPTime := rtpTime, mNALUnits := s.mNALUnits ++ [buffer] }

/-! ## Nack generator -/

/-- First loop of `addNack`: move to the first packet whose sequence number is
at least `mHighestNackNumber`. -/
def nackSkip : List ABuffer → Int → List ABuffer
  | [], _ => []
  | b :: rest, highest => if b.int32Data ≥ highest then b :: rest else nackSkip rest highest

/-- Second loop of `addNack`, from the iterator position on: the result is
(`mHighestNackNumber`, `nackStartAt`). -/
def nackScan : List ABuffer → Int → Int × Int
  | [], highest => (highest, -1)
  | [_], highest => (highest, -1)
  | b0 :: b1 :: rest, highest =>
    let seqBeforeLast := b0.int32Data
    let seqLast := b1.int32Data
    let highest := if seqLast - seqBeforeLast < 0 then 0 else highest
    if seqLast > seqBeforeLast + 1 ∧ seqLast - 1 > highest then
      (seqLast - 1, seqBeforeLast + 1)
    else nackScan (b1 :: rest) highest

/-- The amount of the shift in `(uint16_t)(0xffff) >> (16 - nackCount + 1)`. -/
def nackShift (nackCount : Int) : Int := 16 - nackCount + 1

/-- The mask `(uint16_t)(0xffff) >> (16 - nackCount + 1)`.  The left operand is
promoted to `int`; the shift is defined only for an amount in `0 .. 31`. -/
def nackMask (nackCount : Int) : Option Nat :=
  let shift := nackShift nackCount
  if 0 ≤ shift ∧ shift < 32 then some (u16 ((0xffff >>> shift.toNat : Nat) : Int)) else none

/-- The function `addNack`: the new state and the returned `nackCount`. -/
def addNack (s : State) : State × Int :=
  match s.queue with
  | [] => (s, 0)
  | head :: _ =>
    let queueHeadSeqNum := u16 head.int32Data
    let it := nackSkip s.queue s.mHighestNackNumber
    let (highest, nackStartAt) := nackScan it s.mHighestNackNumber
    let s := { s with mHighestNackNumber := highest }
    if nackStartAt ≠ -1 then
      let nackCount := s.mHighestNackNumber - nackStartAt + 1
      let mask := nackMask nackCount
      ({ s with nackRequests := s.nackRequests ++ [⟨nackStartAt, mask, queueHeadSeqNum⟩] },
        nackCount)
    else (s, 0)

/-! ## Sequence gap handler -/

/-- The function `deleteUnitUnderSeq`: the queue after the erase and the
returned count. -/
def deleteUnitUnderSeq (queue : List ABuffer) (seq : Nat) : List ABuffer × Int :=
  let rest := queue.dropWhile (fun b => !decide (u32 b.int32Data ≥ seq))
  (rest, (queue.length : Int) - (rest.length : Int))

/-- The loop of `pickProperSeq`, with the current `nextSeqNo`. -/
def pickProperSeqLoop (env : Env) (first : Nat) (play jit : Int) : List ABuffer → Int → Int
  | [], nextSeqNo => nextSeqNo
  | b :: rest, nextSeqNo =>
    if env.findRTPTime first b + jit ≥ play then b.int32Data
    else pickProperSeqLoop env first play jit rest nextSeqNo

/-- The function `pickProperSeq`; it dereferences the head of the queue. -/
def pickProperSeq (env : Env) (queue : List ABuffer) (first : Nat) (play jit : Int) :
    Option Int :=
  match queue with
  | [] => none
  | buffer :: _ => some (pickProperSeqLoop env first play jit queue buffer.int32Data)

/-- The function `recycleUnit`.  `total`, `valid` and `goodRatio` are `float`s in
the source; they are exact rationals here, which gives the same comparison
whenever `connected < 2^23` (both operands are then converted exactly, or the
quotient is far from the ratio).  A division by a zero `total` gives an
infinity for a positive `valid`, which passes the comparison, and a NaN for
zero, which fails it. -/
def recycleUnit (start endSeq connected _avail : Nat) (goodRatio : ℚ) : Bool :=
  let total : ℚ := (((endSeq + 4294967296 - start) % 4294967296 : Nat) : ℚ)
  let valid : ℚ := ((connected % 4294967296 : Nat) : ℚ)
  if total = 0 then decide (valid > 0) else decide (valid / total ≥ goodRatio)

/-! ## Depacketizer -/

/-- The loop of `addSingleTimeAggregationPacket` on the bytes that remain; the
first argument bounds the number of iterations. -/
def stapLoop (env : Env) (buffer : ABuffer) : Nat → List Nat → State → Option (Bool × State)
  | 0, _, _ => none
  | fuel + 1, data, s =>
    if data.length ≥ 2 then
      let nalSize := (byteAt data 0 <<< 8) ||| byteAt data 1
      if data.length < nalSize + 2 then some (false, s)
      else do
        let unit := ABuffer.new nalSize
        let unit := { unit with data := memcpy unit.data 0 ((data.drop 2).take nalSize) }
        let unit := CopyTimes unit buffer
        let s ← addSingleNALUnit env unit s
        stapLoop env buffer fuel (data.drop (2 + nalSize)) s
    else some (true, s)

def addSingleTimeAggregationPacket (env : Env) (buffer : ABuffer) (s : State) :
    Option (Bool × State) :=
  let data := buffer.data
  let size := data.length
  if size < 3 then some (false, s)
  else stapLoop env buffer size (data.drop 1) s

/-- How the scanning loop of `addFragmentedNALUnit` ends: with a `return`
inside the loop, or by leaving the loop with the values of `complete`,
`expectedSeqNo`, `totalSize` and `totalCount`. -/
inductive FUScan where
  | ret (status : AssemblyStatus) (s : State)
  | left (complete : Bool) (expectedSeqNo totalSize totalCount : Nat)
deriving DecidableEq, Repr

/-- The scanning loop of `addFragmentedNALUnit` from the iterator position on,
with the current `expectedSeqNo`, `totalSize`, `totalCount`, `connected` and
`snapped`. -/
def fuScan (indicator nalType rtpTimeStartAt startSeqNo : Nat) (pFrame : Bool) (s : State) :
    List ABuffer → Nat → Nat → Nat → Nat → Bool → FUScan
  | [], expectedSeqNo, totalSize, totalCount, _, _ =>
    FUScan.left false expectedSeqNo totalSize totalCount
  | buffer :: rest, expectedSeqNo, totalSize, totalCount, connected, snapped =>
    let data := buffer.data
    let size := data.length
    let mismatch := decide (u32 buffer.int32Data ≠ expectedSeqNo)
    let snapped := snapped || mismatch
    if mismatch && !pFrame then FUScan.ret AssemblyStatus.WRONG_SEQUENCE_NUMBER s
    else
      let connected := if !snapped then connected + 1 else connected
      let rtpTime := buffer.rtpTime
      if size < 3
          ∨ nalTypeOf data ≠ indicator
          ∨ byteAt data 2 &&& H265_NALU_MASK ≠ nalType
          ∨ byteAt data 2 &&& 0x80 ≠ 0
          ∨ rtpTime ≠ rtpTimeStartAt then
        let next := (expectedSeqNo + 1) % 4294967296
        FUScan.ret AssemblyStatus.MALFORMED_PACKET
          { s with mNextExpectedSeqNo := next, queue := (deleteUnitUnderSeq s.queue next).1 }
      else
        let totalSize := totalSize + (size - 3)
        let totalCount := totalCount + 1
        let expectedSeqNo := (u32 buffer.int32Data + 1) % 4294967296
        if byteAt data 2 &&& 0x40 ≠ 0 then
          if pFrame && !recycleUnit startSeqNo expectedSeqNo connected totalCount (1 / 2) then
            FUScan.ret AssemblyStatus.MALFORMED_PACKET
              { s with mNextExpectedSeqNo := expectedSeqNo,
                       queue := (deleteUnitUnderSeq s.queue expectedSeqNo).1 }
          else FUScan.left true expectedSeqNo totalSize totalCount
        else
          fuScan indicator nalType rtpTimeStartAt startSeqNo pFrame s rest
            expectedSeqNo totalSize totalCount connected snapped

/-- The copying loop of `addFragmentedNALUnit`, `count` iterations from the
head of the queue, on (the bytes of `unit`, `offset`, `cvo`); the result also
has the queue after the erases.  Dereferencing the end of the queue is
`none`. -/
def fuCopy : Nat → List ABuffer → List Nat × Nat × Int → Option (List ABuffer × List Nat × Nat × Int)
  | 0, queue, st => some (queue, st)
  | _ + 1, [], _ => none
  | count + 1, buffer :: rest, (bytes, offset, cvo) =>
    let bytes := memcpy bytes offset (buffer.data.drop 3)
    let cvo := buffer.cvo.getD cvo
    let offset := offset + (buffer.data.length - 3)
    fuCopy count rest (bytes, offset, cvo)

/-- The end of `addFragmentedNALUnit`, once the run is complete: `buffer` is the
head of the queue, and `nalType`, `tid`, `expectedSeqNo`, `totalSize`,
`totalCount` are the values of the variables of these names after the scanning
loop.  The unit is allocated, its header written, the payloads copied behind
it while the fragments are erased, and the unit is passed to
`addSingleNALUnit`. -/
def fuAssemble (env : Env) (s : State) (buffer : ABuffer)
    (nalType tid expectedSeqNo totalSize totalCount : Nat) : Option (AssemblyStatus × State) := do
  let s := { s with mNextExpectedSeqNo := expectedSeqNo }
  let totalSize := totalSize + 2
  let unit := ABuffer.new totalSize
  let unit := CopyTimes unit buffer
  let unit := { unit with data := (unit.data.set 0 ((nalType <<< 1) % 256)).set 1 tid }
  let (queue, bytes, _, cvo) ← fuCopy totalCount s.queue (unit.data, 2, -1)
  let s := { s with queue := queue }
  let unit := { unit with data := bytes.take totalSize }
  let unit := if cvo ≥ 0 then { unit with cvo := some cvo } else unit
  let s ← addSingleNALUnit env unit s
  pure (AssemblyStatus.OK, s)

def addFragmentedNALUnit (env : Env) (s : State) : Option (AssemblyStatus × State) :=
  match s.queue with
  | [] => none
  | buffer :: rest =>
    let data := buffer.data
    let size := data.length
    if ¬ size > 0 then none
    else
      let indicator := byteAt data 0 >>> 1
      if indicator &&& H265_NALU_MASK ≠ H265_NALU_FU then none
      else if size < 3 then
        some (AssemblyStatus.MALFORMED_PACKET,
          { s with queue := rest, mNextExpectedSeqNo := (s.mNextExpectedSeqNo + 1) % 4294967296 })
      else if byteAt data 2 &&& 0x80 = 0 then
        some (AssemblyStatus.MALFORMED_PACKET,
          { s with queue := rest, mNextExpectedSeqNo := (s.mNextExpectedSeqNo + 1) % 4294967296 })
      else
        let nalType := byteAt data 2 &&& H265_NALU_MASK
        let tid := byteAt data 1 &&& 0x7
        let expectedSeqNo := (u32 buffer.int32Data + 1) % 4294967296
        let totalSize := size - 3
        let totalCount := 1
        let rtpTimeStartAt := buffer.rtpTime
        let startSeqNo := u32 buffer.int32Data
        let pFrame := decide (nalType < 0x10)
        let scan :=
          if byteAt data 2 &&& 0x40 ≠ 0 then FUScan.left true expectedSeqNo totalSize totalCount
          else fuScan indicator nalType rtpTimeStartAt startSeqNo pFrame s rest
                 expectedSeqNo totalSize totalCount 1 false
        match scan with
        | FUScan.ret status s => some (status, s)
        | FUScan.left false _ _ _ => some (AssemblyStatus.NOT_ENOUGH_DATA, s)
        | FUScan.left true expectedSeqNo totalSize totalCount =>
          fuAssemble env s buffer nalType tid expectedSeqNo totalSize totalCount

/-- The constant `JITTER_MULTIPLE = 1.5` applied to a clock amount, as in
`int64_t finalMargin = dynamicJbTimeRtp * JITTER_MULTIPLE`: the product is
exact in a `double` and its conversion to `int64_t` truncates toward zero. -/
def timesJitterMultiple (x : Int) : Int := Int.tdiv (x * 3) 2

/-- The prefix discard of `addNALUnit` (the block under
`if (mNextExpectedSeqNoValid)`): the packets below the cursor are deleted and
their number, when positive, is reported to the source. -/
def addNALUnitDiscard (s : State) : State :=
  if s.mNextExpectedSeqNoValid then
    let (queue, cntRemove) := deleteUnitUnderSeq s.queue s.mNextExpectedSeqNo
    let s := { s with queue := queue }
    if cntRemove > 0 then { s with abandoned := s.abandoned ++ [cntRemove] } else s
  else s

/-- The end of `addNALUnit`, from `buffer = *queue->begin()` on: the head of
the queue establishes the cursor or is checked against it, and is dispatched
on its type. -/
def addNALUnitDispatch (env : Env) (s : State) : Option (AssemblyStatus × State) :=
  match s.queue with
  | [] => none
  | buffer :: rest =>
    let wrong := s.mNextExpectedSeqNoValid && decide (u32 buffer.int32Data ≠ s.mNextExpectedSeqNo)
    let s :=
      if !s.mNextExpectedSeqNoValid then
        { s with mNextExpectedSeqNoValid := true, mNextExpectedSeqNo := u32 buffer.int32Data }
      else s
    if wrong then pure (AssemblyStatus.WRONG_SEQUENCE_NUMBER, s)
    else
      let data := buffer.data
      let size := data.length
      let next := (s.mNextExpectedSeqNo + 1) % 4294967296
      if size < 1 ∨ byteAt data 0 &&& 0x80 ≠ 0 then
        pure (AssemblyStatus.MALFORMED_PACKET, { s with queue := rest, mNextExpectedSeqNo := next })
      else
        let nalType := nalTypeOf data
        if nalType > 0 ∧ nalType < H265_NALU_AP then do
          let s ← addSingleNALUnit env buffer s
          pure (AssemblyStatus.OK, { s with queue := rest, mNextExpectedSeqNo := next })
        else if nalType = H265_NALU_FU then
          addFragmentedNALUnit env s
        else if nalType = H265_NALU_AP then do
          let (success, s) ← addSingleTimeAggregationPacket env buffer s
          let s := { s with queue := rest, mNextExpectedSeqNo := next }
          pure (if success then AssemblyStatus.OK else AssemblyStatus.MALFORMED_PACKET, s)
        else if nalType = 0 then
          pure (AssemblyStatus.OK, { s with queue := rest, mNextExpectedSeqNo := next })
        else
          pure (AssemblyStatus.MALFORMED_PACKET,
            { s with queue := rest, mNextExpectedSeqNo := next })

/-- The part of `addNALUnit` behind the jitter-buffer test, for an expired head
packet: when both lateness lines are broken (`resync`) the cursor is reset to
the value picked by `pickProperSeq`; then the prefix discard runs, and the
head of the queue is dispatched. -/
def addNALUnitExpired (env : Env) (s : State) (resync : Bool) (firstRTPTime : Nat)
    (playedTimeRtp jitterTimeRtp : Int) : Option (AssemblyStatus × State) := do
  let s ←
    if resync then
      (pickProperSeq env s.queue firstRTPTime playedTimeRtp jitterTimeRtp).map
        (fun seq => { s with mNextExpectedSeqNo := u32 seq })
    else pure s
  let s := addNALUnitDiscard s
  if s.mNextExpectedSeqNoValid && s.queue.isEmpty then
    pure (AssemblyStatus.NOT_ENOUGH_DATA, s)
  else addNALUnitDispatch env s

def addNALUnit (env : Env) (s : State) : Option (AssemblyStatus × State) :=
  match s.queue with
  | [] => some (AssemblyStatus.NOT_ENOUGH_DATA, s)
  | buffer :: rest =>
    let firstRTPTime := s.mFirstRtpTime
    let buffer := { buffer with source := true }
    let s := { s with queue := buffer :: rest }
    let rtpTime := env.findRTPTime firstRTPTime buffer
    let startTimeMs := Int.tdiv s.mFirstSysTime 1000
    let nowTimeMs := Int.tdiv env.nowUs 1000
    let staticJbTimeMs := s.staticJitterTimeMs
    let dynamicJbTimeMs := s.dynamicJitterTimeMs
    let clockRate := s.mClockRate
    let playedTimeMs := nowTimeMs - startTimeMs
    let playedTimeRtp := (s.mFirstRtpTime : Int) + env.MsToRtp playedTimeMs clockRate
    let baseJbTimeRtp := env.MsToRtp staticJbTimeMs clockRate
    let dynamicJbTimeRtp := min (env.MsToRtp dynamicJbTimeMs clockRate) (env.MsToRtp 150 clockRate)
    let jitterTimeRtp := baseJbTimeRtp + dynamicJbTimeRtp
    let expiredTimeRtp := rtpTime + jitterTimeRtp
    let diffTimeRtp := playedTimeRtp - expiredTimeRtp
    let isExpired := decide (diffTimeRtp ≥ 0)
    let isFirstLineBroken := decide (diffTimeRtp > jitterTimeRtp)
    let finalMargin := timesJitterMultiple dynamicJbTimeRtp
    let isSecondLineBroken := decide (diffTimeRtp > jitterTimeRtp + finalMargin)
    let s := (addNack s).1
    if !isExpired then some (AssemblyStatus.NOT_ENOUGH_DATA, s)
    else
      addNALUnitExpired env s (isFirstLineBroken && isSecondLineBroken) firstRTPTime
        playedTimeRtp jitterTimeRtp

def assembleMore (env : Env) (s : State) : Option (AssemblyStatus × State) := do
  let (status, s) ← addNALUnit env s
  if status = AssemblyStatus.MALFORMED_PACKET then
    let msecsSinceLastIFrame := u64 (Int.tdiv env.nowUs 1000 - s.mLastIFrameProvidedAtMs)
    if msecsSinceLastIFrame > 1000 then
      pure (status, { s with firIssued := s.firIssued + 1 })
    else pure (status, s)
  else pure (status, s)

def packetLost (s : State) : Option State :=
  if s.mNextExpectedSeqNoValid then
    some { s with mNextExpectedSeqNo := (s.mNextExpectedSeqNo + 1) % 4294967296 }
  else none

/-! ## Specification-side definitions -/

/-- The bytes an emitted access unit is to have: each unit behind the 4-byte
start code, in accumulation order. -/
def framed (units : List ABuffer) : List Nat :=
  (units.map (fun u => [0x00, 0x00, 0x00, 0x01] ++ u.data)).flatten

/-- The state in which `addSingleNALUnit` takes its drop decision: after
`checkSpsUpdated` and `checkIFrameProvided`. -/
def gateState (env : Env) (buffer : ABuffer) (s : State) : State :=
  checkIFrameProvided env buffer (checkSpsUpdated env buffer s)

/-- A unit passes the keyframe gate in a state when `addSingleNALUnit` does not
drop it there. -/
def passesGate (env : Env) (buffer : ABuffer) (s : State) : Bool :=
  !dropFramesUntilIframe buffer (gateState env buffer s)

/-- Feeding units to `addSingleNALUnit` one after the other. -/
def feedUnits (env : Env) : List ABuffer → State → Option State
  | [], s => some s
  | u :: us, s => (addSingleNALUnit env u s).bind (feedUnits env us)

/-- Every unit of the list passes the keyframe gate in the state in which it
is fed. -/
def allPassGate (env : Env) : List ABuffer → State → Bool
  | [], _ => true
  | u :: us, s =>
    passesGate env u s &&
      (match addSingleNALUnit env u s with
       | some s' => allPassGate env us s'
       | none => false)

/-- The states the assembler reaches from its initial state by calls of
`addSingleNALUnit` and `submitAccessUnit`. -/
inductive Reachable : State → Prop where
  | init (firstRtpTime : Nat) (firstSysTime clockRate staticMs dynamicMs : Int) :
      Reachable (State.init firstRtpTime firstSysTime clockRate staticMs dynamicMs)
  | addSingleNALUnit (env : Env) (buffer : ABuffer) (s s' : State) :
      Reachable s → addSingleNALUnit env buffer s = some s' → Reachable s'
  | submitAccessUnit (s s' : State) :
      Reachable s → submitAccessUnit s = some s' → Reachable s'

/-- The aggregation payload of a list of units: the type byte, then for each
unit its length on two bytes, big-endian, followed by its bytes. -/
def aggregationPayload (typeByte : Nat) (units : List (List Nat)) : List Nat :=
  typeByte :: (units.map (fun u => [u.length / 256, u.length % 256] ++ u)).flatten

/-- The buffer that carries an embedded unit to `addSingleNALUnit`: the unit's
bytes, with the timing of the packet and no other meta entry. -/
def embeddedUnit (buffer : ABuffer) (bytes : List Nat) : ABuffer :=
  { data := bytes, int32Data := buffer.int32Data, rtpTime := buffer.rtpTime, cvo := none,
    source := false, damaged := false }

/-- The third byte of a fragment: the start flag in bit 7, the end flag in bit
6, the type of the fragmented unit in bits 0 to 5. -/
def fuHeader (start last : Bool) (t : Nat) : Nat :=
  (if start then 0x80 else 0) + (if last then 0x40 else 0) + t

/-- The packet `p` is a fragment of a unit of type `t` and temporal-id `tid`
captured at `T`: it has sequence number `seq`, a 3-byte fragmentation header
(type field `0x31` in byte 0, `tid` in the low bits of byte 1, the flags and
`t` in byte 2) and the payload `piece`. -/
structure IsFragment (t tid T seq : Nat) (start last : Bool) (piece : List Nat)
    (p : ABuffer) : Prop where
  bytes : ∃ h0 h1, p.data = h0 :: h1 :: fuHeader start last t :: piece
    ∧ h0 >>> 1 = H265_NALU_FU ∧ h1 < 256 ∧ h1 &&& 0x7 = tid
  time : p.rtpTime = T
  seqNo : u32 p.int32Data = seq

/-- The packets `pkts` carry the pieces `pieces` of one unit, one piece per
packet, with consecutive sequence numbers from `seq` on (as `uint32_t`), one
common capture timestamp, the start flag on the first packet only (when
`start` is set) and the end flag on the last packet only. -/
def IsFragmentRun (t tid T : Nat) : Nat → Bool → List (List Nat) → List ABuffer → Prop
  | seq, start, [piece], [p] => IsFragment t tid T seq start true piece p
  | seq, start, piece :: piece2 :: pieces, p :: ps =>
      IsFragment t tid T seq start false piece p
        ∧ IsFragmentRun t tid T ((seq + 1) % 4294967296) false (piece2 :: pieces) ps
  | _, _, _, _ => False

/-- The concatenation of the payloads of a list of fragments, each minus its
3-byte fragmentation header. -/
def payloads (pkts : List ABuffer) : List Nat :=
  (pkts.map (fun p => p.data.drop 3)).flatten

/-- The test that makes the scanning loop of `addFragmentedNALUnit` reject a
continuation packet as malformed. -/
def fuMalformed (indicator nalType rtpTimeStartAt : Nat) (p : ABuffer) : Bool :=
  decide (p.data.length < 3
    ∨ nalTypeOf p.data ≠ indicator
    ∨ byteAt p.data 2 &&& H265_NALU_MASK ≠ nalType
    ∨ byteAt p.data 2 &&& 0x80 ≠ 0
    ∨ p.rtpTime ≠ rtpTimeStartAt)

/-- The end flag of a fragment: `data[2] & 0x40`. -/
def fuEnd (p : ABuffer) : Bool := decide (byteAt p.data 2 &&& 0x40 ≠ 0)

/-- The number of packets at the front of a list that carry the sequence
numbers `e`, `e + 1`, ... (as `uint32_t`) without a gap. -/
def contiguousCount : Nat → List ABuffer → Nat
  | _, [] => 0
  | e, p :: ps =>
    if u32 p.int32Data = e then contiguousCount ((e + 1) % 4294967296) ps + 1 else 0

/-- A queue without a gap: the sequence numbers of adjacent packets differ by
exactly 1. -/
def GapFree : List ABuffer → Prop
  | [] => True
  | [_] => True
  | a :: b :: rest => u32 b.int32Data = u32 a.int32Data + 1 ∧ GapFree (b :: rest)

/-- The packets of the list carry the sequence numbers `e`, `e + 1`, ... -/
def GapFreeFrom : Nat → List ABuffer → Prop
  | _, [] => True
  | e, p :: ps => u32 p.int32Data = e ∧ GapFreeFrom (e + 1) ps

/-- The queue once `addNALUnit` has attached the source to its head packet
(`buffer->meta()->setObject("source", source)`). -/
def markSource : List ABuffer → List ABuffer
  | [] => []
  | buffer :: rest => { buffer with source := true } :: rest

/-- The step from `s` to `s'` leaves the packet queue, the cursor and the log
of abandon reports as they were. -/
def KeepsQueue (s s' : State) : Prop :=
  s'.queue = s.queue ∧ s'.mNextExpectedSeqNo = s.mNextExpectedSeqNo
    ∧ s'.mNextExpectedSeqNoValid = s.mNextExpectedSeqNoValid
    ∧ s'.abandoned = s.abandoned

/-- The packet is one that `addNALUnit` hands to `addFragmentedNALUnit`: it is
not empty, its forbidden bit is clear and its type is 49. -/
def IsFragmentPacket (p : ABuffer) : Prop :=
  1 ≤ p.data.length ∧ byteAt p.data 0 &&& 0x80 = 0 ∧ nalTypeOf p.data = H265_NALU_FU

/-- The packets are the fragments of one run: the last one carries the end
flag and none before it does. -/
def IsCompleteRun (run : List ABuffer) : Prop :=
  (∀ p ∈ run.dropLast, fuEnd p = false) ∧ ∃ p, run.getLast? = some p ∧ fuEnd p = true

/-- The packets carry consecutive sequence numbers (as `int32_t`): each one is
the one before plus 1. -/
def Consecutive : List ABuffer → Prop
  | [] => True
  | [_] => True
  | a :: b :: rest => b.int32Data = a.int32Data + 1 ∧ Consecutive (b :: rest)

/-- The jitter tolerance in clock units:
`jitterTolerance = staticJitter + min(dynamicJitter, 150 ms)`. -/
def jitterTolerance (env : Env) (s : State) : Int :=
  env.MsToRtp s.staticJitterTimeMs s.mClockRate
    + min (env.MsToRtp s.dynamicJitterTimeMs s.mClockRate) (env.MsToRtp 150 s.mClockRate)

/-- The played time in clock units: the first timestamp of the source plus the
time elapsed since its first packet arrived. -/
def playedTime (env : Env) (s : State) : Int :=
  (s.mFirstRtpTime : Int)
    + env.MsToRtp (Int.tdiv env.nowUs 1000 - Int.tdiv s.mFirstSysTime 1000) s.mClockRate

/-- The expiry of a packet: `expiry = packetTimestamp + jitterTolerance`. -/
def expiry (env : Env) (s : State) (p : ABuffer) : Int :=
  env.findRTPTime s.mFirstRtpTime p + jitterTolerance env s

/-- The head packet is eligible: `playedTime >= expiry`. -/
def eligible (env : Env) (s : State) (p : ABuffer) : Bool :=
  decide (playedTime env s ≥ expiry env s p)

/-- The first lateness line: `diff > jitterTolerance`, with
`diff = playedTime - expiry`. -/
def firstLineBroken (env : Env) (s : State) (p : ABuffer) : Bool :=
  decide (playedTime env s - expiry env s p > jitterTolerance env s)

/-- The second lateness line: `diff > jitterTolerance + 1.5 x dynamicJitter`,
the dynamic jitter being the capped one, in clock units. -/
def secondLineBroken (env : Env) (s : State) (p : ABuffer) : Bool :=
  decide (playedTime env s - expiry env s p
    > jitterTolerance env s
      + timesJitterMultiple
          (min (env.MsToRtp s.dynamicJitterTimeMs s.mClockRate) (env.MsToRtp 150 s.mClockRate)))

/-- The state in which `addNALUnit` reaches `buffer = *queue->begin()` (line
223 of the source) once the head packet `head` has been found eligible: the
source is attached to the head packet, the NACK scan has run, the cursor has
been reset by `pickProperSeq` if both lateness lines are broken, and the
prefix discard has been applied. -/
def afterGapHandler (env : Env) (s : State) (head : ABuffer) (rest : List ABuffer) :
    Option State :=
  let marked := { head with source := true }
  let s0 := (addNack { s with queue := marked :: rest }).1
  let s1 :=
    if firstLineBroken env s marked && secondLineBroken env s marked then
      (pickProperSeq env s0.queue s.mFirstRtpTime (playedTime env s) (jitterTolerance env s)).map
        (fun seq => { s0 with mNextExpectedSeqNo := u32 seq })
    else some s0
  s1.map addNALUnitDiscard

/-- The packets are continuation fragments of one unit that do not end it:
fragments of type `t`, temporal-id `tid` and timestamp `T`, without the start
and the end flag, with consecutive sequence numbers from `seq` on (as
`uint32_t`). -/
def IsOpenRun (t tid T : Nat) : Nat → List ABuffer → Prop
  | _, [] => True
  | seq, p :: ps =>
      (∃ piece, IsFragment t tid T seq false false piece p)
        ∧ IsOpenRun t tid T ((seq + 1) % 4294967296) ps

/-! ## Sample inputs -/

/-- A sample environment: the clock at 0, `MsToRtp ms rate = ms * rate / 1000`,
`findRTPTime` the packet's own `"rtp-time"`, no dimensions found. -/
def sampleEnv : Env :=
  { nowUs := 0
    MsToRtp := fun ms clockRate => Int.tdiv (ms * clockRate) 1000
    findRTPTime := fun _ buffer => buffer.rtpTime
    FindHEVCDimensions := fun _ => (0, 0) }

/-- A sample state: the initial state of an assembler on a 90 kHz source. -/
def sampleInit : State := State.init 0 0 90000 0 0

/-- A sample unit of the given type (temporal-id 1) with the given
`"rtp-time"` and body, carrying no `"source"` entry. -/
def sampleUnit (nalType rtpTime : Nat) (body : List Nat) : ABuffer :=
  { data := [nalType <<< 1, 1] ++ body, int32Data := 0, rtpTime := rtpTime, cvo := none,
    source := false, damaged := false }

/-- A sample state whose accumulator holds two units captured at 1000. -/
def sampleAccumulating : State :=
  { sampleInit with
      mFirstIFrameProvided := true
      mAccessUnitRTPTime := 1000
      mNALUnits := [sampleUnit 0x13 1000 [5, 6], sampleUnit 0x01 1000 [7]] }

/-- The state reached from `sampleInit` by adding one intra-coded unit captured
at 1000. -/
def sampleAfterOne : State :=
  { sampleInit with
      mFirstIFrameProvided := true
      mAccessUnitRTPTime := 1000
      mNALUnits := [sampleUnit 0x13 1000 [5, 6]] }

/-- A sample inter-coded unit (type 1) that carries its `"source"` entry, as the
head packet of a call of `addNALUnit` does. -/
def sampleInterWithSource : ABuffer :=
  { sampleUnit 0x01 1000 [7] with source := true }

/-- A sample packet with the given sequence number and payload, captured at
1000. -/
def samplePacket (seq : Int) (data : List Nat) : ABuffer :=
  { data := data, int32Data := seq, rtpTime := 1000, cvo := none, source := false,
    damaged := false }

/-- A sample queue with a gap of twenty sequence numbers (101 to 120). -/
def gapOfTwenty : State :=
  { sampleInit with
      queue := [samplePacket 100 [0x02, 0x01, 0x07], samplePacket 121 [0x02, 0x01, 0x08]] }

/-- A sample aggregation packet carrying a unit of 3 bytes and a unit of 2
bytes. -/
def sampleAggregation : ABuffer :=
  samplePacket 7 (aggregationPayload 0x60 [[0x26, 0x01, 0xAA], [0x02, 0x01]])

/-- A sample fragment of an inter-coded unit (type 1, temporal-id 1) captured
at 1000. -/
def sampleFragment (seq : Int) (start last : Bool) (payload : List Nat) : ABuffer :=
  samplePacket seq ([0x62, 0x01, fuHeader start last 0x01] ++ payload)

/-- A sample state with the keyframe gate open and the cursor at 100. -/
def sampleOpen : State :=
  { sampleInit with
      mFirstIFrameProvided := true
      mNextExpectedSeqNoValid := true
      mNextExpectedSeqNo := 100 }

/-- The fragments 100 to 109 of one inter-coded unit, the fragment `100 + i`
carrying the payload `[i]`. -/
def sampleRun : List ABuffer :=
  [sampleFragment 100 true false [0], sampleFragment 101 false false [1],
   sampleFragment 102 false false [2], sampleFragment 103 false false [3],
   sampleFragment 104 false false [4], sampleFragment 105 false false [5],
   sampleFragment 106 false false [6], sampleFragment 107 false false [7],
   sampleFragment 108 false false [8], sampleFragment 109 false true [9]]

/-- The sample run without the fragments whose sequence numbers are listed. -/
def sampleRunWithout (missing : List Int) : List ABuffer :=
  sampleRun.filter (fun p => !missing.contains p.int32Data)

/-- A sample queue: three fragments (100 to 102) of one inter-coded unit with
the payloads `[5, 6]`, `[7]` and `[8, 9]`, followed by a single-unit packet. -/
def sampleThreeFragments : State :=
  { sampleOpen with
      queue := [sampleFragment 100 true false [5, 6], sampleFragment 101 false false [7],
                sampleFragment 102 false true [8, 9], samplePacket 103 [0x02, 0x01, 0x0A]] }

/-- A sample environment in which the clock reads 120 ms. -/
def sampleEnvLate : Env := { sampleEnv with nowUs := 120000 }

/-- A sample state on a source with a static jitter of 100 ms: the keyframe
gate is open, the cursor is at `2^32 - 2`, and the queue holds a start
fragment with that sequence number followed by a packet with the sequence
number `2^32 - 1` that is not a fragment. -/
def sampleAtWrap : State :=
  { State.init 0 0 90000 100 0 with
      mFirstIFrameProvided := true
      mNextExpectedSeqNoValid := true
      mNextExpectedSeqNo := 4294967294
      queue := [sampleFragment (-2) true false [1], samplePacket (-1) [0x02, 0x01, 0x08]] }

/-- A sample state on a source with a static jitter of 100 ms: the keyframe
gate is open, the cursor is at 100, and the queue holds the three fragments
100 to 102 of one unit followed by a single-unit packet. -/
def sampleGapFree : State :=
  { State.init 0 0 90000 100 0 with
      mFirstIFrameProvided := true
      mNextExpectedSeqNoValid := true
      mNextExpectedSeqNo := 100
      queue := [sampleFragment 100 true false [5, 6], sampleFragment 101 false false [7],
                sampleFragment 102 false true [8, 9], samplePacket 103 [0x02, 0x01, 0x0A]] }

/-- A sample queue in ascending order with one missing sequence number: 100,
101 and 103. -/
def sampleAscending : List ABuffer :=
  [samplePacket 100 [0x02, 0x01, 0x07], samplePacket 101 [0x02, 0x01, 0x08],
   samplePacket 103 [0x02, 0x01, 0x09]]

/-- A sample environment in which the clock reads 50 ms. -/
def sampleEnvEarly : Env := { sampleEnv with nowUs := 50000 }

/-- A sample state on a source with a static jitter of 100 ms: the cursor is
at 100 and the queue holds the packet 101 only. -/
def sampleAhead : State :=
  { State.init 0 0 90000 100 0 with
      mFirstIFrameProvided := true
      mNextExpectedSeqNoValid := true
      mNextExpectedSeqNo := 100
      queue := [samplePacket 101 [0x02, 0x01, 0x08]] }

/-- A sample state on a source with a static jitter of 100 ms: the accumulator
holds one intra-coded unit captured at 1000, the cursor is at 102, and the
queue holds the packet 101, below the cursor, and the packet 102, captured at
2000. -/
def sampleLossy : State :=
  { State.init 0 0 90000 100 0 with
      mFirstIFrameProvided := true
      mNextExpectedSeqNoValid := true
      mNextExpectedSeqNo := 102
      mAccessUnitRTPTime := 1000
      mNALUnits := [sampleUnit 0x13 1000 [5, 6]]
      queue := [samplePacket 101 [0x02, 0x01, 0x07],
                { samplePacket 102 [0x02, 0x01, 0x08] with rtpTime := 2000 }] }

/-- A sample aggregation packet whose first record carries a unit of 3 bytes
and whose second record declares 5 bytes while 1 byte remains. -/
def sampleTruncated : ABuffer :=
  samplePacket 7 (aggregationPayload 0x60 [[0x26, 0x01, 0xAA]] ++ [0x00, 0x05] ++ [0x02])

/-- A sample state whose queue holds the truncated aggregation packet, with
the cursor on it. -/
def sampleTruncatedHead : State :=
  { sampleInit with
      mNextExpectedSeqNoValid := true
      mNextExpectedSeqNo := 7
      queue := [sampleTruncated] }

/-- A sample fragment of an intra-coded unit (type 0x13, temporal-id 1)
captured at 1000. -/
def sampleIntraFragment (seq : Int) (start last : Bool) (payload : List Nat) : ABuffer :=
  samplePacket seq ([0x62, 0x01, fuHeader start last 0x13] ++ payload)

/-- A sample state with the cursor at 100 whose queue holds the fragments 100
and 101 of an intra-coded unit and then the fragment 103: the fragment 102 is
missing. -/
def sampleIntraGap : State :=
  { sampleOpen with
      queue := [sampleIntraFragment 100 true false [1], sampleIntraFragment 101 false false [2],
                sampleIntraFragment 103 false true [3]] }

/-- A sample state on a source with a static jitter of 10 ms whose cursor is
not established: the queue holds the start fragment 100 of an intra-coded
unit, captured at 1000, and the fragment 102 of that unit, captured at
10000. -/
def sampleUnestablished : State :=
  { State.init 0 0 90000 10 0 with
      mFirstIFrameProvided := true
      queue := [sampleIntraFragment 100 true false [1],
                { sampleIntraFragment 102 false true [3] with rtpTime := 10000 }] }

/-- The sample state above, with the cursor established at 100. -/
def sampleEstablished : State :=
  { sampleUnestablished with mNextExpectedSeqNoValid := true, mNextExpectedSeqNo := 100 }

/-- A sample queue in which a start fragment (100) of an inter-coded unit is
followed, behind a gap, by a single-unit packet (103); the cursor is at 100. -/
def sampleBehindGap : State :=
  { sampleOpen with
      queue := [sampleFragment 100 true false [0], samplePacket 103 [0x02, 0x01, 0x08]] }

/-- The same for an intra-coded unit (type 0x13). -/
def sampleIntraBehindGap : State :=
  { sampleOpen with
      queue := [sampleIntraFragment 100 true false [0], samplePacket 103 [0x02, 0x01, 0x08]] }

/-- A sample queue in which the fragments 100 and 101 of an inter-coded unit
are followed directly by two single-unit packets (102 and 103); the cursor is
at 100. -/
def sampleInterrupted : State :=
  { sampleOpen with
      queue := [sampleFragment 100 true false [0], sampleFragment 101 false false [1],
                samplePacket 102 [0x02, 0x01, 0x08], samplePacket 103 [0x02, 0x01, 0x09]] }

/-- A sample state on a source with a static jitter of 10 ms: the keyframe gate
is open, the cursor is at 100, and the queue holds the single-unit packets 100,
captured at 1000, and 101, captured at 10000. -/
def sampleResync : State :=
  { State.init 0 0 90000 10 0 with
      mFirstIFrameProvided := true
      mNextExpectedSeqNoValid := true
      mNextExpectedSeqNo := 100
      queue := [samplePacket 100 [0x02, 0x01, 0x07],
                { samplePacket 101 [0x02, 0x01, 0x08] with rtpTime := 10000 }] }

/-- The fragments of one inter-coded unit with the sequence numbers `2^32 - 10`
to `2^32 - 1`, without the fragments `2^32 - 7` and `2^32 - 6`: the sample run
without 103 and 104, moved to the end of the `uint32_t` range. -/
def sampleRunAtWrap : State :=
  { sampleOpen with
      mNextExpectedSeqNo := 4294967286
      queue := [sampleFragment (-10) true false [0], sampleFragment (-9) false false [1],
                sampleFragment (-8) false false [2], sampleFragment (-5) false false [5],
                sampleFragment (-4) false false [6], sampleFragment (-3) false false [7],
                sampleFragment (-2) false false [8], sampleFragment (-1) false true [9]] }

/-! ## Properties -/

theorem memcpy_zeros (w src : List Nat) (n : Nat) :
    memcpy (w ++ List.replicate n 0) w.length src
      = (w ++ src) ++ List.replicate (n - src.length) 0 := by
  unfold memcpy
  rw [List.take_left, List.drop_append]
  simp [List.drop_replicate]

theorem submitTotalSize_eq (units : List ABuffer) (acc : Nat) :
    submitTotalSize units acc = acc + (units.map (fun u => 4 + u.data.length)).sum := by
  induction units generalizing acc with
  | nil => simp [submitTotalSize]
  | cons u rest ih => simp [submitTotalSize, ih]; omega

theorem framed_cons (u : ABuffer) (rest : List ABuffer) :
    framed (u :: rest) = [0x00, 0x00, 0x00, 0x01] ++ u.data ++ framed rest := by
  simp [framed]

theorem framed_length (units : List ABuffer) :
    (framed units).length = (units.map (fun u => 4 + u.data.length)).sum := by
  induction units with
  | nil => simp [framed]
  | cons u rest ih =>
    rw [framed_cons]
    simp only [List.length_append, List.map_cons, List.sum_cons, ih]
    simp

theorem submitCopy_zeros (units : List ABuffer) (w : List Nat) (n : Nat) (cvo : Int) :
    ∃ cvo2, submitCopy units (w ++ List.replicate n 0, w.length, cvo) =
      (w ++ framed units ++ List.replicate (n - (framed units).length) 0,
        w.length + (framed units).length, cvo2) := by
  induction units generalizing w n cvo with
  | nil => exact ⟨cvo, by simp [submitCopy, framed]⟩
  | cons u rest ih =>
    have h1 := memcpy_zeros w [0x00, 0x00, 0x00, 0x01] n
    have h2 := memcpy_zeros (w ++ [0x00, 0x00, 0x00, 0x01]) u.data (n - 4)
    obtain ⟨cvo2, h3⟩ := ih ((w ++ [0x00, 0x00, 0x00, 0x01]) ++ u.data) (n - 4 - u.data.length)
      (u.cvo.getD cvo)
    refine ⟨cvo2, ?_⟩
    simp only [List.length_append, List.length_cons, List.length_nil, zero_add] at h1 h2 h3
    simp only [submitCopy]
    rw [h1, h2, h3, framed_cons]
    simp only [List.length_append, List.length_cons, List.length_nil, zero_add, List.append_assoc]
    refine Prod.ext ?_ (Prod.ext ?_ rfl)
    · have hn : n - 4 - u.data.length - (framed rest).length
          = n - (1 + 1 + 1 + 1 + (u.data.length + (framed rest).length)) := by omega
      simp only [hn]
    · simp only []
      omega

/-- What `submitAccessUnit` does on a non-empty accumulator, with the posted
buffer written out: its bytes are the framed units and its timing is that of
the first unit. -/
theorem submitAccessUnit_cons (s : State) (first : ABuffer) (rest : List ABuffer)
    (hq : s.mNALUnits = first :: rest) :
    ∃ cvo : Option Int, submitAccessUnit s
        = some { s with mNALUnits := [], mAccessUnitDamaged := false,
                        posted := s.posted ++
                          [{ data := framed (first :: rest), int32Data := first.int32Data,
                             rtpTime := first.rtpTime, cvo := cvo, source := false,
                             damaged := s.mAccessUnitDamaged }] } := by
  obtain ⟨cvo2, hc⟩ := submitCopy_zeros (first :: rest) [] (framed (first :: rest)).length (-1)
  simp only [List.nil_append, List.length_nil, Nat.sub_self, List.replicate_zero,
    List.append_nil, zero_add] at hc
  have hts : submitTotalSize (first :: rest) 0 = (framed (first :: rest)).length := by
    rw [submitTotalSize_eq, framed_length]; simp
  refine ⟨if cvo2 ≥ 0 then some cvo2 else none, ?_⟩
  simp only [submitAccessUnit, hq, hts, ABuffer.new, hc, CopyTimes]
  by_cases hcvo : cvo2 ≥ 0 <;> cases hd : s.mAccessUnitDamaged <;> simp [hcvo]

/-- C4 (output framing).  For every non-empty accumulator, `submitAccessUnit`
posts one buffer whose bytes are exactly the accumulated units, in order, each
behind the start code `00 00 00 01`; its length is the sum of `4 + size` over
the units; afterwards the accumulator is empty. -/
theorem submitAccessUnit_framing (s : State) (h : s.mNALUnits ≠ []) :
    ∃ au, submitAccessUnit s
        = some { s with mNALUnits := [], mAccessUnitDamaged := false,
                        posted := s.posted ++ [au] }
      ∧ au.data = (s.mNALUnits.map (fun u => [0x00, 0x00, 0x00, 0x01] ++ u.data)).flatten
      ∧ au.data.length = (s.mNALUnits.map (fun u => 4 + u.data.length)).sum := by
  cases hq : s.mNALUnits with
  | nil => exact absurd hq h
  | cons first rest =>
    obtain ⟨cvo, hs⟩ := submitAccessUnit_cons s first rest hq
    exact ⟨_, hs, rfl, framed_length _⟩

theorem gateState_fields (env : Env) (buffer : ABuffer) (s : State) :
    (gateState env buffer s).mNALUnits = s.mNALUnits
    ∧ (gateState env buffer s).posted = s.posted
    ∧ (gateState env buffer s).mAccessUnitRTPTime = s.mAccessUnitRTPTime
    ∧ (gateState env buffer s).firIssued = s.firIssued
    ∧ (gateState env buffer s).queue = s.queue
    ∧ (gateState env buffer s).mNextExpectedSeqNo = s.mNextExpectedSeqNo
    ∧ (gateState env buffer s).mNextExpectedSeqNoValid = s.mNextExpectedSeqNoValid
    ∧ (gateState env buffer s).abandoned = s.abandoned := by
  unfold gateState checkIFrameProvided checkSpsUpdated
  simp only []
  split_ifs <;> simp

/-- The two outcomes of `addSingleNALUnit`: the unit is dropped at the gate, or
it is appended, after an emission when its timestamp differs from that of a
non-empty accumulator. -/
theorem addSingleNALUnit_eq (env : Env) (buffer : ABuffer) (s : State) :
    addSingleNALUnit env buffer s =
      if dropFramesUntilIframe buffer (gateState env buffer s) then
        some (if buffer.source then
                { gateState env buffer s with
                    firIssued := (gateState env buffer s).firIssued + 1 }
              else gateState env buffer s)
      else if (gateState env buffer s).mNALUnits ≠ []
          ∧ buffer.rtpTime ≠ (gateState env buffer s).mAccessUnitRTPTime then
        (submitAccessUnit (gateState env buffer s)).map
          (fun s' => { s' with mAccessUnitRTPTime := buffer.rtpTime,
                               mNALUnits := s'.mNALUnits ++ [buffer] })
      else
        some { gateState env buffer s with
                 mAccessUnitRTPTime := buffer.rtpTime,
                 mNALUnits := (gateState env buffer s).mNALUnits ++ [buffer] } := by
  unfold addSingleNALUnit
  simp only [← gateState.eq_1]
  cases hd : dropFramesUntilIframe buffer (gateState env buffer s)
  · simp only [Bool.false_eq_true, if_false]
    by_cases hne : (gateState env buffer s).mNALUnits ≠ []
        ∧ buffer.rtpTime ≠ (gateState env buffer s).mAccessUnitRTPTime
    · have hb : (!(gateState env buffer s).mNALUnits.isEmpty
          && decide (buffer.rtpTime ≠ (gateState env buffer s).mAccessUnitRTPTime)) = true := by
        simp [hne.1, hne.2, List.isEmpty_iff]
      rw [if_pos hb, if_pos hne]
      cases submitAccessUnit (gateState env buffer s) <;> rfl
    · have hb : ¬ ((!(gateState env buffer s).mNALUnits.isEmpty
          && decide (buffer.rtpTime ≠ (gateState env buffer s).mAccessUnitRTPTime)) = true) := by
        rw [not_and_or] at hne
        rcases hne with h | h
        · simp only [ne_eq, not_not] at h; simp [h]
        · simp only [ne_eq, not_not] at h; simp [h]
      rw [if_neg hb, if_neg hne]
      rfl
  · simp only [if_true]
    cases buffer.source <;> rfl

theorem addSingleNALUnit_drop (env : Env) (buffer : ABuffer) (s : State)
    (h : passesGate env buffer s = false) :
    ∃ s', addSingleNALUnit env buffer s = some s' ∧ s'.mNALUnits = s.mNALUnits
      ∧ s'.posted = s.posted ∧ s'.mAccessUnitRTPTime = s.mAccessUnitRTPTime
      ∧ s'.firIssued = s.firIssued + (if buffer.source then 1 else 0) := by
  obtain ⟨hN, hP, hT, hF, -⟩ := gateState_fields env buffer s
  have hd : dropFramesUntilIframe buffer (gateState env buffer s) = true := by
    simpa [passesGate] using h
  rw [addSingleNALUnit_eq, if_pos hd]
  cases buffer.source
  · exact ⟨_, rfl, hN, hP, hT, by simpa using hF⟩
  · exact ⟨_, rfl, hN, hP, hT, by simp [hF]⟩

theorem addSingleNALUnit_append (env : Env) (buffer : ABuffer) (s : State)
    (h : passesGate env buffer s = true)
    (hsame : s.mNALUnits = [] ∨ buffer.rtpTime = s.mAccessUnitRTPTime) :
    ∃ s', addSingleNALUnit env buffer s = some s' ∧ s'.mNALUnits = s.mNALUnits ++ [buffer]
      ∧ s'.posted = s.posted ∧ s'.mAccessUnitRTPTime = buffer.rtpTime
      ∧ s'.firIssued = s.firIssued := by
  obtain ⟨hN, hP, hT, hF, -⟩ := gateState_fields env buffer s
  have hd : ¬ dropFramesUntilIframe buffer (gateState env buffer s) = true := by
    simpa [passesGate] using h
  have hne : ¬ ((gateState env buffer s).mNALUnits ≠ []
      ∧ buffer.rtpTime ≠ (gateState env buffer s).mAccessUnitRTPTime) := by
    rw [hN, hT]; tauto
  rw [addSingleNALUnit_eq, if_neg hd, if_neg hne]
  exact ⟨_, rfl, by simp [hN], hP, rfl, hF⟩

theorem addSingleNALUnit_flush (env : Env) (buffer : ABuffer) (s : State)
    (h : passesGate env buffer s = true)
    (hne : s.mNALUnits ≠ []) (hdiff : buffer.rtpTime ≠ s.mAccessUnitRTPTime) :
    ∃ s' au, addSingleNALUnit env buffer s = some s' ∧ s'.mNALUnits = [buffer]
      ∧ s'.posted = s.posted ++ [au] ∧ au.data = framed s.mNALUnits
      ∧ s'.mAccessUnitRTPTime = buffer.rtpTime ∧ s'.firIssued = s.firIssued := by
  obtain ⟨hN, hP, hT, hF, -⟩ := gateState_fields env buffer s
  have hd : ¬ dropFramesUntilIframe buffer (gateState env buffer s) = true := by
    simpa [passesGate] using h
  have hc : (gateState env buffer s).mNALUnits ≠ []
      ∧ buffer.rtpTime ≠ (gateState env buffer s).mAccessUnitRTPTime := by
    rw [hN, hT]; exact ⟨hne, hdiff⟩
  rw [addSingleNALUnit_eq, if_neg hd, if_pos hc]
  cases hq : s.mNALUnits with
  | nil => exact absurd hq hne
  | cons first rest =>
    obtain ⟨cvo, hs⟩ := submitAccessUnit_cons (gateState env buffer s) first rest (hN.trans hq)
    rw [hs]
    exact ⟨_, { data := framed (first :: rest), int32Data := first.int32Data,
                rtpTime := first.rtpTime, cvo := cvo, source := false,
                damaged := (gateState env buffer s).mAccessUnitDamaged },
      rfl, rfl, by simp [hP], rfl, rfl, hF⟩

theorem addSingleNALUnit_total (env : Env) (buffer : ABuffer) (s : State) :
    ∃ s', addSingleNALUnit env buffer s = some s' := by
  cases h : passesGate env buffer s
  · obtain ⟨s', hs, -⟩ := addSingleNALUnit_drop env buffer s h
    exact ⟨s', hs⟩
  · by_cases hsame : s.mNALUnits = [] ∨ buffer.rtpTime = s.mAccessUnitRTPTime
    · obtain ⟨s', hs, -⟩ := addSingleNALUnit_append env buffer s h hsame
      exact ⟨s', hs⟩
    · rw [not_or] at hsame
      obtain ⟨s', _, hs, -⟩ := addSingleNALUnit_flush env buffer s h hsame.1 hsame.2
      exact ⟨s', hs⟩

theorem addSingleNALUnit_keepsQueue (env : Env) (buffer : ABuffer) (s s' : State)
    (h : addSingleNALUnit env buffer s = some s') : KeepsQueue s s' := by
  obtain ⟨hN, -, -, -, hQ, hC, hV, hA⟩ := gateState_fields env buffer s
  rw [addSingleNALUnit_eq] at h
  by_cases h1 : dropFramesUntilIframe buffer (gateState env buffer s) = true
  · rw [if_pos h1] at h
    cases hsrc : buffer.source <;> rw [hsrc] at h <;> cases h <;> exact ⟨hQ, hC, hV, hA⟩
  · rw [if_neg h1] at h
    by_cases h2 : (gateState env buffer s).mNALUnits ≠ []
        ∧ buffer.rtpTime ≠ (gateState env buffer s).mAccessUnitRTPTime
    · rw [if_pos h2] at h
      cases hq : (gateState env buffer s).mNALUnits with
      | nil => exact absurd hq h2.1
      | cons first rest =>
        obtain ⟨cvo, hs⟩ := submitAccessUnit_cons (gateState env buffer s) first rest hq
        rw [hs] at h
        cases h
        exact ⟨hQ, hC, hV, hA⟩
    · rw [if_neg h2] at h
      cases h
      exact ⟨hQ, hC, hV, hA⟩

theorem KeepsQueue.trans {a b c : State} (h1 : KeepsQueue a b) (h2 : KeepsQueue b c) :
    KeepsQueue a c :=
  ⟨h2.1.trans h1.1, h2.2.1.trans h1.2.1, h2.2.2.1.trans h1.2.2.1, h2.2.2.2.trans h1.2.2.2⟩

theorem allPassGate_cons (env : Env) (u : ABuffer) (us : List ABuffer) (s : State)
    (h : allPassGate env (u :: us) s = true) :
    passesGate env u s = true
      ∧ ∀ s', addSingleNALUnit env u s = some s' → allPassGate env us s' = true := by
  simp only [allPassGate, Bool.and_eq_true] at h
  refine ⟨h.1, fun s' hs => ?_⟩
  have h2 := h.2
  rw [hs] at h2
  exact h2

/-- C3 (access-unit boundary).  From an empty accumulator, four units that pass
the keyframe gate, with capture timestamps `T, T, T, T+1` (a `uint32_t`), make
`addSingleNALUnit` post nothing for the first three and exactly one access
unit when the fourth is added; that access unit is the first three units in
order, each behind the start code, and afterwards the accumulator holds only
the fourth unit, with accumulation timestamp `T+1`. -/
theorem access_unit_boundary (env : Env) (s : State) (u1 u2 u3 u4 : ABuffer) (T : Nat)
    (hacc : s.mNALUnits = [])
    (h1 : u1.rtpTime = T) (h2 : u2.rtpTime = T) (h3 : u3.rtpTime = T)
    (h4 : u4.rtpTime = (T + 1) % 4294967296)
    (hgate : allPassGate env [u1, u2, u3, u4] s = true) :
    ∃ s1 s2 s3 s4 au,
      addSingleNALUnit env u1 s = some s1 ∧ addSingleNALUnit env u2 s1 = some s2
      ∧ addSingleNALUnit env u3 s2 = some s3 ∧ addSingleNALUnit env u4 s3 = some s4
      ∧ s1.posted = s.posted ∧ s2.posted = s.posted ∧ s3.posted = s.posted
      ∧ s3.mNALUnits = [u1, u2, u3]
      ∧ s4.posted = s.posted ++ [au]
      ∧ au.data = [0x00, 0x00, 0x00, 0x01] ++ u1.data ++ ([0x00, 0x00, 0x00, 0x01] ++ u2.data)
          ++ ([0x00, 0x00, 0x00, 0x01] ++ u3.data)
      ∧ s4.mNALUnits = [u4] ∧ s4.mAccessUnitRTPTime = (T + 1) % 4294967296 := by
  have hT : (T + 1) % 4294967296 ≠ T := by omega
  obtain ⟨g1, hgate⟩ := allPassGate_cons env u1 _ s hgate
  obtain ⟨s1, e1, n1, p1, t1, -⟩ := addSingleNALUnit_append env u1 s g1 (Or.inl hacc)
  obtain ⟨g2, hgate⟩ := allPassGate_cons env u2 _ s1 (hgate s1 e1)
  obtain ⟨s2, e2, n2, p2, t2, -⟩ := addSingleNALUnit_append env u2 s1 g2
    (Or.inr (by rw [t1, h1, h2]))
  obtain ⟨g3, hgate⟩ := allPassGate_cons env u3 _ s2 (hgate s2 e2)
  obtain ⟨s3, e3, n3, p3, t3, -⟩ := addSingleNALUnit_append env u3 s2 g3
    (Or.inr (by rw [t2, h2, h3]))
  obtain ⟨g4, -⟩ := allPassGate_cons env u4 _ s3 (hgate s3 e3)
  have hn3 : s3.mNALUnits = [u1, u2, u3] := by rw [n3, n2, n1, hacc]; rfl
  obtain ⟨s4, au, e4, n4, p4, d4, t4, -⟩ := addSingleNALUnit_flush env u4 s3 g4
    (by rw [hn3]; simp) (by rw [t3, h3, h4]; exact hT)
  refine ⟨s1, s2, s3, s4, au, e1, e2, e3, e4, p1, p2.trans p1, p3.trans (p2.trans p1), hn3,
    ?_, ?_, n4, t4.trans h4⟩
  · rw [p4, p3, p2, p1]
  · rw [d4, hn3]; simp [framed]

/-- Witness of C3: an intra-coded unit and two inter-coded units at 1000, then
an inter-coded unit at 1001, fed to the initial state. -/
theorem access_unit_boundary_witness :
    ∃ s1 s2 s3 s4 au,
      addSingleNALUnit sampleEnv (sampleUnit 0x13 1000 [5, 6]) sampleInit = some s1
      ∧ addSingleNALUnit sampleEnv (sampleUnit 0x01 1000 [7]) s1 = some s2
      ∧ addSingleNALUnit sampleEnv (sampleUnit 0x01 1000 [8, 9]) s2 = some s3
      ∧ addSingleNALUnit sampleEnv (sampleUnit 0x01 1001 [10]) s3 = some s4
      ∧ s1.posted = sampleInit.posted ∧ s2.posted = sampleInit.posted
      ∧ s3.posted = sampleInit.posted
      ∧ s3.mNALUnits
          = [sampleUnit 0x13 1000 [5, 6], sampleUnit 0x01 1000 [7], sampleUnit 0x01 1000 [8, 9]]
      ∧ s4.posted = sampleInit.posted ++ [au]
      ∧ au.data = [0x00, 0x00, 0x00, 0x01] ++ (sampleUnit 0x13 1000 [5, 6]).data
          ++ ([0x00, 0x00, 0x00, 0x01] ++ (sampleUnit 0x01 1000 [7]).data)
          ++ ([0x00, 0x00, 0x00, 0x01] ++ (sampleUnit 0x01 1000 [8, 9]).data)
      ∧ s4.mNALUnits = [sampleUnit 0x01 1001 [10]]
      ∧ s4.mAccessUnitRTPTime = (1000 + 1) % 4294967296 :=
  access_unit_boundary sampleEnv sampleInit (sampleUnit 0x13 1000 [5, 6])
    (sampleUnit 0x01 1000 [7]) (sampleUnit 0x01 1000 [8, 9]) (sampleUnit 0x01 1001 [10]) 1000
    rfl rfl rfl rfl rfl (by decide)

/-- Witness of C4: the emission of an accumulator of two units. -/
theorem submitAccessUnit_framing_witness :
    sampleAccumulating.mNALUnits ≠ [] ∧
    ∃ au, submitAccessUnit sampleAccumulating
        = some { sampleAccumulating with mNALUnits := [], mAccessUnitDamaged := false,
                                         posted := sampleAccumulating.posted ++ [au] }
      ∧ au.data = (sampleAccumulating.mNALUnits.map
          (fun u => [0x00, 0x00, 0x00, 0x01] ++ u.data)).flatten
      ∧ au.data.length = (sampleAccumulating.mNALUnits.map (fun u => 4 + u.data.length)).sum :=
  ⟨by decide, submitAccessUnit_framing sampleAccumulating (by decide)⟩

/-- C5 (accumulator invariant).  In every state reachable from the initial
state by `addSingleNALUnit` and `submitAccessUnit` steps, every unit of the
accumulator has the capture timestamp `mAccessUnitRTPTime`; and a unit whose
timestamp differs from that of a non-empty accumulator is either dropped at
the keyframe gate (accumulator and output unchanged) or appended only after
the prior accumulation has been posted and cleared. -/
theorem accumulator_single_timestamp (s : State) (h : Reachable s) :
    (∀ u ∈ s.mNALUnits, u.rtpTime = s.mAccessUnitRTPTime)
    ∧ ∀ (env : Env) (buffer : ABuffer) (s' : State),
        addSingleNALUnit env buffer s = some s' →
        s.mNALUnits ≠ [] → buffer.rtpTime ≠ s.mAccessUnitRTPTime →
        (s'.mNALUnits = s.mNALUnits ∧ s'.posted = s.posted)
        ∨ (s'.mNALUnits = [buffer] ∧ ∃ au, s'.posted = s.posted ++ [au]
            ∧ au.data = (s.mNALUnits.map
                (fun u => [0x00, 0x00, 0x00, 0x01] ++ u.data)).flatten) := by
  constructor
  · induction h with
    | init a b c d e => intro u hu; simp [State.init] at hu
    | addSingleNALUnit env buffer s s' _ hstep ih =>
      cases hg : passesGate env buffer s
      · obtain ⟨s2, e2, n2, -, t2, -⟩ := addSingleNALUnit_drop env buffer s hg
        rw [hstep] at e2
        cases e2
        rw [n2, t2]
        exact ih
      · by_cases hsame : s.mNALUnits = [] ∨ buffer.rtpTime = s.mAccessUnitRTPTime
        · obtain ⟨s2, e2, n2, -, t2, -⟩ := addSingleNALUnit_append env buffer s hg hsame
          rw [hstep] at e2
          cases e2
          intro u hu
          rw [n2, List.mem_append, List.mem_singleton] at hu
          rw [t2]
          rcases hu with hu | hu
          · rcases hsame with hs | hs
            · rw [hs] at hu; cases hu
            · rw [hs]; exact ih u hu
          · rw [hu]
        · rw [not_or] at hsame
          obtain ⟨s2, au, e2, n2, -, -, t2, -⟩ :=
            addSingleNALUnit_flush env buffer s hg hsame.1 hsame.2
          rw [hstep] at e2
          cases e2
          intro u hu
          rw [n2, List.mem_singleton] at hu
          rw [t2, hu]
    | submitAccessUnit s s' _ hstep ih =>
      cases hq : s.mNALUnits with
      | nil => simp [submitAccessUnit, hq] at hstep
      | cons first rest =>
        obtain ⟨cvo, hs⟩ := submitAccessUnit_cons s first rest hq
        rw [hstep] at hs
        cases hs
        intro u hu
        cases hu
  · intro env buffer s' hstep hne hdiff
    cases hg : passesGate env buffer s
    · obtain ⟨s2, e2, n2, p2, -⟩ := addSingleNALUnit_drop env buffer s hg
      rw [hstep] at e2
      cases e2
      exact Or.inl ⟨n2, p2⟩
    · obtain ⟨s2, au, e2, n2, p2, d2, -⟩ := addSingleNALUnit_flush env buffer s hg hne hdiff
      rw [hstep] at e2
      cases e2
      exact Or.inr ⟨n2, au, p2, d2⟩

/-- Witness of C5: the state after one unit has been added to the initial
state. -/
theorem accumulator_single_timestamp_witness :
    Reachable sampleAfterOne
    ∧ (∀ u ∈ sampleAfterOne.mNALUnits, u.rtpTime = sampleAfterOne.mAccessUnitRTPTime)
    ∧ ∀ (env : Env) (buffer : ABuffer) (s' : State),
        addSingleNALUnit env buffer sampleAfterOne = some s' →
        sampleAfterOne.mNALUnits ≠ [] → buffer.rtpTime ≠ sampleAfterOne.mAccessUnitRTPTime →
        (s'.mNALUnits = sampleAfterOne.mNALUnits ∧ s'.posted = sampleAfterOne.posted)
        ∨ (s'.mNALUnits = [buffer] ∧ ∃ au, s'.posted = sampleAfterOne.posted ++ [au]
            ∧ au.data = (sampleAfterOne.mNALUnits.map
                (fun u => [0x00, 0x00, 0x00, 0x01] ++ u.data)).flatten) :=
  have hr : Reachable sampleAfterOne :=
    Reachable.addSingleNALUnit sampleEnv (sampleUnit 0x13 1000 [5, 6]) sampleInit sampleAfterOne
      (Reachable.init 0 0 90000 0 0) (by decide)
  ⟨hr, accumulator_single_timestamp sampleAfterOne hr⟩

theorem gateState_inter (env : Env) (buffer : ABuffer) (s : State)
    (hty : nalTypeOf buffer.data < 0x10) : gateState env buffer s = s := by
  have h1 : nalTypeOf buffer.data ≠ H265_NALU_SPS := by
    simp only [H265_NALU_SPS]; omega
  have h2 : ¬ (nalTypeOf buffer.data > 0x0F ∧ nalTypeOf buffer.data < 0x18) := by omega
  unfold gateState checkIFrameProvided checkSpsUpdated
  simp only [h1, h2, if_false]
  split_ifs <;> rfl

/-- C6, counterexample.  With the first-intra-seen flag unset, a unit of type
0x22 (a picture parameter set, outside the intra-coded range 0x10..0x17) is
not dropped: it is appended to the accumulator and no intra-refresh request is
issued. -/
theorem keyframe_gate_counterexample :
    sampleInit.mFirstIFrameProvided = false
    ∧ ¬ (0x10 ≤ nalTypeOf (sampleUnit 0x22 1000 [1]).data
          ∧ nalTypeOf (sampleUnit 0x22 1000 [1]).data ≤ 0x17)
    ∧ ∃ s', addSingleNALUnit sampleEnv (sampleUnit 0x22 1000 [1]) sampleInit = some s'
        ∧ s'.mNALUnits = sampleInit.mNALUnits ++ [sampleUnit 0x22 1000 [1]]
        ∧ s'.mNALUnits ≠ sampleInit.mNALUnits
        ∧ s'.firIssued = sampleInit.firIssued := by
  refine ⟨rfl, by decide, _, rfl, ?_, ?_, ?_⟩ <;> decide

/-- C6, as amended.  While the first-intra-seen flag is unset, every non-empty
unit whose type is below 0x10 passed to `addSingleNALUnit` is dropped: the
state is left as it was (accumulator unchanged, nothing posted) except that
exactly one intra-refresh request is issued when the unit carries its
`"source"` entry, and none when it does not.  A unit that is empty or whose
type is 0x10 or above is not dropped: it becomes the last unit of the
accumulator and no intra-refresh request is issued. -/
theorem keyframe_gate_drops (env : Env) (buffer : ABuffer) (s : State)
    (hflag : s.mFirstIFrameProvided = false) :
    (buffer.data ≠ [] → nalTypeOf buffer.data < 0x10 →
      addSingleNALUnit env buffer s
        = some { s with firIssued := s.firIssued + (if buffer.source then 1 else 0) })
    ∧ (buffer.data = [] ∨ 0x10 ≤ nalTypeOf buffer.data →
        ∃ s', addSingleNALUnit env buffer s = some s'
          ∧ s'.mNALUnits.getLast? = some buffer ∧ s'.firIssued = s.firIssued) := by
  constructor
  · intro hne hty
    have hg := gateState_inter env buffer s hty
    have hlen : buffer.data.length ≠ 0 := by
      intro h; exact hne (List.length_eq_zero.mp h)
    have hd : dropFramesUntilIframe buffer s = true := by
      simp [dropFramesUntilIframe, hlen, hflag, hty]
    rw [addSingleNALUnit_eq, hg, if_pos hd]
    cases buffer.source <;> rfl
  · intro hpass
    have hg : passesGate env buffer s = true := by
      unfold passesGate dropFramesUntilIframe
      rcases hpass with h | h
      · simp [h]
      · have : ¬ nalTypeOf buffer.data < 0x10 := by omega
        simp [this]
    by_cases hsame : s.mNALUnits = [] ∨ buffer.rtpTime = s.mAccessUnitRTPTime
    · obtain ⟨s', hs, hn, -, -, hf⟩ := addSingleNALUnit_append env buffer s hg hsame
      exact ⟨s', hs, by rw [hn]; simp, hf⟩
    · rw [not_or] at hsame
      obtain ⟨s', au, hs, hn, -, -, -, hf⟩ :=
        addSingleNALUnit_flush env buffer s hg hsame.1 hsame.2
      exact ⟨s', hs, by rw [hn]; rfl, hf⟩

/-- Witness of C6 as amended: an inter-coded unit carrying its source, added to
the initial state. -/
theorem keyframe_gate_drops_witness :
    addSingleNALUnit sampleEnv sampleInterWithSource sampleInit
      = some { sampleInit with
                 firIssued := sampleInit.firIssued
                   + (if sampleInterWithSource.source then 1 else 0) } :=
  (keyframe_gate_drops sampleEnv sampleInterWithSource sampleInit rfl).1 (by decide) (by decide)

theorem bigEndian16 (n : Nat) (h : n ≤ 65535) :
    ((n / 256 % 256) <<< 8) ||| (n % 256 % 256) = n := by
  have h1 : n % 256 % 256 < 2 ^ 8 := by omega
  rw [Nat.shiftLeft_eq, Nat.mul_comm, ← Nat.mul_add_lt_is_or h1]
  omega

theorem feedUnits_total (env : Env) (units : List ABuffer) (s : State) :
    ∃ s', feedUnits env units s = some s' := by
  induction units generalizing s with
  | nil => exact ⟨s, rfl⟩
  | cons u us ih =>
    obtain ⟨s1, h1⟩ := addSingleNALUnit_total env u s
    obtain ⟨s2, h2⟩ := ih s1
    exact ⟨s2, by simp [feedUnits, h1, h2]⟩

theorem stapLoop_records (env : Env) (buffer : ABuffer) (units : List (List Nat))
    (hlen : ∀ u ∈ units, u.length ≤ 65535) (fuel : Nat) (hfuel : units.length < fuel)
    (s : State) :
    stapLoop env buffer fuel
        (units.map (fun u => [u.length / 256, u.length % 256] ++ u)).flatten s
      = (feedUnits env (units.map (embeddedUnit buffer)) s).map (fun s' => (true, s')) := by
  induction units generalizing fuel s with
  | nil =>
    cases fuel with
    | zero => omega
    | succ f => simp [stapLoop, feedUnits]
  | cons u us ih =>
    cases fuel with
    | zero => omega
    | succ f =>
      have hu : u.length ≤ 65535 := hlen u (List.mem_cons_self _ _)
      have hsz := bigEndian16 u.length hu
      simp only [List.map_cons, List.flatten_cons, List.cons_append, List.nil_append, stapLoop,
        byteAt, List.getD_cons_zero, List.getD_cons_succ, hsz, List.length_cons, List.length_append,
        List.drop_succ_cons, List.drop_zero, List.take_left, feedUnits]
      have hge : u.length + (List.map (fun u => u.length / 256 :: u.length % 256 :: u) us).flatten.length
          + 1 + 1 ≥ 2 := by omega
      have hlt : ¬ (u.length + (List.map (fun u => u.length / 256 :: u.length % 256 :: u) us).flatten.length
          + 1 + 1 < u.length + 2) := by omega
      rw [if_pos hge, if_neg hlt]
      have hunit : CopyTimes
          { data := memcpy (ABuffer.new u.length).data 0 u, int32Data := (ABuffer.new u.length).int32Data,
            rtpTime := (ABuffer.new u.length).rtpTime, cvo := (ABuffer.new u.length).cvo,
            source := (ABuffer.new u.length).source, damaged := (ABuffer.new u.length).damaged }
          buffer = embeddedUnit buffer u := by
        have := memcpy_zeros [] u u.length
        simp only [List.nil_append, List.length_nil, Nat.sub_self, List.replicate_zero,
          List.append_nil] at this
        simp [CopyTimes, ABuffer.new, embeddedUnit, this]
      rw [hunit]
      have hdrop : List.drop (2 + u.length)
          (u.length / 256 :: u.length % 256 ::
            (u ++ (List.map (fun u => u.length / 256 :: u.length % 256 :: u) us).flatten))
          = (List.map (fun u => [u.length / 256, u.length % 256] ++ u) us).flatten := by
        rw [show 2 + u.length = u.length + 1 + 1 by omega]
        simp
      rw [hdrop]
      cases hadd : addSingleNALUnit env (embeddedUnit buffer u) s with
      | none => rfl
      | some s1 =>
        simp only [Option.bind_eq_bind, Option.some_bind]
        exact ih (fun v hv => hlen v (List.mem_cons_of_mem _ hv)) f
          (by simp only [List.length_cons] at hfuel; omega) s1

/-- C2 (aggregation round-trip).  For every list of `m ≥ 1` units of at most
65535 bytes each, the payload made of the type byte followed by
`[2-byte big-endian length][bytes]` for each unit makes
`addSingleTimeAggregationPacket` return success, and the state it leaves is
the one reached by passing exactly the `m` units, in the original order and
with their original bytes, to `addSingleNALUnit`. -/
theorem aggregation_round_trip (env : Env) (buffer : ABuffer) (s : State) (typeByte : Nat)
    (units : List (List Nat)) (hm : units ≠ []) (hlen : ∀ u ∈ units, u.length ≤ 65535)
    (hdata : buffer.data = aggregationPayload typeByte units) :
    ∃ s', feedUnits env (units.map (embeddedUnit buffer)) s = some s'
      ∧ addSingleTimeAggregationPacket env buffer s = some (true, s')
      ∧ (units.map (embeddedUnit buffer)).length = units.length
      ∧ (units.map (embeddedUnit buffer)).map ABuffer.data = units := by
  obtain ⟨s', hs'⟩ := feedUnits_total env (units.map (embeddedUnit buffer)) s
  refine ⟨s', hs', ?_, by simp, ?_⟩
  · have hsize : ¬ buffer.data.length < 3 := by
      cases units with
      | nil => exact absurd rfl hm
      | cons u us => rw [hdata]; simp [aggregationPayload]
    have hfuel : units.length < buffer.data.length := by
      rw [hdata]
      clear hdata hm hlen hs' hsize
      induction units with
      | nil => simp [aggregationPayload]
      | cons u us ih =>
        simp only [aggregationPayload, List.map_cons, List.flatten_cons, List.length_cons,
          List.length_append] at ih ⊢
        omega
    unfold addSingleTimeAggregationPacket
    simp only [if_neg hsize]
    have hdrop : buffer.data.drop 1
        = (units.map (fun u => [u.length / 256, u.length % 256] ++ u)).flatten := by
      rw [hdata]; rfl
    rw [hdrop, stapLoop_records env buffer units hlen _ hfuel s, hs']
    rfl
  · rw [List.map_map]
    exact List.map_id _

/-- Witness of C2: a packet aggregating a unit of 3 bytes and a unit of 2
bytes, added to the initial state. -/
theorem aggregation_round_trip_witness :
    ∃ s', feedUnits sampleEnv
            ([[0x26, 0x01, 0xAA], [0x02, 0x01]].map (embeddedUnit sampleAggregation)) sampleInit
          = some s'
      ∧ addSingleTimeAggregationPacket sampleEnv sampleAggregation sampleInit = some (true, s')
      ∧ ([[0x26, 0x01, 0xAA], [0x02, 0x01]].map (embeddedUnit sampleAggregation)).length
          = [[0x26, 0x01, 0xAA], [0x02, 0x01]].length
      ∧ ([[0x26, 0x01, 0xAA], [0x02, 0x01]].map (embeddedUnit sampleAggregation)).map ABuffer.data
          = [[0x26, 0x01, 0xAA], [0x02, 0x01]] :=
  aggregation_round_trip sampleEnv sampleAggregation sampleInit 0x60
    [[0x26, 0x01, 0xAA], [0x02, 0x01]] (by decide) (by decide) rfl

/-- The shift that computes the mask is out of range as soon as the count
exceeds 17: the mask is then undefined. -/
theorem nackMask_undefined (nackCount : Int) (h : nackCount > 17) :
    nackShift nackCount < 0 ∧ nackMask nackCount = none := by
  have hs : nackShift nackCount < 0 := by unfold nackShift; omega
  refine ⟨hs, ?_⟩
  unfold nackMask
  simp only []
  rw [if_neg (by omega)]

/-- The request `addNack` issues when the first two queued packets are apart:
it starts behind the first packet, its count is the number of missing
sequence numbers, without a clamp, and the watermark becomes the last missing
sequence number. -/
theorem addNack_first_gap (s : State) (a b : ABuffer) (rest : List ABuffer)
    (hq : s.queue = a :: b :: rest) (ha : a.int32Data ≥ s.mHighestNackNumber)
    (hgap : b.int32Data > a.int32Data + 1) (hnew : b.int32Data - 1 > s.mHighestNackNumber)
    (hstart : a.int32Data + 1 ≠ -1) :
    addNack s
      = ({ s with
            mHighestNackNumber := b.int32Data - 1
            nackRequests := s.nackRequests ++
              [{ nackStartAt := a.int32Data + 1
                 mask := nackMask (b.int32Data - 1 - (a.int32Data + 1) + 1)
                 queueHeadSeqNum := u16 a.int32Data }] },
         b.int32Data - 1 - (a.int32Data + 1) + 1) := by
  have hneg : ¬ (b.int32Data - a.int32Data < 0) := by omega
  unfold addNack
  rw [hq]
  simp only [nackSkip, ha, if_true, nackScan, hneg, if_false, hgap, hnew, and_self, ne_eq,
    hstart, not_false_eq_true]

/-- C9, the code at the failing input.  On a queue holding sequence numbers 100
and 121 (twenty missing), `addNack` returns the count 20, which is not clamped
to 16; the shift `16 - nackCount + 1` that computes the mask then has the
amount -3, outside the range in which the shift is defined, and the request is
issued with that undefined mask. -/
theorem addNack_count_not_clamped :
    (addNack gapOfTwenty).2 = 20
    ∧ nackShift (addNack gapOfTwenty).2 = -3
    ∧ nackMask (addNack gapOfTwenty).2 = none
    ∧ (addNack gapOfTwenty).1.nackRequests
        = [{ nackStartAt := 101, mask := none, queueHeadSeqNum := 100 }]
    ∧ (addNack gapOfTwenty).1.mHighestNackNumber = 120 := by
  decide

theorem fuHeader_bits : ∀ (start last : Bool), ∀ t < 64,
    (fuHeader start last t % 256) &&& 0x3F = t
    ∧ ((fuHeader start last t % 256) &&& 0x80 = 0 ↔ start = false)
    ∧ ((fuHeader start last t % 256) &&& 0x40 = 0 ↔ last = false) := by
  decide

theorem nalHeader_byte : ∀ t < 64, (t <<< 1) % 256 = t <<< 1 := by decide

/-- What the assembler reads in a fragment. -/
theorem IsFragment.reads {t tid T seq : Nat} {start last : Bool} {piece : List Nat}
    {p : ABuffer} (h : IsFragment t tid T seq start last piece p) (ht : t < 64) :
    p.data.length = 3 + piece.length
    ∧ byteAt p.data 0 >>> 1 = H265_NALU_FU
    ∧ nalTypeOf p.data = H265_NALU_FU
    ∧ byteAt p.data 1 &&& 0x7 = tid
    ∧ byteAt p.data 2 &&& H265_NALU_MASK = t
    ∧ (byteAt p.data 2 &&& 0x80 = 0 ↔ start = false)
    ∧ (byteAt p.data 2 &&& 0x40 = 0 ↔ last = false)
    ∧ p.data.drop 3 = piece := by
  obtain ⟨h0, h1, hd, hh0, hh1, htid⟩ := h.bytes
  obtain ⟨b1, b2, b3⟩ := fuHeader_bits start last t ht
  have h0v : h0 = 98 ∨ h0 = 99 := by
    rw [Nat.shiftRight_eq_div_pow] at hh0
    simp only [H265_NALU_FU] at hh0
    omega
  have hb0 : byteAt p.data 0 >>> 1 = H265_NALU_FU := by
    rw [hd]
    simp only [byteAt, List.getD_cons_zero]
    rcases h0v with e | e <;> subst e <;> decide
  refine ⟨by rw [hd]; simp; omega, hb0, ?_, ?_, ?_, ?_, ?_, by rw [hd]; rfl⟩
  · unfold nalTypeOf
    rw [hb0]
    decide
  · rw [hd]
    simp only [byteAt, List.getD_cons_succ, List.getD_cons_zero]
    rw [Nat.mod_eq_of_lt hh1]
    exact htid
  · rw [hd]; exact b1
  · rw [hd]; exact b2
  · rw [hd]; exact b3

theorem recycleUnit_connected (seq n avail : Nat) (hseq : seq < 4294967296) (h0 : 0 < n)
    (hn : n < 4294967296) :
    recycleUnit seq ((seq + n) % 4294967296) n avail (1 / 2) = true := by
  have htot : ((seq + n) % 4294967296 + 4294967296 - seq) % 4294967296 = n := by omega
  have hval : n % 4294967296 = n := Nat.mod_eq_of_lt hn
  unfold recycleUnit
  simp only [htot, hval]
  have hne : (n : ℚ) ≠ 0 := by
    have : (0 : ℚ) < n := by exact_mod_cast h0
    exact ne_of_gt this
  rw [if_neg hne, div_self hne]
  norm_num

/-- One iteration of the scanning loop on a well-formed continuation fragment
that carries the expected sequence number, before any gap. -/
theorem fuScan_step (t tid T startSeqNo : Nat) (pFrame : Bool) (s : State) (ht : t < 64)
    (p : ABuffer) (l : List ABuffer) (last : Bool) (piece : List Nat) (e ts tc c : Nat)
    (hp : IsFragment t tid T e false last piece p) :
    fuScan (H265_NALU_FU) t T startSeqNo pFrame s (p :: l) e ts tc c false
      = if last then
          (if pFrame && !recycleUnit startSeqNo ((e + 1) % 4294967296) (c + 1) (tc + 1) (1 / 2)
           then FUScan.ret AssemblyStatus.MALFORMED_PACKET
             { s with mNextExpectedSeqNo := (e + 1) % 4294967296,
                      queue := (deleteUnitUnderSeq s.queue ((e + 1) % 4294967296)).1 }
           else FUScan.left true ((e + 1) % 4294967296) (ts + piece.length) (tc + 1))
        else fuScan (H265_NALU_FU) t T startSeqNo pFrame s l ((e + 1) % 4294967296)
               (ts + piece.length) (tc + 1) (c + 1) false := by
  obtain ⟨r1, -, r3, -, r5, r6, r7, -⟩ := hp.reads ht
  have hseq := hp.seqNo
  have htime := hp.time
  have r6' : byteAt p.data 2 &&& 0x80 = 0 := r6.mpr rfl
  have hmal : ¬ (p.data.length < 3 ∨ nalTypeOf p.data ≠ H265_NALU_FU
      ∨ byteAt p.data 2 &&& H265_NALU_MASK ≠ t ∨ byteAt p.data 2 &&& 0x80 ≠ 0
      ∨ p.rtpTime ≠ T) := by
    rw [r1, r3, r5, r6', htime]
    simp
  have hsz : p.data.length - 3 = piece.length := by omega
  rw [fuScan]
  simp only [hseq, ne_eq, not_true_eq_false, decide_False, Bool.or_false, Bool.false_and,
    Bool.false_eq_true, if_false, Bool.not_false, if_true, hmal, hsz]
  cases last
  · have : byteAt p.data 2 &&& 0x40 = 0 := r7.mpr rfl
    simp [this]
  · have : ¬ (byteAt p.data 2 &&& 0x40 = 0) := by
      intro h; exact absurd (r7.mp h) (by simp)
    simp [this]

theorem fuScan_run (t tid T startSeqNo : Nat) (pFrame : Bool) (s : State) (ht : t < 64)
    (rest : List ABuffer) (conts : List ABuffer) :
    ∀ (pieces : List (List Nat)) (e ts tc c : Nat),
      IsFragmentRun t tid T e false pieces conts →
      recycleUnit startSeqNo ((e + conts.length) % 4294967296) (c + conts.length)
        (tc + conts.length) (1 / 2) = true →
      fuScan (H265_NALU_FU) t T startSeqNo pFrame s (conts ++ rest) e ts tc c false
        = FUScan.left true ((e + conts.length) % 4294967296) (ts + pieces.flatten.length)
            (tc + conts.length) := by
  induction conts with
  | nil =>
    intro pieces e ts tc c hrun _
    rcases pieces with _ | ⟨piece, _ | ⟨piece2, more⟩⟩ <;> simp [IsFragmentRun] at hrun
  | cons p ps ih =>
    intro pieces e ts tc c hrun hrec
    rcases pieces with _ | ⟨piece, _ | ⟨piece2, more⟩⟩
    · simp [IsFragmentRun] at hrun
    · cases ps with
      | cons q qs => simp [IsFragmentRun] at hrun
      | nil =>
        simp only [IsFragmentRun] at hrun
        simp only [List.length_cons, List.length_nil, zero_add] at hrec ⊢
        rw [List.cons_append, fuScan_step t tid T startSeqNo pFrame s ht p _ true piece e ts tc c hrun]
        simp only [if_true]
        rw [hrec]
        simp
    · simp only [IsFragmentRun] at hrun
      obtain ⟨hp, hrun2⟩ := hrun
      have hmod : ((e + 1) % 4294967296 + ps.length) % 4294967296
          = (e + (ps.length + 1)) % 4294967296 := by omega
      rw [List.cons_append,
        fuScan_step t tid T startSeqNo pFrame s ht p _ false piece e ts tc c hp]
      simp only [Bool.false_eq_true, if_false]
      rw [ih (piece2 :: more) ((e + 1) % 4294967296) (ts + piece.length) (tc + 1) (c + 1) hrun2
        (by
          simp only [List.length_cons] at hrec
          rw [hmod, show c + 1 + ps.length = c + (ps.length + 1) by omega,
            show tc + 1 + ps.length = tc + (ps.length + 1) by omega]
          exact hrec)]
      simp only [List.length_cons, List.flatten_cons, List.length_append, hmod]
      congr 1 <;> omega

theorem fuCopy_run (t tid T : Nat) (ht : t < 64) (rest : List ABuffer) (pkts : List ABuffer) :
    ∀ (pieces : List (List Nat)) (seq : Nat) (start : Bool) (w : List Nat) (n : Nat) (cvo : Int),
      IsFragmentRun t tid T seq start pieces pkts →
      ∃ cvo2, fuCopy pkts.length (pkts ++ rest) (w ++ List.replicate n 0, w.length, cvo)
        = some (rest, w ++ pieces.flatten ++ List.replicate (n - pieces.flatten.length) 0,
            w.length + pieces.flatten.length, cvo2) := by
  induction pkts with
  | nil =>
    intro pieces seq start w n cvo hrun
    rcases pieces with _ | ⟨piece, _ | ⟨piece2, more⟩⟩ <;> simp [IsFragmentRun] at hrun
  | cons p ps ih =>
    intro pieces seq start w n cvo hrun
    rcases pieces with _ | ⟨piece, _ | ⟨piece2, more⟩⟩
    · simp [IsFragmentRun] at hrun
    · cases ps with
      | cons q qs => simp [IsFragmentRun] at hrun
      | nil =>
        simp only [IsFragmentRun] at hrun
        obtain ⟨r1, -, -, -, -, -, -, r8⟩ := hrun.reads ht
        refine ⟨p.cvo.getD cvo, ?_⟩
        simp only [List.length_cons, List.length_nil, zero_add, List.cons_append, fuCopy, r8,
          memcpy_zeros, List.flatten_cons, List.flatten_nil, List.append_nil, List.nil_append]
        have : p.data.length - 3 = piece.length := by omega
        rw [this]
        rfl
    · simp only [IsFragmentRun] at hrun
      obtain ⟨hp, hrun2⟩ := hrun
      obtain ⟨r1, -, -, -, -, -, -, r8⟩ := hp.reads ht
      obtain ⟨cvo2, h2⟩ := ih (piece2 :: more) _ false (w ++ piece) (n - piece.length)
        (p.cvo.getD cvo) hrun2
      refine ⟨cvo2, ?_⟩
      have hsz : p.data.length - 3 = piece.length := by omega
      simp only [List.length_cons, List.cons_append, fuCopy, r8, memcpy_zeros, hsz,
        List.append_eq]
      simp only [List.length_append, List.length_cons] at h2
      rw [h2]
      have e1 : n - piece.length - (piece2 :: more).flatten.length
          = n - (piece :: piece2 :: more).flatten.length := by
        simp only [List.flatten_cons, List.length_append]; omega
      have e2 : w.length + piece.length + (piece2 :: more).flatten.length
          = w.length + (piece :: piece2 :: more).flatten.length := by
        simp only [List.flatten_cons, List.length_append]; omega
      rw [e1, e2]
      simp only [List.flatten_cons, List.append_assoc]

theorem set_header (n a b : Nat) :
    ((List.replicate (n + 2) 0).set 0 a).set 1 b = [a, b] ++ List.replicate n 0 := by
  simp [List.replicate_succ]

/-- The assembly of a complete run of fragments: the unit passed to
`addSingleNALUnit` has the rebuilt header followed by the payloads, and the
fragments have left the queue. -/
theorem fuAssemble_run (env : Env) (s : State) (buffer : ABuffer) (t tid T seq e : Nat)
    (start : Bool) (ht : t < 64) (pieces : List (List Nat)) (pkts rest : List ABuffer)
    (hrun : IsFragmentRun t tid T seq start pieces pkts) (hq : s.queue = pkts ++ rest) :
    ∃ cvo, fuAssemble env s buffer t tid e pieces.flatten.length pkts.length
      = (addSingleNALUnit env
            { data := [t <<< 1, tid] ++ pieces.flatten, int32Data := buffer.int32Data,
              rtpTime := buffer.rtpTime, cvo := cvo, source := false, damaged := false }
            { s with mNextExpectedSeqNo := e, queue := rest }).map
          (fun s' => (AssemblyStatus.OK, s')) := by
  obtain ⟨cvo2, hc⟩ := fuCopy_run t tid T ht rest pkts pieces seq start [t <<< 1, tid]
    pieces.flatten.length (-1) hrun
  simp only [Nat.sub_self, List.replicate_zero, List.append_nil, List.length_cons,
    List.length_nil, zero_add] at hc
  refine ⟨if cvo2 ≥ 0 then some cvo2 else none, ?_⟩
  unfold fuAssemble
  simp only [ABuffer.new, CopyTimes, set_header, nalHeader_byte t ht, hq, hc,
    Option.bind_eq_bind, Option.some_bind]
  have htake : List.take (pieces.flatten.length + 2) ([t <<< 1, tid] ++ pieces.flatten)
      = [t <<< 1, tid] ++ pieces.flatten := by
    apply List.take_of_length_le
    simp
  rw [htake]
  by_cases hcvo : cvo2 ≥ 0
  · simp only [hcvo, if_true]
    cases addSingleNALUnit env _ _ <;> rfl
  · simp only [hcvo, if_false]
    cases addSingleNALUnit env _ _ <;> rfl

/-- C1 (fragment round-trip).  Take a unit of type `t` and temporal-id `tid`,
that is the 2-byte header `[t << 1, tid]` followed by a body, and any split of
the body into `k ≥ 1` pieces carried by packets at the head of the queue with
consecutive sequence numbers, one capture timestamp and the 3-byte
fragmentation header (start flag on the first only, end flag on the last
only).  Then `addFragmentedNALUnit` returns `OK`, takes exactly these packets
from the queue, moves the cursor behind the last one, and passes to
`addSingleNALUnit` a unit whose bytes are the original unit's bytes. -/
theorem fragment_round_trip (env : Env) (s : State) (t tid T seq : Nat)
    (pieces : List (List Nat)) (pkts rest : List ABuffer)
    (ht : t < 64) (hrun : IsFragmentRun t tid T seq true pieces pkts)
    (hq : s.queue = pkts ++ rest) (hlen : pkts.length < 2147483648) :
    ∃ unit s', addFragmentedNALUnit env s = some (AssemblyStatus.OK, s')
      ∧ unit.data = [t <<< 1, tid] ++ pieces.flatten
      ∧ unit.rtpTime = T
      ∧ addSingleNALUnit env unit
          { s with mNextExpectedSeqNo := (seq + pkts.length) % 4294967296, queue := rest }
          = some s'
      ∧ s'.queue = rest
      ∧ s'.mNextExpectedSeqNo = (seq + pkts.length) % 4294967296 := by
  rcases pkts with _ | ⟨p0, ps⟩
  · rcases pieces with _ | ⟨piece, _ | ⟨piece2, more⟩⟩ <;> simp [IsFragmentRun] at hrun
  rcases pieces with _ | ⟨piece0, more⟩
  · simp [IsFragmentRun] at hrun
  -- the start fragment
  have hp0 : ∃ last, IsFragment t tid T seq true last piece0 p0 := by
    rcases more with _ | ⟨piece2, more⟩
    · cases ps with
      | nil => exact ⟨true, by simpa [IsFragmentRun] using hrun⟩
      | cons q qs => simp [IsFragmentRun] at hrun
    · exact ⟨false, (by simpa [IsFragmentRun] using hrun : _ ∧ _).1⟩
  obtain ⟨last0, hp0⟩ := hp0
  obtain ⟨r1, r2, -, r4, r5, r6, r7, -⟩ := hp0.reads ht
  have hseq0 := hp0.seqNo
  have hT0 := hp0.time
  have hseqlt : seq < 4294967296 := by
    rw [← hseq0]; unfold u32; omega
  -- the scanning loop finds the run complete
  have hscan : (if byteAt p0.data 2 &&& 0x40 ≠ 0 then
        FUScan.left true ((seq + 1) % 4294967296) (p0.data.length - 3) 1
      else fuScan H265_NALU_FU t T seq (decide (t < 0x10)) s (ps ++ rest)
        ((seq + 1) % 4294967296) (p0.data.length - 3) 1 1 false)
      = FUScan.left true ((seq + (p0 :: ps).length) % 4294967296)
          (piece0 :: more).flatten.length (p0 :: ps).length := by
    have hsz : p0.data.length - 3 = piece0.length := by omega
    rcases more with _ | ⟨piece2, more⟩
    · cases ps with
      | cons q qs => simp [IsFragmentRun] at hrun
      | nil =>
        have hl : IsFragment t tid T seq true true piece0 p0 := by
          simpa [IsFragmentRun] using hrun
        obtain ⟨-, -, -, -, -, -, l7, -⟩ := hl.reads ht
        have : byteAt p0.data 2 &&& 0x40 ≠ 0 := fun h => absurd (l7.mp h) (by simp)
        rw [if_pos this, hsz]
        simp
    · obtain ⟨hl, hrun2⟩ := (by simpa [IsFragmentRun] using hrun :
        IsFragment t tid T seq true false piece0 p0
          ∧ IsFragmentRun t tid T ((seq + 1) % 4294967296) false (piece2 :: more) ps)
      obtain ⟨-, -, -, -, -, -, l7, -⟩ := hl.reads ht
      have : ¬ (byteAt p0.data 2 &&& 0x40 ≠ 0) := by
        simp only [ne_eq, not_not]; exact l7.mpr rfl
      have hmod : ((seq + 1) % 4294967296 + ps.length) % 4294967296
          = (seq + (ps.length + 1)) % 4294967296 := by omega
      rw [if_neg this, hsz,
        fuScan_run t tid T seq (decide (t < 0x10)) s ht rest ps (piece2 :: more)
          ((seq + 1) % 4294967296) piece0.length 1 1 hrun2
          (by
            rw [hmod, show 1 + ps.length = ps.length + 1 by omega]
            exact recycleUnit_connected seq (ps.length + 1) _ hseqlt (by omega)
              (by simp only [List.length_cons] at hlen; omega))]
      simp only [List.length_cons, List.flatten_cons, List.length_append, hmod]
      congr 1
      omega
  obtain ⟨cvo, hasm⟩ := fuAssemble_run env s p0 t tid T seq
    ((seq + (p0 :: ps).length) % 4294967296) true ht (piece0 :: more) (p0 :: ps) rest hrun hq
  obtain ⟨s', hs'⟩ := addSingleNALUnit_total env
    { data := [t <<< 1, tid] ++ (piece0 :: more).flatten, int32Data := p0.int32Data,
      rtpTime := p0.rtpTime, cvo := cvo, source := false, damaged := false }
    { s with mNextExpectedSeqNo := (seq + (p0 :: ps).length) % 4294967296, queue := rest }
  obtain ⟨k1, k2, -⟩ := addSingleNALUnit_keepsQueue _ _ _ _ hs'
  refine ⟨{ data := [t <<< 1, tid] ++ (piece0 :: more).flatten, int32Data := p0.int32Data,
            rtpTime := p0.rtpTime, cvo := cvo, source := false, damaged := false },
    s', ?_, rfl, hT0, hs', k1, k2⟩
  have hstart : ¬ (byteAt p0.data 2 &&& 0x80 = 0) := fun h => absurd (r6.mp h) (by simp)
  have hq' : s.queue = p0 :: (ps ++ rest) := hq
  unfold addFragmentedNALUnit
  rw [hq']
  simp only [r2, r4, r5, hseq0, hT0]
  rw [if_neg (by omega), if_neg (by decide), if_neg (by omega), if_neg hstart, hscan]
  simp only []
  rw [hasm, hs']
  rfl

/-- One iteration of the scanning loop of `addFragmentedNALUnit`. -/
theorem fuScan_cons (indicator nalType rtp startSeqNo : Nat) (pFrame : Bool) (s : State)
    (p : ABuffer) (l : List ABuffer) (e ts tc c : Nat) (snapped : Bool) :
    fuScan indicator nalType rtp startSeqNo pFrame s (p :: l) e ts tc c snapped
      = if decide (u32 p.int32Data ≠ e) && !pFrame then
          FUScan.ret AssemblyStatus.WRONG_SEQUENCE_NUMBER s
        else if fuMalformed indicator nalType rtp p then
          FUScan.ret AssemblyStatus.MALFORMED_PACKET
            { s with mNextExpectedSeqNo := (e + 1) % 4294967296,
                     queue := (deleteUnitUnderSeq s.queue ((e + 1) % 4294967296)).1 }
        else if fuEnd p then
          (if pFrame && !recycleUnit startSeqNo ((u32 p.int32Data + 1) % 4294967296)
                (if !(snapped || decide (u32 p.int32Data ≠ e)) then c + 1 else c) (tc + 1) (1 / 2)
           then FUScan.ret AssemblyStatus.MALFORMED_PACKET
             { s with mNextExpectedSeqNo := (u32 p.int32Data + 1) % 4294967296,
                      queue := (deleteUnitUnderSeq s.queue
                        ((u32 p.int32Data + 1) % 4294967296)).1 }
           else FUScan.left true ((u32 p.int32Data + 1) % 4294967296)
             (ts + (p.data.length - 3)) (tc + 1))
        else
          fuScan indicator nalType rtp startSeqNo pFrame s l
            ((u32 p.int32Data + 1) % 4294967296) (ts + (p.data.length - 3)) (tc + 1)
            (if !(snapped || decide (u32 p.int32Data ≠ e)) then c + 1 else c)
            (snapped || decide (u32 p.int32Data ≠ e)) := by
  rw [fuScan]
  simp only [fuMalformed, fuEnd, decide_eq_true_eq]

theorem payloads_length_cons (p : ABuffer) (ps : List ABuffer) :
    (payloads (p :: ps)).length = (p.data.length - 3) + (payloads ps).length := by
  simp [payloads]

theorem fuCopy_payloads (rest : List ABuffer) (pkts : List ABuffer) :
    ∀ (w : List Nat) (n : Nat) (cvo : Int),
      ∃ cvo2, fuCopy pkts.length (pkts ++ rest) (w ++ List.replicate n 0, w.length, cvo)
        = some (rest, w ++ payloads pkts ++ List.replicate (n - (payloads pkts).length) 0,
            w.length + (payloads pkts).length, cvo2) := by
  induction pkts with
  | nil => intro w n cvo; exact ⟨cvo, by simp [fuCopy, payloads]⟩
  | cons p ps ih =>
    intro w n cvo
    obtain ⟨cvo2, h2⟩ := ih (w ++ p.data.drop 3) (n - (p.data.drop 3).length) (p.cvo.getD cvo)
    refine ⟨cvo2, ?_⟩
    simp only [List.length_cons, List.cons_append, fuCopy, memcpy_zeros, List.append_eq,
      List.length_drop]
    simp only [List.length_append, List.length_drop] at h2
    rw [h2]
    have e1 : n - (p.data.length - 3) - (payloads ps).length
        = n - (payloads (p :: ps)).length := by
      rw [payloads_length_cons]; omega
    have e2 : w.length + (p.data.length - 3) + (payloads ps).length
        = w.length + (payloads (p :: ps)).length := by
      rw [payloads_length_cons]; omega
    rw [e1, e2]
    simp [payloads, List.append_assoc]

/-- The assembly of a complete run: when the fragments counted by the scanning
loop are the packets `pkts` at the head of the queue, the unit passed to
`addSingleNALUnit` is the 2-byte header followed by their payloads, and the
fragments have left the queue. -/
theorem fuAssemble_payloads (env : Env) (s : State) (buffer : ABuffer) (nalType tid e : Nat)
    (pkts rest : List ABuffer) (hq : s.queue = pkts ++ rest) :
    ∃ cvo, fuAssemble env s buffer nalType tid e (payloads pkts).length pkts.length
      = (addSingleNALUnit env
            { data := [(nalType <<< 1) % 256, tid] ++ payloads pkts,
              int32Data := buffer.int32Data, rtpTime := buffer.rtpTime, cvo := cvo,
              source := false, damaged := false }
            { s with mNextExpectedSeqNo := e, queue := rest }).map
          (fun s' => (AssemblyStatus.OK, s')) := by
  obtain ⟨cvo2, hc⟩ := fuCopy_payloads rest pkts [(nalType <<< 1) % 256, tid]
    (payloads pkts).length (-1)
  simp only [Nat.sub_self, List.replicate_zero, List.append_nil, List.length_cons,
    List.length_nil, zero_add] at hc
  refine ⟨if cvo2 ≥ 0 then some cvo2 else none, ?_⟩
  unfold fuAssemble
  simp only [ABuffer.new, CopyTimes, set_header, hq, hc, Option.bind_eq_bind, Option.some_bind]
  have htake : List.take ((payloads pkts).length + 2) ([(nalType <<< 1) % 256, tid] ++ payloads pkts)
      = [(nalType <<< 1) % 256, tid] ++ payloads pkts := by
    apply List.take_of_length_le
    simp
  rw [htake]
  by_cases hcvo : cvo2 ≥ 0
  · simp only [hcvo, if_true]
    cases addSingleNALUnit env _ _ <;> rfl
  · simp only [hcvo, if_false]
    cases addSingleNALUnit env _ _ <;> rfl

/-- The comparison of `recycleUnit` with the ratio 0.5, as a fraction of the
connected count over the span of sequence numbers. -/
theorem recycleUnit_half (start endSeq connected avail : Nat) (hs : start < endSeq)
    (he : endSeq < 4294967296) (hc : connected < 4294967296) :
    recycleUnit start endSeq connected avail (1 / 2)
      = decide ((connected : ℚ) / ((endSeq - start : Nat) : ℚ) ≥ 1 / 2) := by
  have htot : (endSeq + 4294967296 - start) % 4294967296 = endSeq - start := by omega
  have hne : (((endSeq - start : Nat)) : ℚ) ≠ 0 := by
    have : 0 < endSeq - start := by omega
    exact_mod_cast this.ne'
  unfold recycleUnit
  simp only [htot, Nat.mod_eq_of_lt hc]
  rw [if_neg hne]

theorem contiguousCount_le (M : Nat) (l : List ABuffer) :
    ∀ e, l.Pairwise (fun a b => u32 a.int32Data < u32 b.int32Data) →
      (∀ p ∈ l, u32 p.int32Data ≤ M) →
      contiguousCount e l = 0 ∨ contiguousCount e l + e ≤ M + 1 := by
  induction l with
  | nil => intro e _ _; exact Or.inl rfl
  | cons p ps ih =>
    intro e hs hM
    by_cases hpe : u32 p.int32Data = e
    · right
      simp only [contiguousCount, hpe, if_true]
      have hp : e ≤ M := hpe ▸ hM p (List.mem_cons_self _ _)
      rw [List.pairwise_cons] at hs
      rcases ih ((e + 1) % 4294967296) hs.2 (fun q hq => hM q (List.mem_cons_of_mem _ hq))
        with h0 | h1
      · rw [h0]; omega
      · cases ps with
        | nil => simp only [contiguousCount]; omega
        | cons q qs =>
          by_cases hq : u32 q.int32Data = (e + 1) % 4294967296
          · have hlt : e < (e + 1) % 4294967296 := by
              rw [← hq, ← hpe]; exact hs.1 q (List.mem_cons_self _ _)
            have hmod : (e + 1) % 4294967296 = e + 1 := by omega
            rw [hmod] at h1 ⊢
            omega
          · simp only [contiguousCount, hq, if_false]; omega
    · left
      simp only [contiguousCount, hpe, if_false]

/-- The scanning loop on an inter-frame run: well-formed continuation
fragments without the end flag, then one with the end flag.  Gaps do not stop
the loop; the run ends in the test of `recycleUnit`, on the number of
fragments connected before the first gap. -/
theorem fuScan_inter (indicator nalType rtp startSeqNo : Nat) (s : State)
    (last : ABuffer) (rest : List ABuffer)
    (hlast : fuMalformed indicator nalType rtp last = false) (hend : fuEnd last = true)
    (mids : List ABuffer) :
    ∀ (e ts tc c : Nat) (snapped : Bool),
      (∀ p ∈ mids, fuMalformed indicator nalType rtp p = false ∧ fuEnd p = false) →
      fuScan indicator nalType rtp startSeqNo true s (mids ++ last :: rest) e ts tc c snapped
        = if recycleUnit startSeqNo ((u32 last.int32Data + 1) % 4294967296)
              (if snapped then c else c + contiguousCount e (mids ++ [last]))
              (tc + mids.length + 1) (1 / 2)
          then FUScan.left true ((u32 last.int32Data + 1) % 4294967296)
            (ts + (payloads (mids ++ [last])).length) (tc + mids.length + 1)
          else FUScan.ret AssemblyStatus.MALFORMED_PACKET
            { s with mNextExpectedSeqNo := (u32 last.int32Data + 1) % 4294967296,
                     queue := (deleteUnitUnderSeq s.queue
                       ((u32 last.int32Data + 1) % 4294967296)).1 } := by
  induction mids with
  | nil =>
    intro e ts tc c snapped _
    simp only [List.nil_append]
    rw [fuScan_cons]
    simp only [Bool.not_true, Bool.and_false, Bool.false_eq_true, if_false, hlast, hend,
      if_true, Bool.true_and, List.length_nil, Nat.add_zero, payloads_length_cons]
    have hc : (if (!(snapped || decide (u32 last.int32Data ≠ e))) = true then c + 1 else c)
        = if snapped = true then c else c + contiguousCount e [last] := by
      cases snapped <;> by_cases h : u32 last.int32Data = e <;> simp [contiguousCount, h]
    rw [hc]
    have hpl : (payloads ([] : List ABuffer)).length = 0 := rfl
    cases hr : recycleUnit startSeqNo ((u32 last.int32Data + 1) % 4294967296)
      (if snapped = true then c else c + contiguousCount e [last]) (tc + 1) (1 / 2) <;>
      simp only [Bool.not_false, Bool.not_true, Bool.false_eq_true, if_true, if_false, hpl,
        Nat.add_zero]
  | cons p ps ih =>
    intro e ts tc c snapped hm
    obtain ⟨hp1, hp2⟩ := hm p (List.mem_cons_self _ _)
    rw [List.cons_append, fuScan_cons]
    simp only [Bool.not_true, Bool.and_false, Bool.false_eq_true, if_false, hp1, hp2]
    rw [ih _ _ _ _ _ (fun q hq => hm q (List.mem_cons_of_mem _ hq))]
    have hc : (if (snapped || decide (u32 p.int32Data ≠ e)) = true then
          (if (!(snapped || decide (u32 p.int32Data ≠ e))) = true then c + 1 else c)
        else (if (!(snapped || decide (u32 p.int32Data ≠ e))) = true then c + 1 else c)
          + contiguousCount ((u32 p.int32Data + 1) % 4294967296) (ps ++ [last]))
        = if snapped = true then c else c + contiguousCount e (p :: ps ++ [last]) := by
      cases snapped <;> by_cases h : u32 p.int32Data = e <;>
        simp [contiguousCount, h]
      omega
    rw [hc]
    have hl : ts + (p.data.length - 3) + (payloads (ps ++ [last])).length
        = ts + (payloads (p :: ps ++ [last])).length := by
      rw [List.cons_append, payloads_length_cons]; omega
    have hn : tc + 1 + ps.length + 1 = tc + (p :: ps).length + 1 := by
      simp only [List.length_cons]; omega
    rw [hl, hn]

theorem deleteUnitUnderSeq_run (run rest : List ABuffer) (seq : Nat)
    (h1 : ∀ p ∈ run, u32 p.int32Data < seq) (h2 : ∀ p ∈ rest, seq ≤ u32 p.int32Data) :
    (deleteUnitUnderSeq (run ++ rest) seq).1 = rest := by
  unfold deleteUnitUnderSeq
  simp only []
  induction run with
  | nil =>
    cases rest with
    | nil => rfl
    | cons r rs =>
      have := h2 r (List.mem_cons_self _ _)
      simp [List.dropWhile, this]
  | cons p ps ih =>
    have := h1 p (List.mem_cons_self _ _)
    have hn : ¬ seq ≤ u32 p.int32Data := by omega
    simp only [List.cons_append, List.dropWhile, ge_iff_le, hn, decide_False, Bool.not_false]
    exact ih (fun q hq => h1 q (List.mem_cons_of_mem _ hq))

/-- What the scanning loop tests on a continuation fragment. -/
theorem IsFragment.scan {t tid T seq : Nat} {last : Bool} {piece : List Nat} {p : ABuffer}
    (h : IsFragment t tid T seq false last piece p) (ht : t < 64) :
    fuMalformed H265_NALU_FU t T p = false ∧ fuEnd p = last
      ∧ u32 p.int32Data = seq ∧ p.data.drop 3 = piece := by
  obtain ⟨r1, -, r3, -, r5, r6, r7, r8⟩ := h.reads ht
  have r6' : byteAt p.data 2 &&& 0x80 = 0 := r6.mpr rfl
  refine ⟨?_, ?_, h.seqNo, r8⟩
  · unfold fuMalformed
    rw [r1, r3, r5, r6', h.time]
    simp
  · unfold fuEnd
    cases last
    · have : byteAt p.data 2 &&& 0x40 = 0 := r7.mpr rfl
      simp [this]
    · have : ¬ (byteAt p.data 2 &&& 0x40 = 0) := fun h => absurd (r7.mp h) (by simp)
      simp [this]

/-- The salvage threshold away from the limits of the arithmetic.  Take an
inter-frame fragment run (type below 0x10) at the head of a queue ordered by
sequence number: a start fragment, well-formed continuation fragments with any
gaps between them, and an end-flagged fragment, with the last sequence number
below `2^32 - 1` and fewer than `2^23` fragments connected to the start
fragment, so that the `float` quotient of `recycleUnit` compares with 0.5 as the
exact quotient does.  With the connected fraction, that is the length of the
first contiguous run of fragments from the start fragment on, divided by the
span from the first to the last sequence number, `addFragmentedNALUnit` accepts
the run (returns `OK` and passes the assembled unit on) when the fraction is at
least 0.5, and otherwise returns `MALFORMED_PACKET` and discards the whole
run. -/
theorem partial_fragment_salvage (env : Env) (s : State) (t tid T seq0 seqL : Nat)
    (piece0 pieceL : List Nat) (head last : ABuffer) (mids rest : List ABuffer)
    (hinter : t < 0x10)
    (hhead : IsFragment t tid T seq0 true false piece0 head)
    (hmids : ∀ p ∈ mids, ∃ piece seq, IsFragment t tid T seq false false piece p)
    (hlast : IsFragment t tid T seqL false true pieceL last)
    (hq : s.queue = head :: (mids ++ last :: rest))
    (hsorted : s.queue.Pairwise (fun a b => u32 a.int32Data < u32 b.int32Data))
    (hwrap : seqL + 1 < 4294967296)
    (_hcount : contiguousCount seq0 (head :: (mids ++ [last])) < 8388608) :
    (((contiguousCount seq0 (head :: (mids ++ [last])) : Nat) : ℚ)
          / ((seqL + 1 - seq0 : Nat) : ℚ) ≥ 1 / 2 →
        ∃ unit s', addFragmentedNALUnit env s = some (AssemblyStatus.OK, s')
          ∧ unit.data = [t <<< 1, tid] ++ payloads (head :: (mids ++ [last]))
          ∧ addSingleNALUnit env unit { s with mNextExpectedSeqNo := seqL + 1, queue := rest }
              = some s'
          ∧ s'.queue = rest ∧ s'.mNextExpectedSeqNo = seqL + 1)
    ∧ (¬ (((contiguousCount seq0 (head :: (mids ++ [last])) : Nat) : ℚ)
          / ((seqL + 1 - seq0 : Nat) : ℚ) ≥ 1 / 2) →
        addFragmentedNALUnit env s
          = some (AssemblyStatus.MALFORMED_PACKET,
              { s with mNextExpectedSeqNo := seqL + 1, queue := rest })) := by
  have ht : t < 64 := by omega
  obtain ⟨r1, r2, -, r4, r5, r6, r7, -⟩ := hhead.reads ht
  have hseq0 := hhead.seqNo
  have hT0 := hhead.time
  obtain ⟨l1, l2, l3, -⟩ := hlast.scan ht
  -- order of the sequence numbers
  rw [hq, show head :: (mids ++ last :: rest) = (head :: mids) ++ (last :: rest) from rfl,
    List.pairwise_append] at hsorted
  obtain ⟨hrunS, hrestP, hcross⟩ := hsorted
  have hrestS := (List.pairwise_cons.mp hrestP).1
  have hlt0 : seq0 < seqL := by
    have := hcross head (List.mem_cons_self _ _) last (List.mem_cons_self _ _)
    rwa [hseq0, l3] at this
  have hmod : (seqL + 1) % 4294967296 = seqL + 1 := Nat.mod_eq_of_lt hwrap
  have hmod0 : (seq0 + 1) % 4294967296 = seq0 + 1 := Nat.mod_eq_of_lt (by omega)
  have hdel : (deleteUnitUnderSeq s.queue (seqL + 1)).1 = rest := by
    rw [hq, show head :: (mids ++ last :: rest) = (head :: (mids ++ [last])) ++ rest by simp]
    apply deleteUnitUnderSeq_run
    · intro p hp
      rw [List.mem_cons, List.mem_append, List.mem_singleton] at hp
      have hpl : p = last ∨ p ∈ head :: mids := by
        rcases hp with h | h | h
        · exact Or.inr (h ▸ List.mem_cons_self _ _)
        · exact Or.inr (List.mem_cons_of_mem _ h)
        · exact Or.inl h
      rcases hpl with h | h
      · rw [h, l3]; omega
      · have := hcross p h last (List.mem_cons_self _ _)
        rw [l3] at this; omega
    · intro p hp
      have := hrestS p hp
      rw [l3] at this; omega
  -- the connected count fits a `uint32_t`
  have hconn : contiguousCount seq0 (head :: (mids ++ [last])) < 4294967296 := by
    have hpw : (head :: (mids ++ [last])).Pairwise
        (fun a b => u32 a.int32Data < u32 b.int32Data) := by
      rw [show head :: (mids ++ [last]) = (head :: mids) ++ [last] from rfl, List.pairwise_append]
      exact ⟨hrunS, List.pairwise_singleton _ _, fun a ha b hb => by
        rw [List.mem_singleton] at hb
        exact hb ▸ hcross a ha last (List.mem_cons_self _ _)⟩
    have hM : ∀ p ∈ head :: (mids ++ [last]), u32 p.int32Data ≤ seqL := by
      intro p hp
      rw [show head :: (mids ++ [last]) = (head :: mids) ++ [last] from rfl, List.mem_append,
        List.mem_singleton] at hp
      rcases hp with h | h
      · have := hcross p h last (List.mem_cons_self _ _)
        rw [l3] at this; omega
      · rw [h, l3]
    rcases contiguousCount_le seqL _ seq0 hpw hM with h | h <;> omega
  -- the scanning loop
  have hscan := fuScan_inter H265_NALU_FU t T seq0 s last rest l1 l2 mids
    (seq0 + 1) (head.data.length - 3) 1 1 false
    (fun p hp => by
      obtain ⟨piece, seq, hf⟩ := hmids p hp
      exact ⟨(hf.scan ht).1, (hf.scan ht).2.1⟩)
  rw [l3, hmod] at hscan
  have hcc : (if false = true then 1 else 1 + contiguousCount (seq0 + 1) (mids ++ [last]))
      = contiguousCount seq0 (head :: (mids ++ [last])) := by
    simp only [Bool.false_eq_true, if_false, contiguousCount, hseq0, if_true, hmod0]
    omega
  rw [hcc, recycleUnit_half seq0 (seqL + 1) _ _ (by omega) hwrap hconn] at hscan
  have hstart : ¬ (byteAt head.data 2 &&& 0x80 = 0) := fun h => absurd (r6.mp h) (by simp)
  have hnoend : ¬ (byteAt head.data 2 &&& 0x40 ≠ 0) := by
    simp only [ne_eq, not_not]; exact r7.mpr rfl
  have hunfold : addFragmentedNALUnit env s
      = match fuScan H265_NALU_FU t T seq0 true s (mids ++ last :: rest) (seq0 + 1)
          (head.data.length - 3) 1 1 false with
        | FUScan.ret status s' => some (status, s')
        | FUScan.left false _ _ _ => some (AssemblyStatus.NOT_ENOUGH_DATA, s)
        | FUScan.left true e ts tc => fuAssemble env s head t tid e ts tc := by
    unfold addFragmentedNALUnit
    rw [hq]
    simp only [r2, r4, r5, hseq0, hT0, hmod0]
    rw [if_neg (by omega), if_neg (by decide), if_neg (by omega), if_neg hstart, if_neg hnoend]
    simp only [hinter, decide_True]
  constructor
  · intro hfrac
    rw [if_pos (by simpa using hfrac)] at hscan
    obtain ⟨cvo, hasm⟩ := fuAssemble_payloads env s head t tid (seqL + 1)
      (head :: (mids ++ [last])) rest (by rw [hq]; simp)
    obtain ⟨s', hs'⟩ := addSingleNALUnit_total env
      { data := [(t <<< 1) % 256, tid] ++ payloads (head :: (mids ++ [last])),
        int32Data := head.int32Data, rtpTime := head.rtpTime, cvo := cvo, source := false,
        damaged := false }
      { s with mNextExpectedSeqNo := seqL + 1, queue := rest }
    obtain ⟨k1, k2, -⟩ := addSingleNALUnit_keepsQueue _ _ _ _ hs'
    refine ⟨{ data := [(t <<< 1) % 256, tid] ++ payloads (head :: (mids ++ [last])),
              int32Data := head.int32Data, rtpTime := head.rtpTime, cvo := cvo,
              source := false, damaged := false }, s', ?_, ?_, hs', k1, k2⟩
    · rw [hunfold, hscan]
      simp only []
      have hts : head.data.length - 3 + (payloads (mids ++ [last])).length
          = (payloads (head :: (mids ++ [last]))).length := by
        rw [payloads_length_cons]
      have htc : 1 + mids.length + 1 = (head :: (mids ++ [last])).length := by
        simp only [List.length_cons, List.length_append, List.length_nil]; omega
      rw [hts, htc, hasm, hs']
      rfl
    · simp only [nalHeader_byte t ht]
  · intro hfrac
    rw [if_neg (by simpa using hfrac)] at hscan
    rw [hunfold, hscan]
    simp only [hdel]

theorem sampleFragment_isFragment (seq : Int) (start last : Bool) (payload : List Nat) :
    IsFragment 0x01 1 1000 (u32 seq) start last payload (sampleFragment seq start last payload) :=
  ⟨⟨0x62, 0x01, rfl, by decide, by decide, by decide⟩, rfl, rfl⟩

/-- Witness of C1: a unit of type 1 with the body `[5, 6, 7, 8, 9]`, split into
three fragments with the sequence numbers 100 to 102. -/
theorem fragment_round_trip_witness :
    ∃ unit s', addFragmentedNALUnit sampleEnv sampleThreeFragments
          = some (AssemblyStatus.OK, s')
      ∧ unit.data = [0x01 <<< 1, 1] ++ [[5, 6], [7], [8, 9]].flatten
      ∧ unit.rtpTime = 1000
      ∧ addSingleNALUnit sampleEnv unit
          { sampleThreeFragments with
              mNextExpectedSeqNo := (100 + 3) % 4294967296,
              queue := [samplePacket 103 [0x02, 0x01, 0x0A]] }
          = some s'
      ∧ s'.queue = [samplePacket 103 [0x02, 0x01, 0x0A]]
      ∧ s'.mNextExpectedSeqNo = (100 + 3) % 4294967296 :=
  fragment_round_trip sampleEnv sampleThreeFragments 0x01 1 1000 100 [[5, 6], [7], [8, 9]]
    [sampleFragment 100 true false [5, 6], sampleFragment 101 false false [7],
     sampleFragment 102 false true [8, 9]]
    [samplePacket 103 [0x02, 0x01, 0x0A]] (by decide)
    ⟨sampleFragment_isFragment 100 true false [5, 6],
     sampleFragment_isFragment 101 false false [7],
     sampleFragment_isFragment 102 false true [8, 9]⟩
    rfl (by decide)

/-- The run 100..109 with 103 and 104 missing has three connected fragments
over a span of ten, a fraction of 0.3 below 0.5; it is discarded as
malformed. -/
theorem partial_fragment_salvage_witness :
    contiguousCount 100 (sampleRunWithout [103, 104]) = 3
    ∧ 109 + 1 - 100 = 10
    ∧ addFragmentedNALUnit sampleEnv { sampleOpen with queue := sampleRunWithout [103, 104] }
        = some (AssemblyStatus.MALFORMED_PACKET,
            { sampleOpen with mNextExpectedSeqNo := 109 + 1, queue := [] }) :=
  have hc : contiguousCount 100
      (sampleFragment 100 true false [0] ::
        ([sampleFragment 101 false false [1], sampleFragment 102 false false [2],
          sampleFragment 105 false false [5], sampleFragment 106 false false [6],
          sampleFragment 107 false false [7], sampleFragment 108 false false [8]]
          ++ [sampleFragment 109 false true [9]])) = 3 := by decide
  ⟨by decide, rfl,
    (partial_fragment_salvage sampleEnv
      { sampleOpen with queue := sampleRunWithout [103, 104] } 0x01 1 1000 100 109 [0] [9]
      (sampleFragment 100 true false [0]) (sampleFragment 109 false true [9])
      [sampleFragment 101 false false [1], sampleFragment 102 false false [2],
       sampleFragment 105 false false [5], sampleFragment 106 false false [6],
       sampleFragment 107 false false [7], sampleFragment 108 false false [8]] []
      (by decide) (sampleFragment_isFragment 100 true false [0])
      (by
        intro p hp
        simp only [List.mem_cons, List.mem_singleton, List.not_mem_nil, or_false] at hp
        rcases hp with h | h | h | h | h | h <;> subst h
        · exact ⟨_, _, sampleFragment_isFragment 101 false false [1]⟩
        · exact ⟨_, _, sampleFragment_isFragment 102 false false [2]⟩
        · exact ⟨_, _, sampleFragment_isFragment 105 false false [5]⟩
        · exact ⟨_, _, sampleFragment_isFragment 106 false false [6]⟩
        · exact ⟨_, _, sampleFragment_isFragment 107 false false [7]⟩
        · exact ⟨_, _, sampleFragment_isFragment 108 false false [8]⟩)
      (sampleFragment_isFragment 109 false true [9]) rfl (by decide) (by decide)
      (by rw [hc]; norm_num)).2
      (by rw [hc]; norm_num)⟩

/-- C7 (partial-fragment salvage threshold), at the end of the range of the
sequence numbers.  The inter-frame run `2^32 - 10` to `2^32 - 1` without the
fragments `2^32 - 7` and `2^32 - 6` has three connected fragments over a span
of ten, a fraction of 0.3 below 0.5.  `addFragmentedNALUnit` returns
`MALFORMED_PACKET`, but the cursor wraps to 0, `deleteUnitUnderSeq` compares
the sequence numbers with 0, and the whole run stays in the queue.  The same
run at 100 to 109 is removed from the queue. -/
theorem salvage_reject_keeps_run_at_wrap :
    contiguousCount 4294967286 sampleRunAtWrap.queue = 3
    ∧ (∀ b ∈ sampleRunAtWrap.queue.getLast?, u32 b.int32Data + 1 - 4294967286 = 10)
    ∧ sampleRunAtWrap.queue.Pairwise (fun a b => u32 a.int32Data < u32 b.int32Data)
    ∧ addFragmentedNALUnit sampleEnv sampleRunAtWrap
        = some (AssemblyStatus.MALFORMED_PACKET,
            { sampleRunAtWrap with mNextExpectedSeqNo := 0 })
    ∧ addFragmentedNALUnit sampleEnv { sampleOpen with queue := sampleRunWithout [103, 104] }
        = some (AssemblyStatus.MALFORMED_PACKET,
            { sampleOpen with mNextExpectedSeqNo := 110, queue := [] }) := by
  decide!

/-- C8, counterexample.  For the inter-frame run 100..109 in which only the
fragment 103 is missing, `addFragmentedNALUnit` does not return `OK`: it
returns `MALFORMED_PACKET`, removes the whole run, and passes no unit on. -/
theorem single_missing_fragment_counterexample :
    (addFragmentedNALUnit sampleEnv { sampleOpen with queue := sampleRunWithout [103] }).map
        Prod.fst ≠ some AssemblyStatus.OK
    ∧ addFragmentedNALUnit sampleEnv { sampleOpen with queue := sampleRunWithout [103] }
        = some (AssemblyStatus.MALFORMED_PACKET,
            { sampleOpen with mNextExpectedSeqNo := 110, queue := [] }) := by
  decide!

/-- C8, as amended.  For the inter-frame run 100..109 in which only the
fragment 103 is missing, the fragments connected to the start fragment are
100..102, the connected fraction is 3/10, and the run is discarded as
malformed.  When the only missing fragment is 105, five fragments are
connected, the fraction is 5/10, and the run is salvaged: the call returns
`OK` and the unit assembled from the nine fragments is in the accumulator. -/
theorem single_missing_fragment_salvage :
    contiguousCount 100 (sampleRunWithout [103]) = 3
    ∧ addFragmentedNALUnit sampleEnv { sampleOpen with queue := sampleRunWithout [103] }
        = some (AssemblyStatus.MALFORMED_PACKET,
            { sampleOpen with mNextExpectedSeqNo := 110, queue := [] })
    ∧ contiguousCount 100 (sampleRunWithout [105]) = 5
    ∧ addFragmentedNALUnit sampleEnv { sampleOpen with queue := sampleRunWithout [105] }
        = some (AssemblyStatus.OK,
            { sampleOpen with
                mNextExpectedSeqNo := 110
                queue := []
                mAccessUnitRTPTime := 1000
                mNALUnits := [samplePacket 100 [0x02, 0x01, 0, 1, 2, 3, 4, 6, 7, 8, 9]] }) := by
  decide!

theorem u32_lt (x : Int) : u32 x < 4294967296 := by
  unfold u32; omega

theorem gapFreeFrom_of_gapFree (b : ABuffer) (rest : List ABuffer) (h : GapFree (b :: rest)) :
    GapFreeFrom (u32 b.int32Data) (b :: rest) := by
  induction rest generalizing b with
  | nil => exact ⟨rfl, trivial⟩
  | cons c cs ih =>
    simp only [GapFree] at h
    refine ⟨rfl, ?_⟩
    rw [← h.1]
    exact ih c h.2

theorem gapFreeFrom_markSource (e : Nat) (q : List ABuffer) (h : GapFreeFrom e q) :
    GapFreeFrom e (markSource q) := by
  cases q with
  | nil => trivial
  | cons b rest => exact ⟨h.1, h.2⟩

theorem gapFreeFrom_drop (q : List ABuffer) :
    ∀ (e i : Nat), GapFreeFrom e q → GapFreeFrom (e + i) (q.drop i) := by
  induction q with
  | nil => intro e i _; simp [GapFreeFrom]
  | cons p ps ih =>
    intro e i h
    cases i with
    | zero => simpa using h
    | succ j =>
      have := ih (e + 1) j h.2
      rw [List.drop_succ_cons, show e + (j + 1) = e + 1 + j by omega]
      exact this

theorem gapFreeFrom_mem (q : List ABuffer) :
    ∀ (e : Nat), GapFreeFrom e q → ∀ p ∈ q, e ≤ u32 p.int32Data ∧ u32 p.int32Data < e + q.length := by
  induction q with
  | nil => intro e _ p hp; cases hp
  | cons a as ih =>
    intro e h p hp
    rw [List.mem_cons] at hp
    rcases hp with rfl | hp
    · rw [h.1]; simp
    · have := ih (e + 1) h.2 p hp
      simp only [List.length_cons]
      omega

theorem gapFreeFrom_take (q : List ABuffer) :
    ∀ (e i : Nat), GapFreeFrom e q → GapFreeFrom e (q.take i) := by
  induction q with
  | nil => intro e i _; simp [GapFreeFrom]
  | cons p ps ih =>
    intro e i h
    cases i with
    | zero => trivial
    | succ j => exact ⟨h.1, ih (e + 1) j h.2⟩

/-- On a queue without a gap, the prefix discard at the target `e + i` removes
exactly the first `i` packets. -/
theorem deleteUnitUnderSeq_gapFree (q : List ABuffer) (e i : Nat) (h : GapFreeFrom e q)
    (hi : i ≤ q.length) :
    deleteUnitUnderSeq q (e + i) = (q.drop i, (i : Int)) := by
  have h1 : (deleteUnitUnderSeq q (e + i)).1 = q.drop i := by
    conv_lhs => rw [← List.take_append_drop i q]
    apply deleteUnitUnderSeq_run
    · intro p hp
      have := gapFreeFrom_mem _ e (gapFreeFrom_take q e i h) p hp
      rw [List.length_take] at this
      omega
    · intro p hp
      exact (gapFreeFrom_mem _ (e + i) (gapFreeFrom_drop q e i h) p hp).1
  have h2 : (deleteUnitUnderSeq q (e + i)).2
      = (q.length : Int) - ((deleteUnitUnderSeq q (e + i)).1.length : Int) := rfl
  refine Prod.ext h1 ?_
  rw [h2, h1, List.length_drop]
  simp only []
  omega

theorem pickProperSeqLoop_mem (env : Env) (first : Nat) (play jit : Int) (q : List ABuffer)
    (d : Int) :
    pickProperSeqLoop env first play jit q d = d
      ∨ ∃ p ∈ q, pickProperSeqLoop env first play jit q d = p.int32Data := by
  induction q with
  | nil => exact Or.inl rfl
  | cons a as ih =>
    unfold pickProperSeqLoop
    by_cases hc : env.findRTPTime first a + jit ≥ play
    · rw [if_pos hc]
      exact Or.inr ⟨a, List.mem_cons_self _ _, rfl⟩
    · rw [if_neg hc]
      rcases ih with h | ⟨p, hp, h⟩
      · exact Or.inl h
      · exact Or.inr ⟨p, List.mem_cons_of_mem _ hp, h⟩

/-- On a non-empty queue without a gap, the resynchronisation target is the
sequence number of a queued packet. -/
theorem pickProperSeq_gapFree (env : Env) (first : Nat) (play jit : Int) (e : Nat)
    (b : ABuffer) (rest : List ABuffer) (h : GapFreeFrom e (b :: rest)) :
    ∃ seq i, pickProperSeq env (b :: rest) first play jit = some seq
      ∧ i < (b :: rest).length ∧ u32 seq = e + i := by
  rcases pickProperSeqLoop_mem env first play jit (b :: rest) b.int32Data with hd | ⟨p, hp, hd⟩
  · exact ⟨_, 0, rfl, by simp, by rw [hd, h.1]; rfl⟩
  · have := gapFreeFrom_mem _ e h p hp
    exact ⟨_, u32 p.int32Data - e, rfl, by omega, by rw [hd]; omega⟩

theorem addNack_frame (s : State) :
    (addNack s).1.queue = s.queue
    ∧ (addNack s).1.mNextExpectedSeqNo = s.mNextExpectedSeqNo
    ∧ (addNack s).1.mNextExpectedSeqNoValid = s.mNextExpectedSeqNoValid
    ∧ (addNack s).1.abandoned = s.abandoned := by
  unfold addNack
  cases hq : s.queue with
  | nil => simp [hq]
  | cons b rest =>
    simp only []
    split_ifs <;> simp [hq]

/-- The loop of `addSingleTimeAggregationPacket` ends, whatever the payload,
and leaves the queue and the cursor as they were. -/
theorem stapLoop_total (env : Env) (buffer : ABuffer) (fuel : Nat) :
    ∀ (data : List Nat) (s : State), data.length < fuel →
      ∃ ok s', stapLoop env buffer fuel data s = some (ok, s') ∧ KeepsQueue s s' := by
  induction fuel with
  | zero => intro data s h; omega
  | succ f ih =>
    intro data s h
    unfold stapLoop
    by_cases h2 : data.length ≥ 2
    · rw [if_pos h2]
      simp only []
      split_ifs with h3
      · exact ⟨false, s, rfl, rfl, rfl, rfl, rfl⟩
      · obtain ⟨s1, hs1⟩ := addSingleNALUnit_total env
          (CopyTimes { ABuffer.new ((byteAt data 0 <<< 8) ||| byteAt data 1) with
            data := memcpy (ABuffer.new ((byteAt data 0 <<< 8) ||| byteAt data 1)).data 0
              ((data.drop 2).take ((byteAt data 0 <<< 8) ||| byteAt data 1)) } buffer) s
        have hk := addSingleNALUnit_keepsQueue _ _ _ _ hs1
        obtain ⟨ok, s2, hs2, hk2⟩ := ih (data.drop (2 + ((byteAt data 0 <<< 8) ||| byteAt data 1))) s1
          (by rw [List.length_drop]; omega)
        refine ⟨ok, s2, ?_, hk.trans hk2⟩
        simp only [Option.bind_eq_bind, hs1, Option.some_bind]
        exact hs2
    · rw [if_neg h2]
      exact ⟨true, s, rfl, rfl, rfl, rfl, rfl⟩

theorem addSingleTimeAggregationPacket_total (env : Env) (buffer : ABuffer) (s : State) :
    ∃ ok s', addSingleTimeAggregationPacket env buffer s = some (ok, s') ∧ KeepsQueue s s' := by
  unfold addSingleTimeAggregationPacket
  simp only []
  split_ifs with h
  · exact ⟨false, s, rfl, rfl, rfl, rfl, rfl⟩
  · exact stapLoop_total env buffer _ _ s (by rw [List.length_drop]; omega)

theorem drop_run (pre : List ABuffer) (p : ABuffer) (post : List ABuffer) :
    (pre ++ p :: post).drop (pre.length + 1) = post := by
  induction pre with
  | nil => rfl
  | cons a as ih => simp [ih]

theorem take_run (pre : List ABuffer) (p : ABuffer) (post : List ABuffer) :
    (pre ++ p :: post).take (pre.length + 1) = pre ++ [p] := by
  induction pre with
  | nil => rfl
  | cons a as ih => simpa using ih

theorem isCompleteRun_concat (pre : List ABuffer) (p : ABuffer)
    (hpre : ∀ q ∈ pre, fuEnd q = false) (hp : fuEnd p = true) : IsCompleteRun (pre ++ [p]) := by
  refine ⟨?_, p, ?_, hp⟩
  · rw [List.dropLast_concat]
    exact hpre
  · simp

/-- The scanning loop on continuation packets without a gap: it leaves the
loop with the run incomplete, or complete at the first packet that carries the
end flag, or it returns `MALFORMED_PACKET` at the packet of index `j` with the
cursor behind that packet; a `WRONG_SEQUENCE_NUMBER` cannot occur. -/
theorem fuScan_gapFree (indicator nalType rtp startSeqNo : Nat) (pFrame : Bool) (s : State)
    (l : List ABuffer) :
    ∀ (e ts tc c : Nat), GapFreeFrom e l → (∀ p ∈ l, u32 p.int32Data + 1 < 4294967296) →
      (∀ j < l.length,
        recycleUnit startSeqNo (e + j + 1) (c + j + 1) (tc + j + 1) (1 / 2) = true) →
      (∃ e' ts' tc', fuScan indicator nalType rtp startSeqNo pFrame s l e ts tc c false
          = FUScan.left false e' ts' tc')
      ∨ (∃ pre p post, l = pre ++ p :: post ∧ (∀ q ∈ pre, fuEnd q = false) ∧ fuEnd p = true
          ∧ fuScan indicator nalType rtp startSeqNo pFrame s l e ts tc c false
            = FUScan.left true (e + pre.length + 1) (ts + (payloads (pre ++ [p])).length)
                (tc + pre.length + 1))
      ∨ (∃ j, j < l.length ∧ fuScan indicator nalType rtp startSeqNo pFrame s l e ts tc c false
          = FUScan.ret AssemblyStatus.MALFORMED_PACKET
              { s with mNextExpectedSeqNo := e + j + 1,
                       queue := (deleteUnitUnderSeq s.queue (e + j + 1)).1 }) := by
  induction l with
  | nil => intro e ts tc c _ _ _; exact Or.inl ⟨_, _, _, rfl⟩
  | cons p ps ih =>
    intro e ts tc c hg hw hrec
    have hpe : u32 p.int32Data = e := hg.1
    have he : (e + 1) % 4294967296 = e + 1 := by
      have := hw p (List.mem_cons_self _ _)
      rw [hpe] at this
      exact Nat.mod_eq_of_lt this
    rw [fuScan_cons]
    simp only [hpe, ne_eq, not_true_eq_false, decide_False, Bool.false_and, Bool.false_eq_true,
      if_false, Bool.or_false, Bool.not_false, if_true, he]
    by_cases hm : fuMalformed indicator nalType rtp p = true
    · rw [if_pos hm]
      exact Or.inr (Or.inr ⟨0, by simp, rfl⟩)
    · rw [if_neg hm]
      by_cases hend : fuEnd p = true
      · rw [if_pos hend]
        have := hrec 0 (by simp)
        simp only [Nat.add_zero] at this
        rw [this]
        simp only [Bool.not_true, Bool.and_false, Bool.false_eq_true, if_false]
        refine Or.inr (Or.inl ⟨[], p, ps, rfl, by simp, hend, ?_⟩)
        simp [payloads]
      · rw [if_neg hend]
        rcases ih (e + 1) (ts + (p.data.length - 3)) (tc + 1) (c + 1) hg.2
            (fun q hq => hw q (List.mem_cons_of_mem _ hq))
            (fun j hj => by
              have := hrec (j + 1) (by simp only [List.length_cons]; omega)
              rw [show e + 1 + j + 1 = e + (j + 1) + 1 by omega,
                show c + 1 + j + 1 = c + (j + 1) + 1 by omega,
                show tc + 1 + j + 1 = tc + (j + 1) + 1 by omega]
              exact this)
          with ⟨e', ts', tc', h⟩ | ⟨pre, p', post, hl, hpre, hp', h⟩ | ⟨j, hj, h⟩
        · exact Or.inl ⟨e', ts', tc', h⟩
        · refine Or.inr (Or.inl ⟨p :: pre, p', post, by rw [hl]; rfl, ?_, hp', ?_⟩)
          · intro q hq
            rcases List.mem_cons.mp hq with hqp | hq
            · rw [hqp]
              exact (Bool.not_eq_true _).mp hend
            · exact hpre q hq
          · rw [h, List.cons_append, payloads_length_cons, List.length_cons]
            congr 1 <;> omega
        · refine Or.inr (Or.inr ⟨j + 1, by simp only [List.length_cons]; omega, ?_⟩)
          rw [h, show e + 1 + j + 1 = e + (j + 1) + 1 by omega]

theorem gapFreeFrom_get (l : List ABuffer) (e j : Nat) (h : GapFreeFrom e l) (hj : j < l.length) :
    ∃ q ∈ l, u32 q.int32Data = e + j := by
  have hd := gapFreeFrom_drop l e j h
  cases hl : l.drop j with
  | nil =>
    have := congrArg List.length hl
    rw [List.length_drop] at this
    simp only [List.length_nil] at this
    omega
  | cons q qs =>
    rw [hl] at hd
    exact ⟨q, List.mem_of_mem_drop (hl ▸ List.mem_cons_self _ _), hd.1⟩

/-- The result of `addFragmentedNALUnit` is the one of its scanning loop. -/
theorem addFragmentedNALUnit_scan (env : Env) (s : State) (h : ABuffer) (l : List ABuffer)
    (hq : s.queue = h :: l) (hsz : 3 ≤ h.data.length)
    (hfu : nalTypeOf h.data = H265_NALU_FU) (hstart : byteAt h.data 2 &&& 0x80 ≠ 0) :
    addFragmentedNALUnit env s
      = match (if byteAt h.data 2 &&& 0x40 ≠ 0 then
            FUScan.left true ((u32 h.int32Data + 1) % 4294967296) (h.data.length - 3) 1
          else fuScan (byteAt h.data 0 >>> 1) (byteAt h.data 2 &&& H265_NALU_MASK) h.rtpTime
            (u32 h.int32Data) (decide (byteAt h.data 2 &&& H265_NALU_MASK < 0x10)) s l
            ((u32 h.int32Data + 1) % 4294967296) (h.data.length - 3) 1 1 false) with
        | FUScan.ret status s' => some (status, s')
        | FUScan.left false _ _ _ => some (AssemblyStatus.NOT_ENOUGH_DATA, s)
        | FUScan.left true e ts tc =>
          fuAssemble env s h (byteAt h.data 2 &&& H265_NALU_MASK) (byteAt h.data 1 &&& 0x7)
            e ts tc := by
  unfold nalTypeOf at hfu
  unfold addFragmentedNALUnit
  rw [hq]
  simp only []
  rw [if_neg (by omega), if_neg (by rw [hfu]; simp), if_neg (by omega), if_neg hstart]

/-- On a queue without a gap whose head is a fragment carrying the cursor's
sequence number, `addFragmentedNALUnit` returns, removes `k` packets from the
head of the queue and advances the cursor by `k`: none when it returns
`NOT_ENOUGH_DATA`, the fragments up to the first end flag when it returns
`OK`. -/
theorem addFragmentedNALUnit_gapFree (env : Env) (s : State) (h : ABuffer) (l : List ABuffer)
    (hq : s.queue = h :: l) (hcur : s.mNextExpectedSeqNo = u32 h.int32Data)
    (hg : GapFreeFrom (u32 h.int32Data) (h :: l))
    (hw : ∀ p ∈ l, u32 p.int32Data + 1 < 4294967296)
    (hsz : 0 < h.data.length) (hfu : nalTypeOf h.data = H265_NALU_FU) :
    ∃ status s' k, addFragmentedNALUnit env s = some (status, s')
      ∧ k ≤ s.queue.length ∧ s'.queue = s.queue.drop k
      ∧ s'.mNextExpectedSeqNo = (s.mNextExpectedSeqNo + k) % 4294967296
      ∧ s'.mNextExpectedSeqNoValid = s.mNextExpectedSeqNoValid
      ∧ s'.abandoned = s.abandoned
      ∧ status ≠ AssemblyStatus.WRONG_SEQUENCE_NUMBER
      ∧ (status = AssemblyStatus.NOT_ENOUGH_DATA → k = 0)
      ∧ (status = AssemblyStatus.OK → IsCompleteRun (s.queue.take k)) := by
  have hlt := u32_lt h.int32Data
  by_cases hsz3 : h.data.length < 3
  · refine ⟨AssemblyStatus.MALFORMED_PACKET,
      { s with queue := l, mNextExpectedSeqNo := (s.mNextExpectedSeqNo + 1) % 4294967296 }, 1,
      ?_, by rw [hq]; simp, by rw [hq]; rfl, rfl, rfl, rfl, by decide,
      (by intro hh; cases hh), (by intro hh; cases hh)⟩
    unfold nalTypeOf at hfu
    unfold addFragmentedNALUnit
    rw [hq]
    simp only []
    rw [if_neg (by omega), if_neg (by rw [hfu]; simp), if_pos hsz3]
  by_cases hstart : byteAt h.data 2 &&& 0x80 = 0
  · refine ⟨AssemblyStatus.MALFORMED_PACKET,
      { s with queue := l, mNextExpectedSeqNo := (s.mNextExpectedSeqNo + 1) % 4294967296 }, 1,
      ?_, by rw [hq]; simp, by rw [hq]; rfl, rfl, rfl, rfl, by decide,
      (by intro hh; cases hh), (by intro hh; cases hh)⟩
    unfold nalTypeOf at hfu
    unfold addFragmentedNALUnit
    rw [hq]
    simp only []
    rw [if_neg (by omega), if_neg (by rw [hfu]; simp), if_neg hsz3, if_pos hstart]
  rw [addFragmentedNALUnit_scan env s h l hq (by omega) hfu hstart]
  by_cases hend : byteAt h.data 2 &&& 0x40 ≠ 0
  · -- the start fragment also carries the end flag
    rw [if_pos hend]
    simp only []
    obtain ⟨cvo, hasm⟩ := fuAssemble_payloads env s h (byteAt h.data 2 &&& H265_NALU_MASK)
      (byteAt h.data 1 &&& 0x7) ((u32 h.int32Data + 1) % 4294967296) [h] l (by rw [hq]; rfl)
    have hpl : (payloads [h]).length = h.data.length - 3 := by simp [payloads]
    rw [hpl] at hasm
    simp only [List.length_cons, List.length_nil, zero_add] at hasm
    obtain ⟨s', hs'⟩ := addSingleNALUnit_total env
      { data := [((byteAt h.data 2 &&& H265_NALU_MASK) <<< 1) % 256, byteAt h.data 1 &&& 0x7]
          ++ payloads [h],
        int32Data := h.int32Data, rtpTime := h.rtpTime, cvo := cvo, source := false,
        damaged := false }
      { s with mNextExpectedSeqNo := (u32 h.int32Data + 1) % 4294967296, queue := l }
    obtain ⟨k1, k2, k3, k4⟩ := addSingleNALUnit_keepsQueue _ _ _ _ hs'
    have hfe : fuEnd h = true := by
      unfold fuEnd
      exact decide_eq_true hend
    refine ⟨AssemblyStatus.OK, s', 1, ?_, by rw [hq]; simp, by rw [k1, hq]; rfl,
      by rw [k2, hcur], k3, k4, by decide, (by intro hh; cases hh), fun _ => ?_⟩
    · rw [hasm, hs']
      rfl
    · rw [hq]
      exact isCompleteRun_concat [] h (fun q hq => by cases hq) hfe
  rw [if_neg hend]
  have hfe : fuEnd h = false := by
    unfold fuEnd
    exact decide_eq_false hend
  cases l with
  | nil =>
    refine ⟨AssemblyStatus.NOT_ENOUGH_DATA, s, 0, ?_, by simp, by simp, ?_, rfl, rfl,
      by decide, fun _ => rfl, (by intro hh; cases hh)⟩
    · simp only [fuScan]
    · rw [hcur, Nat.add_zero, Nat.mod_eq_of_lt hlt]
  | cons p ps =>
    have hp : u32 p.int32Data = u32 h.int32Data + 1 := hg.2.1
    have he : (u32 h.int32Data + 1) % 4294967296 = u32 h.int32Data + 1 := by
      have := u32_lt p.int32Data
      rw [hp] at this
      exact Nat.mod_eq_of_lt this
    rw [he]
    have hbound : ∀ j < (p :: ps).length, u32 h.int32Data + 1 + j + 1 < 4294967296 := by
      intro j hj
      obtain ⟨q, hq1, hq2⟩ := gapFreeFrom_get (p :: ps) (u32 h.int32Data + 1) j hg.2 hj
      have := hw q hq1
      omega
    rcases fuScan_gapFree (byteAt h.data 0 >>> 1) (byteAt h.data 2 &&& H265_NALU_MASK) h.rtpTime
        (u32 h.int32Data) (decide (byteAt h.data 2 &&& H265_NALU_MASK < 0x10)) s (p :: ps)
        (u32 h.int32Data + 1) (h.data.length - 3) 1 1 hg.2 hw
        (fun j hj => by
          have hb := hbound j hj
          have := recycleUnit_connected (u32 h.int32Data) (j + 2) (1 + j + 1) hlt (by omega)
            (by omega)
          rw [Nat.mod_eq_of_lt (by omega)] at this
          rw [show u32 h.int32Data + 1 + j + 1 = u32 h.int32Data + (j + 2) by omega,
            show 1 + j + 1 = j + 2 by omega]
          exact this)
      with ⟨e', ts', tc', hscan⟩ | ⟨pre, p', post, hL, hpre, hp', hscan⟩ | ⟨j, hj, hscan⟩
    · rw [hscan]
      refine ⟨AssemblyStatus.NOT_ENOUGH_DATA, s, 0, rfl, by simp, by simp, ?_, rfl, rfl,
        by decide, fun _ => rfl, (by intro hh; cases hh)⟩
      rw [hcur, Nat.add_zero, Nat.mod_eq_of_lt hlt]
    · rw [hscan]
      simp only []
      have hj : pre.length < (p :: ps).length := by
        have := congrArg List.length hL
        simp only [List.length_cons, List.length_append] at this ⊢
        omega
      have hb := hbound pre.length hj
      obtain ⟨cvo, hasm⟩ := fuAssemble_payloads env s h (byteAt h.data 2 &&& H265_NALU_MASK)
        (byteAt h.data 1 &&& 0x7) (u32 h.int32Data + 1 + pre.length + 1)
        (h :: (pre ++ [p'])) post
        (by rw [hq, hL]; simp)
      have hpl : (payloads (h :: (pre ++ [p']))).length
          = h.data.length - 3 + (payloads (pre ++ [p'])).length := by
        rw [payloads_length_cons]
      have hln : (h :: (pre ++ [p'])).length = 1 + pre.length + 1 := by
        simp only [List.length_cons, List.length_append, List.length_nil]
        omega
      rw [hpl, hln] at hasm
      obtain ⟨s', hs'⟩ := addSingleNALUnit_total env
        { data := [((byteAt h.data 2 &&& H265_NALU_MASK) <<< 1) % 256, byteAt h.data 1 &&& 0x7]
            ++ payloads (h :: (pre ++ [p'])),
          int32Data := h.int32Data, rtpTime := h.rtpTime, cvo := cvo, source := false,
          damaged := false }
        { s with mNextExpectedSeqNo := u32 h.int32Data + 1 + pre.length + 1, queue := post }
      obtain ⟨k1, k2, k3, k4⟩ := addSingleNALUnit_keepsQueue _ _ _ _ hs'
      refine ⟨AssemblyStatus.OK, s', pre.length + 2, ?_, ?_, ?_, ?_, k3, k4, by decide,
        (by intro hh; cases hh), fun _ => ?_⟩
      · rw [hasm, hs']
        rfl
      · rw [hq]; simp only [List.length_cons] at hj ⊢; omega
      · rw [k1, hq, hL]
        exact (drop_run (h :: pre) p' post).symm
      · rw [k2, hcur]
        simp only []
        rw [Nat.mod_eq_of_lt (by omega)]
        omega
      · rw [hq, hL]
        have := take_run (h :: pre) p' post
        simp only [List.length_cons, List.cons_append] at this
        rw [this]
        refine isCompleteRun_concat (h :: pre) p' ?_ hp'
        intro q hq'
        rcases List.mem_cons.mp hq' with hqh | hq'
        · rw [hqh]; exact hfe
        · exact hpre q hq'
    · rw [hscan]
      have hb := hbound j hj
      have hdel := deleteUnitUnderSeq_gapFree (h :: p :: ps) (u32 h.int32Data) (j + 2) hg
        (by simp only [List.length_cons] at hj ⊢; omega)
      rw [show u32 h.int32Data + (j + 2) = u32 h.int32Data + 1 + j + 1 by omega, ← hq] at hdel
      refine ⟨AssemblyStatus.MALFORMED_PACKET, _, j + 2, rfl, ?_, ?_, ?_, rfl, rfl, by decide,
        (by intro hh; cases hh), (by intro hh; cases hh)⟩
      · rw [hq]; simp only [List.length_cons] at hj ⊢; omega
      · simp only [hdel]
      · rw [hcur]
        simp only []
        rw [Nat.mod_eq_of_lt (by omega)]
        omega

/-- The dispatch of a head packet that carries the cursor's sequence number, on
a queue without a gap: the call returns, removes `k` packets from the head of
the queue and advances the cursor by `k`; a packet that is not a fragment
counts for one, a fragment run that returns `OK` for its fragments. -/
theorem addNALUnitDispatch_gapFree (env : Env) (s : State) (h : ABuffer) (l : List ABuffer)
    (hq : s.queue = h :: l) (hv : s.mNextExpectedSeqNoValid = true)
    (hcur : s.mNextExpectedSeqNo = u32 h.int32Data)
    (hg : GapFreeFrom (u32 h.int32Data) (h :: l))
    (hw : ∀ p ∈ l, u32 p.int32Data + 1 < 4294967296) :
    ∃ status s' k, addNALUnitDispatch env s = some (status, s')
      ∧ k ≤ s.queue.length ∧ s'.queue = s.queue.drop k
      ∧ s'.mNextExpectedSeqNo = (s.mNextExpectedSeqNo + k) % 4294967296
      ∧ s'.mNextExpectedSeqNoValid = true
      ∧ s'.abandoned = s.abandoned
      ∧ status ≠ AssemblyStatus.WRONG_SEQUENCE_NUMBER
      ∧ (status = AssemblyStatus.NOT_ENOUGH_DATA → k = 0)
      ∧ (¬ IsFragmentPacket h → status ≠ AssemblyStatus.NOT_ENOUGH_DATA ∧ k = 1)
      ∧ (status = AssemblyStatus.OK → IsFragmentPacket h → IsCompleteRun (s.queue.take k)) := by
  have hone : 1 ≤ (h :: l).length := by simp
  unfold addNALUnitDispatch
  rw [hq]
  simp only [hv, hcur, ne_eq, not_true_eq_false, decide_False, Bool.and_false, Bool.not_true,
    Bool.false_eq_true, if_false]
  by_cases hcorrupt : h.data.length < 1 ∨ ¬ (byteAt h.data 0 &&& 0x80 = 0)
  · rw [if_pos hcorrupt]
    have hnf : ¬ IsFragmentPacket h := by
      rintro ⟨a, b, -⟩
      rcases hcorrupt with x | x
      · omega
      · exact x b
    exact ⟨_, _, 1, rfl, hone, rfl, rfl, rfl, rfl, by decide, (by intro hh; cases hh),
      fun _ => ⟨by decide, rfl⟩, fun _ hf => absurd hf hnf⟩
  rw [if_neg hcorrupt]
  by_cases hsingle : nalTypeOf h.data > 0 ∧ nalTypeOf h.data < H265_NALU_AP
  · rw [if_pos hsingle]
    have hnf : ¬ IsFragmentPacket h := by
      rintro ⟨-, -, c⟩
      rw [c] at hsingle
      simp [H265_NALU_AP, H265_NALU_FU] at hsingle
    obtain ⟨s1, hs1⟩ := addSingleNALUnit_total env h s
    obtain ⟨-, k2, k3, k4⟩ := addSingleNALUnit_keepsQueue _ _ _ _ hs1
    rw [hv] at k3
    rw [hs1]
    exact ⟨_, _, 1, rfl, hone, rfl, rfl, k3, k4, by decide, (by intro hh; cases hh),
      fun _ => ⟨by decide, rfl⟩, fun _ hf => absurd hf hnf⟩
  rw [if_neg hsingle]
  by_cases hfu : nalTypeOf h.data = H265_NALU_FU
  · rw [if_pos hfu]
    have hisf : IsFragmentPacket h := ⟨by omega, by
      by_contra hb
      exact hcorrupt (Or.inr hb), hfu⟩
    obtain ⟨status, s', k, h1, h2, h3, h4, h5, h6, h7, h8, h9⟩ :=
      addFragmentedNALUnit_gapFree env s h l hq hcur hg hw (by omega) hfu
    rw [hq] at h2 h3 h9
    rw [hcur] at h4
    exact ⟨status, s', k, h1, h2, h3, h4, h5.trans hv, h6, h7, h8,
      fun hn => absurd hisf hn, fun hok _ => h9 hok⟩
  rw [if_neg hfu]
  have hnf : ¬ IsFragmentPacket h := fun hf => hfu hf.2.2
  by_cases hap : nalTypeOf h.data = H265_NALU_AP
  · rw [if_pos hap]
    obtain ⟨ok, s1, hs1, -, k2, k3, k4⟩ := addSingleTimeAggregationPacket_total env h s
    rw [hv] at k3
    rw [hs1]
    cases ok
    · exact ⟨AssemblyStatus.MALFORMED_PACKET, _, 1, rfl, hone, rfl, rfl, k3, k4, by decide,
        (by intro hh; cases hh), fun _ => ⟨by decide, rfl⟩, fun _ hf => absurd hf hnf⟩
    · exact ⟨AssemblyStatus.OK, _, 1, rfl, hone, rfl, rfl, k3, k4, by decide,
        (by intro hh; cases hh), fun _ => ⟨by decide, rfl⟩, fun _ hf => absurd hf hnf⟩
  rw [if_neg hap]
  by_cases hzero : nalTypeOf h.data = 0
  · rw [if_pos hzero]
    exact ⟨_, _, 1, rfl, hone, rfl, rfl, rfl, rfl, by decide, (by intro hh; cases hh),
      fun _ => ⟨by decide, rfl⟩, fun _ hf => absurd hf hnf⟩
  · rw [if_neg hzero]
    exact ⟨_, _, 1, rfl, hone, rfl, rfl, rfl, rfl, by decide, (by intro hh; cases hh),
      fun _ => ⟨by decide, rfl⟩, fun _ hf => absurd hf hnf⟩

/-- The prefix discard on a queue without a gap whose cursor is the sequence
number of the queued packet of index `i`: the `i` packets before it are
deleted and, when there are any, reported as abandoned. -/
theorem addNALUnitDiscard_gapFree (s : State) (e i : Nat) (hv : s.mNextExpectedSeqNoValid = true)
    (hg : GapFreeFrom e s.queue) (hcur : s.mNextExpectedSeqNo = e + i) (hi : i ≤ s.queue.length) :
    (addNALUnitDiscard s).queue = s.queue.drop i
      ∧ (addNALUnitDiscard s).mNextExpectedSeqNo = s.mNextExpectedSeqNo
      ∧ (addNALUnitDiscard s).mNextExpectedSeqNoValid = true
      ∧ (addNALUnitDiscard s).abandoned
          = (if i = 0 then s.abandoned else s.abandoned ++ [(i : Int)]) := by
  have hdel := deleteUnitUnderSeq_gapFree s.queue e i hg hi
  rw [← hcur] at hdel
  unfold addNALUnitDiscard
  rw [if_pos hv, hdel]
  simp only []
  by_cases hi0 : i = 0
  · have hn : ¬ ((i : Int) > 0) := by omega
    rw [if_neg hn, if_pos hi0]
    exact ⟨rfl, rfl, hv, rfl⟩
  · have hp : (i : Int) > 0 := by omega
    rw [if_pos hp, if_neg hi0]
    exact ⟨rfl, rfl, hv, rfl⟩

/-- The prefix discard and the dispatch of `addNALUnit`, on a queue without a
gap whose cursor is the sequence number of the queued packet of index `i`:
`i` packets are discarded and `c` more are consumed by the dispatch. -/
theorem addNALUnit_discard_dispatch (env : Env) (s : State) (i : Nat) (h : ABuffer)
    (l : List ABuffer) (hq : s.queue = h :: l) (hv : s.mNextExpectedSeqNoValid = true)
    (hcur : s.mNextExpectedSeqNo = u32 h.int32Data + i) (hi : i < (h :: l).length)
    (hg : GapFreeFrom (u32 h.int32Data) (h :: l))
    (hw : ∀ p ∈ l, u32 p.int32Data + 1 < 4294967296) :
    ∃ status s' c,
      (if (addNALUnitDiscard s).mNextExpectedSeqNoValid && (addNALUnitDiscard s).queue.isEmpty
        then some (AssemblyStatus.NOT_ENOUGH_DATA, addNALUnitDiscard s)
        else addNALUnitDispatch env (addNALUnitDiscard s)) = some (status, s')
      ∧ i + c ≤ (h :: l).length ∧ s'.queue = (h :: l).drop (i + c)
      ∧ s'.mNextExpectedSeqNo = (u32 h.int32Data + (i + c)) % 4294967296
      ∧ s'.mNextExpectedSeqNoValid = true
      ∧ s'.abandoned = (if i = 0 then s.abandoned else s.abandoned ++ [(i : Int)])
      ∧ status ≠ AssemblyStatus.WRONG_SEQUENCE_NUMBER
      ∧ (status = AssemblyStatus.NOT_ENOUGH_DATA → c = 0)
      ∧ (status ≠ AssemblyStatus.NOT_ENOUGH_DATA →
          ∀ b ∈ ((h :: l).drop i).head?, ¬ IsFragmentPacket b → c = 1)
      ∧ (status = AssemblyStatus.OK →
          ∀ b ∈ ((h :: l).drop i).head?, IsFragmentPacket b →
            IsCompleteRun (((h :: l).drop i).take c)) := by
  have hg1 : GapFreeFrom (u32 h.int32Data) s.queue := by rw [hq]; exact hg
  obtain ⟨d1, d2, d3, d4⟩ := addNALUnitDiscard_gapFree s (u32 h.int32Data) i hv hg1 hcur
    (by rw [hq]; omega)
  rw [hq] at d1
  have hgdrop := gapFreeFrom_drop _ _ i hg
  have hdd : ∀ c, (h :: l).drop (i + c) = ((h :: l).drop i).drop c := by
    intro c
    rw [List.drop_drop, Nat.add_comm]
  have hlen : ((h :: l).drop i).length = (h :: l).length - i := List.length_drop _ _
  have hw2 : ∀ p ∈ ((h :: l).drop i).tail, u32 p.int32Data + 1 < 4294967296 := by
    intro p hp
    apply hw
    rw [List.tail_drop] at hp
    rw [List.drop_succ_cons] at hp
    exact List.mem_of_mem_drop hp
  simp only [hdd]
  revert hgdrop hlen hw2 d1
  generalize (h :: l).drop i = dq
  intro d1 hgd hlen hw2
  cases dq with
  | nil =>
    simp only [List.length_nil] at hlen
    omega
  | cons h' l' =>
    have hh' : u32 h'.int32Data = u32 h.int32Data + i := hgd.1
    obtain ⟨status, s', k, r1, r2, r3, r4, r5, r6, r7, r8, r9, r10⟩ :=
      addNALUnitDispatch_gapFree env (addNALUnitDiscard s) h' l' d1 d3 (by rw [d2, hcur, hh'])
        (by rw [hh']; exact hgd) hw2
    refine ⟨status, s', k, ?_, ?_, ?_, ?_, r5, r6.trans d4, r7, r8, ?_, ?_⟩
    · rw [d3, d1]
      simp only [List.isEmpty_cons, Bool.and_false, Bool.false_eq_true, if_false]
      exact r1
    · rw [d1] at r2
      omega
    · rw [r3, d1]
    · rw [r4, d2, hcur]
      congr 1
      omega
    · intro hne b hb hnf
      simp only [List.head?_cons, Option.mem_def, Option.some.injEq] at hb
      rw [← hb] at hnf
      exact (r9 hnf).2
    · intro hok b hb hf
      simp only [List.head?_cons, Option.mem_def, Option.some.injEq] at hb
      rw [← hb] at hf
      rw [← d1]
      exact r10 hok hf

/-- The part of `addNALUnit` behind the jitter-buffer test, on a queue without
a gap whose head carries the cursor's sequence number: `i` packets are
discarded by the resynchronisation, if there is one, and `c` more are consumed
by the dispatch. -/
theorem addNALUnitExpired_gapFree (env : Env) (s : State) (resync : Bool) (first : Nat)
    (play jit : Int) (h : ABuffer) (l : List ABuffer)
    (hq : s.queue = h :: l) (hv : s.mNextExpectedSeqNoValid = true)
    (hcur : s.mNextExpectedSeqNo = u32 h.int32Data)
    (hg : GapFreeFrom (u32 h.int32Data) (h :: l))
    (hw : ∀ p ∈ l, u32 p.int32Data + 1 < 4294967296) :
    ∃ status s' i c, addNALUnitExpired env s resync first play jit = some (status, s')
      ∧ i + c ≤ (h :: l).length ∧ s'.queue = (h :: l).drop (i + c)
      ∧ s'.mNextExpectedSeqNo = (u32 h.int32Data + (i + c)) % 4294967296
      ∧ s'.mNextExpectedSeqNoValid = true
      ∧ s'.abandoned = (if i = 0 then s.abandoned else s.abandoned ++ [(i : Int)])
      ∧ status ≠ AssemblyStatus.WRONG_SEQUENCE_NUMBER
      ∧ (status = AssemblyStatus.NOT_ENOUGH_DATA → c = 0)
      ∧ (status ≠ AssemblyStatus.NOT_ENOUGH_DATA →
          ∀ b ∈ ((h :: l).drop i).head?, ¬ IsFragmentPacket b → c = 1)
      ∧ (status = AssemblyStatus.OK →
          ∀ b ∈ ((h :: l).drop i).head?, IsFragmentPacket b →
            IsCompleteRun (((h :: l).drop i).take c)) := by
  unfold addNALUnitExpired
  cases resync with
  | false =>
    simp only [Bool.false_eq_true, if_false, Option.bind_eq_bind, Option.pure_def,
      Option.some_bind]
    obtain ⟨status, s', c, r⟩ :=
      addNALUnit_discard_dispatch env s 0 h l hq hv (by rw [hcur]; rfl) (by simp) hg hw
    exact ⟨status, s', 0, c, r⟩
  | true =>
    obtain ⟨seq, i, hp, hi, hs⟩ := pickProperSeq_gapFree env first play jit _ h l hg
    rw [← hq] at hp
    simp only [if_true, hp, Option.map_some', Option.bind_eq_bind, Option.pure_def,
      Option.some_bind]
    obtain ⟨status, s', c, r⟩ :=
      addNALUnit_discard_dispatch env { s with mNextExpectedSeqNo := u32 seq } i h l hq hv
        hs hi hg hw
    exact ⟨status, s', i, c, r⟩

/-- On a queue without a gap whose head carries the cursor's sequence number,
`addNALUnit` returns, removes `i + c` packets from the head of the queue and
advances the cursor by `i + c`: the `i` packets that a resynchronisation
discards and the `c` packets that the dispatch consumes. -/
theorem addNALUnit_gapFree (env : Env) (s : State) (hv : s.mNextExpectedSeqNoValid = true)
    (hc32 : s.mNextExpectedSeqNo < 4294967296) (hgap : GapFree s.queue)
    (hhead : ∀ b ∈ s.queue.head?, u32 b.int32Data = s.mNextExpectedSeqNo)
    (hw : ∀ p ∈ s.queue.tail, u32 p.int32Data + 1 < 4294967296) :
    ∃ status s' i c, addNALUnit env s = some (status, s')
      ∧ i + c ≤ s.queue.length ∧ s'.queue = (markSource s.queue).drop (i + c)
      ∧ s'.mNextExpectedSeqNo = (s.mNextExpectedSeqNo + (i + c)) % 4294967296
      ∧ s'.mNextExpectedSeqNoValid = true
      ∧ s'.abandoned = (if i = 0 then s.abandoned else s.abandoned ++ [(i : Int)])
      ∧ status ≠ AssemblyStatus.WRONG_SEQUENCE_NUMBER
      ∧ (status = AssemblyStatus.NOT_ENOUGH_DATA → c = 0)
      ∧ (status ≠ AssemblyStatus.NOT_ENOUGH_DATA →
          ∀ b ∈ ((markSource s.queue).drop i).head?, ¬ IsFragmentPacket b → c = 1)
      ∧ (status = AssemblyStatus.OK →
          ∀ b ∈ ((markSource s.queue).drop i).head?, IsFragmentPacket b →
            IsCompleteRun (((markSource s.queue).drop i).take c)) := by
  cases hq : s.queue with
  | nil =>
    refine ⟨AssemblyStatus.NOT_ENOUGH_DATA, s, 0, 0, ?_, by simp, ?_, ?_, hv, rfl, by decide,
      fun _ => rfl, fun hn => absurd rfl hn, (by intro hh; cases hh)⟩
    · unfold addNALUnit; rw [hq]
    · rw [hq]; rfl
    · rw [Nat.add_zero, Nat.mod_eq_of_lt hc32]
  | cons b rest =>
    rw [hq] at hgap hhead hw
    have hcur : s.mNextExpectedSeqNo = u32 b.int32Data :=
      (hhead b (by simp)).symm
    have hg := gapFreeFrom_of_gapFree b rest hgap
    obtain ⟨n1, n2, n3, n4⟩ :=
      addNack_frame { s with queue := { b with source := true } :: rest }
    have key : ∀ (resync : Bool) (first : Nat) (play jit : Int),
        ∃ status s' i c,
          addNALUnitExpired env
              (addNack { s with queue := { b with source := true } :: rest }).1 resync first
              play jit = some (status, s')
          ∧ i + c ≤ (b :: rest).length
          ∧ s'.queue = ({ b with source := true } :: rest).drop (i + c)
          ∧ s'.mNextExpectedSeqNo = (s.mNextExpectedSeqNo + (i + c)) % 4294967296
          ∧ s'.mNextExpectedSeqNoValid = true
          ∧ s'.abandoned = (if i = 0 then s.abandoned else s.abandoned ++ [(i : Int)])
          ∧ status ≠ AssemblyStatus.WRONG_SEQUENCE_NUMBER
          ∧ (status = AssemblyStatus.NOT_ENOUGH_DATA → c = 0)
          ∧ (status ≠ AssemblyStatus.NOT_ENOUGH_DATA →
              ∀ p ∈ (({ b with source := true } :: rest).drop i).head?,
                ¬ IsFragmentPacket p → c = 1)
          ∧ (status = AssemblyStatus.OK →
              ∀ p ∈ (({ b with source := true } :: rest).drop i).head?, IsFragmentPacket p →
                IsCompleteRun ((({ b with source := true } :: rest).drop i).take c)) := by
      intro resync first play jit
      obtain ⟨status, s', i, c, r1, r2, r3, r4, r5, r6, r7⟩ :=
        addNALUnitExpired_gapFree env _ resync first
          play jit { b with source := true } rest n1 (n3.trans hv) (n2.trans hcur)
          ⟨hg.1, hg.2⟩ hw
      rw [n4] at r6
      exact ⟨status, s', i, c, r1, r2, r3, by rw [r4, hcur], r5, r6, r7⟩
    unfold addNALUnit
    rw [hq]
    simp only [markSource]
    split_ifs with hexp
    · refine ⟨_, _, 0, 0, rfl, by simp, n1, ?_, n3.trans hv, n4, by decide, fun _ => rfl,
        fun hn => absurd rfl hn, (by intro hh; cases hh)⟩
      rw [n2]
      simp only []
      rw [Nat.add_zero, Nat.mod_eq_of_lt hc32]
    · exact key _ _ _ _

/-- C10, as amended (cursor monotonicity).  Take a queue without a gap (the
sequence numbers of adjacent packets differ by exactly 1) whose head carries
the sequence number of the established cursor, and in which no packet behind
the head has the sequence number `2^32 - 1`.  Then `assembleMore` returns, and
not with `WRONG_SEQUENCE_NUMBER`.  It removes `i + c` packets from the head of
the queue and advances the cursor by exactly `i + c`, modulo `2^32`: the `i`
packets that a resynchronisation discards and reports as abandoned (`i = 0`
when nothing is reported), and the `c` packets that it consumes behind them.
`c` is zero when the call returns `NOT_ENOUGH_DATA`; otherwise it is one when
the packet handled is not a fragment (a single-unit, aggregated, undefined,
unsupported or corrupt packet), and, when the call returns `OK` on a fragment,
`c` is the number of fragments of the run: the packets up to the first one
that carries the end flag. -/
theorem cursor_advance (env : Env) (s : State) (hv : s.mNextExpectedSeqNoValid = true)
    (hc32 : s.mNextExpectedSeqNo < 4294967296) (hgap : GapFree s.queue)
    (hhead : ∀ b ∈ s.queue.head?, u32 b.int32Data = s.mNextExpectedSeqNo)
    (hw : ∀ p ∈ s.queue.tail, u32 p.int32Data + 1 < 4294967296) :
    ∃ status s' i c, assembleMore env s = some (status, s')
      ∧ i + c ≤ s.queue.length
      ∧ s'.queue = (markSource s.queue).drop (i + c)
      ∧ s'.mNextExpectedSeqNo = (s.mNextExpectedSeqNo + (i + c)) % 4294967296
      ∧ s'.mNextExpectedSeqNoValid = true
      ∧ s'.abandoned = (if i = 0 then s.abandoned else s.abandoned ++ [(i : Int)])
      ∧ status ≠ AssemblyStatus.WRONG_SEQUENCE_NUMBER
      ∧ (status = AssemblyStatus.NOT_ENOUGH_DATA → c = 0)
      ∧ (status ≠ AssemblyStatus.NOT_ENOUGH_DATA →
          ∀ b ∈ ((markSource s.queue).drop i).head?, ¬ IsFragmentPacket b → c = 1)
      ∧ (status = AssemblyStatus.OK →
          ∀ b ∈ ((markSource s.queue).drop i).head?, IsFragmentPacket b →
            IsCompleteRun (((markSource s.queue).drop i).take c)) := by
  obtain ⟨status, s1, i, c, h1, h2, h3, h4, h5, h6, h7⟩ :=
    addNALUnit_gapFree env s hv hc32 hgap hhead hw
  unfold assembleMore
  rw [h1]
  simp only [Option.bind_eq_bind, Option.some_bind]
  split_ifs
  · exact ⟨status, _, i, c, rfl, h2, h3, h4, h5, h6, h7⟩
  · exact ⟨status, _, i, c, rfl, h2, h3, h4, h5, h6, h7⟩
  · exact ⟨status, _, i, c, rfl, h2, h3, h4, h5, h6, h7⟩

/-- C10, counterexample.  The queue holds the single-unit packets 100 and 101
without a gap, and the cursor is at 100.  The packet 100 is beyond the second
lateness line and the packet 101 is in time, so one call of `assembleMore`
resets the cursor to 101, discards the packet 100, reports it as abandoned,
and consumes the packet 101: it returns `OK` with the cursor at 102, two steps
ahead, where the claim has one step for a single-unit packet. -/
theorem cursor_advance_counterexample :
    sampleResync.mNextExpectedSeqNoValid = true
    ∧ GapFree sampleResync.queue
    ∧ (∀ b ∈ sampleResync.queue.head?, u32 b.int32Data = sampleResync.mNextExpectedSeqNo)
    ∧ (∀ b ∈ sampleResync.queue, 0 < nalTypeOf b.data ∧ nalTypeOf b.data < H265_NALU_AP)
    ∧ (assembleMore sampleEnvLate sampleResync).map
          (fun r => (r.1, r.2.mNextExpectedSeqNo, r.2.queue, r.2.abandoned))
        = some (AssemblyStatus.OK, 102, [], [1])
    ∧ (102 : Nat) ≠ (sampleResync.mNextExpectedSeqNo + 1) % 4294967296 := by
  refine ⟨rfl, ⟨by decide, trivial⟩, by decide, by decide, by decide, by decide⟩

/-- At the end of the `uint32_t` range the prefix discard does not follow the
cursor.  The queue holds a start fragment with the sequence number `2^32 - 2`,
which is the cursor, followed by a packet with the sequence number `2^32 - 1`
that is not a fragment: it has no gap.  `assembleMore` returns
`MALFORMED_PACKET` and sets the cursor to 0, two steps ahead modulo `2^32`, but
`deleteUnitUnderSeq` compares with 0 and removes no packet from the queue. -/
theorem cursor_wraps_without_discard :
    sampleAtWrap.mNextExpectedSeqNoValid = true
    ∧ GapFree sampleAtWrap.queue
    ∧ (∀ b ∈ sampleAtWrap.queue.head?, u32 b.int32Data = sampleAtWrap.mNextExpectedSeqNo)
    ∧ ∃ s', assembleMore sampleEnvLate sampleAtWrap
          = some (AssemblyStatus.MALFORMED_PACKET, s')
        ∧ s'.queue.length = sampleAtWrap.queue.length
        ∧ s'.mNextExpectedSeqNo = 0
        ∧ s'.mNextExpectedSeqNo
            ≠ (sampleAtWrap.mNextExpectedSeqNo
                + (sampleAtWrap.queue.length - s'.queue.length)) % 4294967296 := by
  refine ⟨rfl, ⟨by decide, trivial⟩, by decide, ?_⟩
  refine ⟨{ sampleAtWrap with
              mNextExpectedSeqNo := 0
              queue := markSource sampleAtWrap.queue }, ?_, ?_, ?_, ?_⟩ <;> decide

/-- Witness of C10 as amended: a run of three fragments, 100 to 102, followed
by a single-unit packet; the cursor is at 100. -/
theorem cursor_advance_witness :
    ∃ status s' i c, assembleMore sampleEnvLate sampleGapFree = some (status, s')
      ∧ i + c ≤ sampleGapFree.queue.length
      ∧ s'.queue = (markSource sampleGapFree.queue).drop (i + c)
      ∧ s'.mNextExpectedSeqNo = (sampleGapFree.mNextExpectedSeqNo + (i + c)) % 4294967296
      ∧ s'.mNextExpectedSeqNoValid = true
      ∧ s'.abandoned
          = (if i = 0 then sampleGapFree.abandoned else sampleGapFree.abandoned ++ [(i : Int)])
      ∧ status ≠ AssemblyStatus.WRONG_SEQUENCE_NUMBER
      ∧ (status = AssemblyStatus.NOT_ENOUGH_DATA → c = 0)
      ∧ (status ≠ AssemblyStatus.NOT_ENOUGH_DATA →
          ∀ b ∈ ((markSource sampleGapFree.queue).drop i).head?, ¬ IsFragmentPacket b → c = 1)
      ∧ (status = AssemblyStatus.OK →
          ∀ b ∈ ((markSource sampleGapFree.queue).drop i).head?, IsFragmentPacket b →
            IsCompleteRun (((markSource sampleGapFree.queue).drop i).take c)) :=
  cursor_advance sampleEnvLate sampleGapFree rfl (by decide)
    ⟨by decide, by decide, by decide, trivial⟩ (by decide) (by decide)

theorem deleteUnitUnderSeq_count (queue : List ABuffer) (seq : Nat) :
    (deleteUnitUnderSeq queue seq).2
      = (queue.length : Int) - ((deleteUnitUnderSeq queue seq).1.length : Int) := rfl

theorem deleteUnitUnderSeq_suffix (queue : List ABuffer) (seq : Nat) :
    (deleteUnitUnderSeq queue seq).1 <:+ queue :=
  List.dropWhile_suffix _

/-- On a queue in ascending order the loop of `deleteUnitUnderSeq` stops behind
the last packet below `seq`: what it leaves is the packets at or above `seq`. -/
theorem deleteUnitUnderSeq_filter (queue : List ABuffer) (seq : Nat)
    (hsorted : queue.Pairwise (fun a b => u32 a.int32Data ≤ u32 b.int32Data)) :
    (deleteUnitUnderSeq queue seq).1 = queue.filter (fun p => decide (seq ≤ u32 p.int32Data)) := by
  unfold deleteUnitUnderSeq
  simp only []
  induction queue with
  | nil => rfl
  | cons a as ih =>
    obtain ⟨ha, has⟩ := List.pairwise_cons.mp hsorted
    by_cases h : seq ≤ u32 a.int32Data
    · have hall : ∀ p ∈ as, decide (seq ≤ u32 p.int32Data) = true := by
        intro p hp
        have := ha p hp
        exact decide_eq_true (by omega)
      simp only [List.dropWhile, ge_iff_le, h, decide_True, Bool.not_true, List.filter_cons,
        if_true]
      rw [List.filter_eq_self.mpr hall]
    · simp only [List.dropWhile, ge_iff_le, h, decide_False, Bool.not_false, List.filter_cons,
        Bool.false_eq_true, if_false]
      exact ih has

/-- The loop of `deleteUnitUnderSeq` relies on the order of the Packet Queue:
on a list holding the sequence numbers 5 and 3, in this order, which the
Packet Source never queues, it stops at the first packet for the target 4,
removes nothing and returns 0, and the packet 3 remains. -/
theorem deleteUnitUnderSeq_unordered :
    deleteUnitUnderSeq [samplePacket 5 [0x02, 0x01], samplePacket 3 [0x02, 0x01]] 4
      = ([samplePacket 5 [0x02, 0x01], samplePacket 3 [0x02, 0x01]], 0)
    ∧ ∃ p ∈ (deleteUnitUnderSeq
          [samplePacket 5 [0x02, 0x01], samplePacket 3 [0x02, 0x01]] 4).1,
        u32 p.int32Data < 4 := by
  refine ⟨by decide, samplePacket 3 [0x02, 0x01], by decide, by decide⟩

/-- The packets at or above `seq` and the packets below `seq` make up the
list. -/
theorem filter_split_length (seq : Nat) (l : List ABuffer) :
    (l.filter (fun p => decide (seq ≤ u32 p.int32Data))).length
      + (l.filter (fun p => decide (u32 p.int32Data < seq))).length = l.length := by
  induction l with
  | nil => rfl
  | cons a as ih =>
    by_cases h : seq ≤ u32 a.int32Data
    · have h2 : ¬ u32 a.int32Data < seq := by omega
      simp only [List.filter_cons, h, h2, decide_True, decide_False, if_true,
        Bool.false_eq_true, if_false, List.length_cons]
      omega
    · have h2 : u32 a.int32Data < seq := by omega
      simp only [List.filter_cons, h, h2, decide_True, decide_False, if_true,
        Bool.false_eq_true, if_false, List.length_cons]
      omega

/-- On a queue in ascending order `deleteUnitUnderSeq` returns the number of
packets below `seq`. -/
theorem deleteUnitUnderSeq_removed (queue : List ABuffer) (seq : Nat)
    (hsorted : queue.Pairwise (fun a b => u32 a.int32Data ≤ u32 b.int32Data)) :
    (deleteUnitUnderSeq queue seq).2
      = ((queue.filter (fun p => decide (u32 p.int32Data < seq))).length : Int) := by
  rw [deleteUnitUnderSeq_count, deleteUnitUnderSeq_filter queue seq hsorted]
  have := filter_split_length seq queue
  omega

/-- C17 (prefix discard).  For every queue, in ascending order of sequence
numbers as the Packet Queue is, and every target `seq`, `deleteUnitUnderSeq`
leaves exactly
the packets whose sequence number is at least `seq`, in their original order,
so no packet below `seq` remains, and it returns the number of packets
removed, which is the number of packets below `seq` and the old length minus
the new one. -/
theorem deleteUnitUnderSeq_prefix (queue : List ABuffer) (seq : Nat)
    (hsorted : queue.Pairwise (fun a b => u32 a.int32Data ≤ u32 b.int32Data)) :
    (deleteUnitUnderSeq queue seq).1 = queue.filter (fun p => decide (seq ≤ u32 p.int32Data))
    ∧ (∀ p ∈ (deleteUnitUnderSeq queue seq).1, seq ≤ u32 p.int32Data)
    ∧ (deleteUnitUnderSeq queue seq).2
        = ((queue.filter (fun p => decide (u32 p.int32Data < seq))).length : Int)
    ∧ (deleteUnitUnderSeq queue seq).2
        = (queue.length : Int) - ((deleteUnitUnderSeq queue seq).1.length : Int) := by
  have h1 := deleteUnitUnderSeq_filter queue seq hsorted
  refine ⟨h1, ?_, deleteUnitUnderSeq_removed queue seq hsorted, rfl⟩
  intro p hp
  rw [h1] at hp
  simpa using (List.mem_filter.mp hp).2

/-- Witness of C17: the queue 100, 101, 103 and the target 102. -/
theorem deleteUnitUnderSeq_prefix_witness :
    (deleteUnitUnderSeq sampleAscending 102).1
        = sampleAscending.filter (fun p => decide (102 ≤ u32 p.int32Data))
    ∧ (∀ p ∈ (deleteUnitUnderSeq sampleAscending 102).1, 102 ≤ u32 p.int32Data)
    ∧ (deleteUnitUnderSeq sampleAscending 102).2
        = ((sampleAscending.filter (fun p => decide (u32 p.int32Data < 102))).length : Int)
    ∧ (deleteUnitUnderSeq sampleAscending 102).2
        = (sampleAscending.length : Int)
          - ((deleteUnitUnderSeq sampleAscending 102).1.length : Int) :=
  deleteUnitUnderSeq_prefix sampleAscending 102 (by decide)

theorem pickProperSeqLoop_find (env : Env) (first : Nat) (play jit : Int) (q : List ABuffer)
    (d : Int) :
    pickProperSeqLoop env first play jit q d
      = match q.find? (fun p => decide (env.findRTPTime first p + jit ≥ play)) with
        | some p => p.int32Data
        | none => d := by
  induction q with
  | nil => rfl
  | cons a as ih =>
    unfold pickProperSeqLoop
    by_cases hc : env.findRTPTime first a + jit ≥ play
    · rw [if_pos hc, List.find?_cons_of_pos _ (by simpa using hc)]
    · rw [if_neg hc, List.find?_cons_of_neg _ (by simpa using hc), ih]

/-- C18 (resync target selection).  On a non-empty queue `pickProperSeq`
returns the sequence number of the first packet, in queue order, whose
timestamp plus the jitter tolerance is at least the played time, and the
sequence number of the head of the queue when there is no such packet.  The
function only reads the queue: its result is this number alone. -/
theorem pickProperSeq_first_in_time (env : Env) (buffer : ABuffer) (rest : List ABuffer)
    (first : Nat) (play jit : Int) :
    pickProperSeq env (buffer :: rest) first play jit
      = some (match (buffer :: rest).find?
                (fun p => decide (env.findRTPTime first p + jit ≥ play)) with
              | some p => p.int32Data
              | none => buffer.int32Data) := by
  unfold pickProperSeq
  simp only []
  rw [pickProperSeqLoop_find]

theorem nackSkip_append (skipped l : List ABuffer) (highest : Int)
    (h : ∀ p ∈ skipped, p.int32Data < highest) :
    nackSkip (skipped ++ l) highest = nackSkip l highest := by
  induction skipped with
  | nil => rfl
  | cons a as ih =>
    have ha := h a (List.mem_cons_self _ _)
    have hn : ¬ a.int32Data ≥ highest := by omega
    simp only [List.cons_append, nackSkip, hn, if_false]
    exact ih (fun p hp => h p (List.mem_cons_of_mem _ hp))

theorem nackSkip_head (a : ABuffer) (l : List ABuffer) (highest : Int)
    (h : a.int32Data ≥ highest) : nackSkip (a :: l) highest = a :: l := by
  simp only [nackSkip, h, if_true]

/-- The second loop of `addNack` walks over packets with consecutive sequence
numbers and stops at the first pair that is apart. -/
theorem nackScan_run (pa pb : ABuffer) (post : List ABuffer) (highest : Int)
    (hgap : pb.int32Data > pa.int32Data + 1) (run : List ABuffer) :
    Consecutive (run ++ [pa]) →
    (∀ p ∈ (run ++ [pa]).head?, p.int32Data ≥ highest) →
    nackScan (run ++ pa :: pb :: post) highest = (pb.int32Data - 1, pa.int32Data + 1) := by
  induction run with
  | nil =>
    intro _ hfirst
    have ha : pa.int32Data ≥ highest := hfirst pa rfl
    have hneg : ¬ (pb.int32Data - pa.int32Data < 0) := by omega
    have hnew : pb.int32Data - 1 > highest := by omega
    simp only [List.nil_append, nackScan, hneg, if_false, hgap, hnew, and_self, if_true]
  | cons r rs ih =>
    intro hcons hfirst
    have hr : r.int32Data ≥ highest := hfirst r rfl
    cases rs with
    | nil =>
      have h1 : pa.int32Data = r.int32Data + 1 := hcons.1
      have hneg : ¬ (pa.int32Data - r.int32Data < 0) := by omega
      have hng : ¬ (pa.int32Data > r.int32Data + 1 ∧ pa.int32Data - 1 > highest) := by omega
      have := ih trivial (fun p hp => by
        have : p = pa := by simpa using hp.symm
        rw [this]; omega)
      simp only [List.nil_append] at this
      simp only [List.cons_append, List.nil_append, nackScan, hneg, if_false, hng]
      exact this
    | cons r2 rs2 =>
      have h1 : r2.int32Data = r.int32Data + 1 := hcons.1
      have hneg : ¬ (r2.int32Data - r.int32Data < 0) := by omega
      have hng : ¬ (r2.int32Data > r.int32Data + 1 ∧ r2.int32Data - 1 > highest) := by omega
      have := ih hcons.2 (fun p hp => by
        have : p = r2 := by simpa using hp.symm
        rw [this]; omega)
      simp only [List.cons_append] at this
      simp only [List.cons_append, nackScan, hneg, if_false, hng]
      exact this

/-- The mask of a request for `count` sequence numbers, `count` from 1 to 17:
the `count - 1` low bits, one for each missing slot behind the first. -/
theorem nackMask_bits : ∀ count : Nat, 1 ≤ count → count ≤ 17 →
    nackMask (count : Int) = some (2 ^ (count - 1) - 1) := by
  decide

/-- C20, counterexample.  On the queue 100, 101, 103 the first gap lies between
`a = 101` and `b = 103`.  `addNack` issues one request starting at 102, but it
returns the count 1, the number of missing sequence numbers, and not
`b - (a + 1) + 1 = 2`, and it sets the watermark to 102, the last missing
sequence number, and not to `b = 103`. -/
theorem addNack_request_counterexample :
    (addNack { sampleInit with queue := sampleAscending }).1.nackRequests
        = [{ nackStartAt := 102, mask := some 0, queueHeadSeqNum := 100 }]
    ∧ (addNack { sampleInit with queue := sampleAscending }).2 = 1
    ∧ (addNack { sampleInit with queue := sampleAscending }).2 ≠ 103 - (101 + 1) + 1
    ∧ (addNack { sampleInit with queue := sampleAscending }).1.mHighestNackNumber = 102
    ∧ (addNack { sampleInit with queue := sampleAscending }).1.mHighestNackNumber ≠ 103 := by
  decide

/-- C20, as amended (NACK request contents).  Take a queue that starts with
packets below the watermark, goes on with packets of consecutive sequence
numbers up to a packet `a`, and has behind `a` a packet `b` with
`b > a + 1`: the first gap that has not been requested.  Then `addNack`
issues exactly one request, whatever gaps follow: it starts at `a + 1` and
carries the mask `0xffff >> (16 - count + 1)` and the low 16 bits of the
sequence number of the head of the queue; the count returned is
`count = (b - 1) - (a + 1) + 1 = b - a - 1`, the number of missing sequence
numbers, and the watermark becomes `b - 1`, the last of them.  For a count of
at most 17 the mask has the `count - 1` low bits set.  (`a + 1` is not -1,
the value by which `addNack` marks that it found no gap.) -/
theorem addNack_request (s : State) (skipped run post : List ABuffer) (pa pb head : ABuffer)
    (hq : s.queue = skipped ++ (run ++ pa :: pb :: post))
    (hhead : s.queue.head? = some head)
    (hskip : ∀ p ∈ skipped, p.int32Data < s.mHighestNackNumber)
    (hfirst : ∀ p ∈ (run ++ [pa]).head?, p.int32Data ≥ s.mHighestNackNumber)
    (hrun : Consecutive (run ++ [pa]))
    (hgap : pb.int32Data > pa.int32Data + 1)
    (hstart : pa.int32Data + 1 ≠ -1) :
    addNack s
      = ({ s with
            mHighestNackNumber := pb.int32Data - 1
            nackRequests := s.nackRequests ++
              [{ nackStartAt := pa.int32Data + 1
                 mask := nackMask (pb.int32Data - pa.int32Data - 1)
                 queueHeadSeqNum := u16 head.int32Data }] },
         pb.int32Data - pa.int32Data - 1)
    ∧ (pb.int32Data - pa.int32Data - 1 ≤ 17 →
        nackMask (pb.int32Data - pa.int32Data - 1)
          = some (2 ^ ((pb.int32Data - pa.int32Data - 1).toNat - 1) - 1)) := by
  constructor
  · have hskipped : nackSkip s.queue s.mHighestNackNumber = run ++ pa :: pb :: post := by
      rw [hq, nackSkip_append _ _ _ hskip]
      cases run with
      | nil => exact nackSkip_head _ _ _ (hfirst pa rfl)
      | cons r rs => exact nackSkip_head _ _ _ (hfirst r rfl)
    have hscan := nackScan_run pa pb post s.mHighestNackNumber hgap run hrun hfirst
    have hcount : pb.int32Data - 1 - (pa.int32Data + 1) + 1 = pb.int32Data - pa.int32Data - 1 := by
      omega
    unfold addNack
    cases hqq : s.queue with
    | nil => rw [hqq] at hhead; cases hhead
    | cons h0 t0 =>
      rw [hqq] at hhead
      have hh : h0 = head := by simpa using hhead
      subst hh
      rw [hqq] at hskipped
      simp only [hskipped, hscan, ne_eq, hstart, not_false_eq_true, if_true, hcount]
  · intro hle
    have hpos : 1 ≤ (pb.int32Data - pa.int32Data - 1).toNat := by omega
    have h17 : (pb.int32Data - pa.int32Data - 1).toNat ≤ 17 := by omega
    have := nackMask_bits _ hpos h17
    rwa [Int.toNat_of_nonneg (by omega)] at this

/-- Witness of C20 as amended: the queue 100, 101, 103 with the watermark at 0;
the gap lies behind 101. -/
theorem addNack_request_witness :
    addNack { sampleInit with queue := sampleAscending }
      = ({ sampleInit with
            queue := sampleAscending
            mHighestNackNumber := 102
            nackRequests := [{ nackStartAt := 102, mask := some 0, queueHeadSeqNum := 100 }] },
         1) :=
  (addNack_request { sampleInit with queue := sampleAscending } []
    [samplePacket 100 [0x02, 0x01, 0x07]] [] (samplePacket 101 [0x02, 0x01, 0x08])
    (samplePacket 103 [0x02, 0x01, 0x09]) (samplePacket 100 [0x02, 0x01, 0x07])
    rfl rfl (by decide) (by decide) ⟨by decide, trivial⟩ (by decide) (by decide)).1

/-- What `addNack` changes: the watermark, and the log of requests, which
grows by at most one request. -/
theorem addNack_state (s : State) :
    ∃ highest requests,
      (addNack s).1 = { s with mHighestNackNumber := highest,
                               nackRequests := s.nackRequests ++ requests }
      ∧ requests.length ≤ 1 := by
  cases s
  unfold addNack
  simp only []
  split
  · exact ⟨_, [], by rw [List.append_nil], Nat.zero_le _⟩
  · split_ifs
    · exact ⟨_, [_], rfl, Nat.le_refl _⟩
    · exact ⟨_, [], by rw [List.append_nil], Nat.zero_le _⟩

/-- While the head packet is not eligible, `addNALUnit` attaches the source to
it, runs the NACK scan and returns `NOT_ENOUGH_DATA`. -/
theorem addNALUnit_early (env : Env) (s : State) (head : ABuffer) (rest : List ABuffer)
    (hq : s.queue = head :: rest)
    (hearly : eligible env s { head with source := true } = false) :
    addNALUnit env s
      = some (AssemblyStatus.NOT_ENOUGH_DATA,
          (addNack { s with queue := { head with source := true } :: rest }).1) := by
  have hne : ¬ (playedTime env s - expiry env s { head with source := true } ≥ 0) := by
    have := of_decide_eq_false hearly
    omega
  unfold playedTime expiry jitterTolerance at hne
  unfold addNALUnit
  rw [hq]
  simp only [hne, decide_False, Bool.not_false, if_true]

/-- C11 (jitter backpressure).  With
`jitterTolerance = staticJitter + min(dynamicJitter, 150 ms)` in clock units and
`expiry = head packet timestamp + jitterTolerance`, whenever
`playedTime < expiry` the call of `addNALUnit` returns `NOT_ENOUGH_DATA`, and
the state it leaves differs from the one it found in the watermark and the
request log of the NACK scan only: the queue holds the same packets in the
same order (the head packet has its `"source"` entry attached, which is how
`addNALUnit` starts), and the cursor, its validity flag, the accumulator, the
posted access units and the keyframe-gate state are as they were. -/
theorem addNALUnit_backpressure (env : Env) (s : State) (head : ABuffer) (rest : List ABuffer)
    (hq : s.queue = head :: rest)
    (hearly : playedTime env s < expiry env s { head with source := true }) :
    ∃ highest requests,
      addNALUnit env s
        = some (AssemblyStatus.NOT_ENOUGH_DATA,
            { s with queue := { head with source := true } :: rest,
                     mHighestNackNumber := highest,
                     nackRequests := s.nackRequests ++ requests })
      ∧ requests.length ≤ 1 := by
  obtain ⟨highest, requests, h1, h2⟩ :=
    addNack_state { s with queue := { head with source := true } :: rest }
  refine ⟨highest, requests, ?_, h2⟩
  rw [addNALUnit_early env s head rest hq (decide_eq_false (by omega)), h1]

/-- Witness of C11: on a source with a static jitter of 100 ms, 50 ms after the
first packet, the head packet captured at 1000 is not yet eligible. -/
theorem addNALUnit_backpressure_witness :
    ∃ highest requests,
      addNALUnit sampleEnvEarly sampleGapFree
        = some (AssemblyStatus.NOT_ENOUGH_DATA,
            { sampleGapFree with
                queue := { sampleFragment 100 true false [5, 6] with source := true }
                  :: [sampleFragment 101 false false [7], sampleFragment 102 false true [8, 9],
                      samplePacket 103 [0x02, 0x01, 0x0A]],
                mHighestNackNumber := highest,
                nackRequests := sampleGapFree.nackRequests ++ requests })
      ∧ requests.length ≤ 1 :=
  addNALUnit_backpressure sampleEnvEarly sampleGapFree (sampleFragment 100 true false [5, 6])
    [sampleFragment 101 false false [7], sampleFragment 102 false true [8, 9],
     samplePacket 103 [0x02, 0x01, 0x0A]] rfl (by decide)

/-- The statements of `addNALUnit` behind its jitter-buffer test, for an
eligible head packet: the gap handler, the test for an emptied queue, and the
dispatch of the head of the queue. -/
theorem addNALUnit_eligible (env : Env) (s : State) (head : ABuffer) (rest : List ABuffer)
    (hq : s.queue = head :: rest)
    (helig : eligible env s { head with source := true } = true) :
    addNALUnit env s
      = (afterGapHandler env s head rest).bind (fun s1 =>
          if s1.mNextExpectedSeqNoValid && s1.queue.isEmpty
          then some (AssemblyStatus.NOT_ENOUGH_DATA, s1)
          else addNALUnitDispatch env s1) := by
  have he : playedTime env s - expiry env s { head with source := true } ≥ 0 := by
    have := of_decide_eq_true helig
    omega
  unfold playedTime expiry jitterTolerance at he
  unfold addNALUnit
  rw [hq]
  simp only [he, decide_True, Bool.not_true, Bool.false_eq_true, if_false]
  unfold afterGapHandler addNALUnitExpired firstLineBroken secondLineBroken playedTime expiry
    jitterTolerance
  simp only []
  generalize (addNack { s with queue := { head with source := true } :: rest }).1 = s0
  split_ifs with hR
  · cases pickProperSeq env s0.queue s.mFirstRtpTime
      ((s.mFirstRtpTime : Int)
        + env.MsToRtp (Int.tdiv env.nowUs 1000 - Int.tdiv s.mFirstSysTime 1000) s.mClockRate)
      (env.MsToRtp s.staticJitterTimeMs s.mClockRate
        + min (env.MsToRtp s.dynamicJitterTimeMs s.mClockRate) (env.MsToRtp 150 s.mClockRate))
    · rfl
    · rfl
  · rfl

/-- The prefix discard when the cursor is established: the packets in front of
the first one at or above the cursor are erased and their number, when
positive, is reported. -/
theorem addNALUnitDiscard_valid (s : State) (hv : s.mNextExpectedSeqNoValid = true) :
    addNALUnitDiscard s
      = { s with
            queue := (deleteUnitUnderSeq s.queue s.mNextExpectedSeqNo).1
            abandoned := s.abandoned ++
              (if (deleteUnitUnderSeq s.queue s.mNextExpectedSeqNo).2 > 0
               then [(deleteUnitUnderSeq s.queue s.mNextExpectedSeqNo).2] else []) } := by
  unfold addNALUnitDiscard
  rw [if_pos hv]
  simp only []
  split_ifs
  · rfl
  · simp

theorem addNALUnitDiscard_invalid (s : State) (hv : s.mNextExpectedSeqNoValid = false) :
    addNALUnitDiscard s = s := by
  unfold addNALUnitDiscard
  rw [if_neg (by simp [hv])]

/-- The state behind the gap handler of `addNALUnit`, written out: the NACK
scan has moved the watermark and issued at most one request, the cursor is the
one picked by `pickProperSeq` when both lateness lines are broken, and the
prefix discard has run on that state. -/
theorem afterGapHandler_eq (env : Env) (s : State) (head : ABuffer) (rest : List ABuffer) :
    ∃ highest requests,
      requests.length ≤ 1
      ∧ afterGapHandler env s head rest
        = some (addNALUnitDiscard
            { s with
                queue := { head with source := true } :: rest
                mHighestNackNumber := highest
                nackRequests := s.nackRequests ++ requests
                mNextExpectedSeqNo :=
                  if firstLineBroken env s { head with source := true }
                      && secondLineBroken env s { head with source := true }
                  then u32 (pickProperSeqLoop env s.mFirstRtpTime (playedTime env s)
                        (jitterTolerance env s) ({ head with source := true } :: rest)
                        head.int32Data)
                  else s.mNextExpectedSeqNo }) := by
  obtain ⟨highest, requests, h1, h2⟩ :=
    addNack_state { s with queue := { head with source := true } :: rest }
  refine ⟨highest, requests, h2, ?_⟩
  unfold afterGapHandler
  simp only [h1]
  split_ifs
  · rfl
  · rfl

/-- C12 (sequence mismatch).  Take an eligible head packet and an established
cursor, and let `s1` be the state behind the gap handler of `addNALUnit`
(source attached, NACK scan, cursor reset by `pickProperSeq` if both lateness
lines are broken, prefix discard).  If the head of the queue of `s1` does not
carry the sequence number of the cursor of `s1`, then `addNALUnit` returns
`WRONG_SEQUENCE_NUMBER` and leaves the state `s1`: no packet is removed
besides the discarded prefix, the cursor stays the one the head was compared
with (the cursor of the call when no resynchronisation took place), and the
accumulator and the posted access units are those of the call. -/
theorem addNALUnit_wrong_sequence (env : Env) (s s1 : State) (head b : ABuffer)
    (rest : List ABuffer) (hq : s.queue = head :: rest)
    (hv : s.mNextExpectedSeqNoValid = true)
    (helig : eligible env s { head with source := true } = true)
    (hs1 : afterGapHandler env s head rest = some s1)
    (hb : s1.queue.head? = some b) (hmis : u32 b.int32Data ≠ s1.mNextExpectedSeqNo) :
    addNALUnit env s = some (AssemblyStatus.WRONG_SEQUENCE_NUMBER, s1)
    ∧ s1.queue
        = (deleteUnitUnderSeq ({ head with source := true } :: rest) s1.mNextExpectedSeqNo).1
    ∧ ((firstLineBroken env s { head with source := true }
          && secondLineBroken env s { head with source := true }) = false →
        s1.mNextExpectedSeqNo = s.mNextExpectedSeqNo)
    ∧ s1.mNextExpectedSeqNoValid = true
    ∧ s1.mNALUnits = s.mNALUnits ∧ s1.mAccessUnitRTPTime = s.mAccessUnitRTPTime
    ∧ s1.posted = s.posted := by
  obtain ⟨highest, requests, -, h1⟩ := afterGapHandler_eq env s head rest
  rw [hs1, addNALUnitDiscard_valid _ (by exact hv)] at h1
  have hs := Option.some.inj h1
  have hv1 : s1.mNextExpectedSeqNoValid = true := by rw [hs]; exact hv
  refine ⟨?_, by rw [hs], ?_, hv1, by rw [hs], by rw [hs], by rw [hs]⟩
  · rw [addNALUnit_eligible env s head rest hq helig, hs1]
    cases hq1 : s1.queue with
    | nil => rw [hq1] at hb; cases hb
    | cons b1 rest1 =>
      rw [hq1] at hb
      have hbb : b1 = b := by simpa using hb
      subst hbb
      simp only [Option.some_bind, hq1, List.isEmpty_cons, Bool.and_false, Bool.false_eq_true,
        if_false]
      unfold addNALUnitDispatch
      rw [hq1]
      simp only [hv1, hmis, ne_eq, not_false_eq_true, decide_True, Bool.and_self, if_true,
        Bool.not_true, Bool.false_eq_true, if_false]
      rfl
  · intro hno
    rw [hs]
    simp only [hno, Bool.false_eq_true, if_false]

/-- Witness of C12: the cursor is at 100 and the queue holds the packet 101,
which is eligible 120 ms after the first packet. -/
theorem addNALUnit_wrong_sequence_witness :
    addNALUnit sampleEnvLate sampleAhead
      = some (AssemblyStatus.WRONG_SEQUENCE_NUMBER,
          { sampleAhead with
              queue := [{ samplePacket 101 [0x02, 0x01, 0x08] with source := true }] }) :=
  (addNALUnit_wrong_sequence sampleEnvLate sampleAhead
    { sampleAhead with queue := [{ samplePacket 101 [0x02, 0x01, 0x08] with source := true }] }
    (samplePacket 101 [0x02, 0x01, 0x08])
    { samplePacket 101 [0x02, 0x01, 0x08] with source := true } [] rfl rfl (by decide)
    (by decide) rfl (by decide)).1

/-- The flag `mAccessUnitDamaged` after `packetLost` is the one before it. -/
theorem packetLost_damaged (s s' : State) (h : packetLost s = some s') :
    s'.mAccessUnitDamaged = s.mAccessUnitDamaged
      ∧ s'.mNextExpectedSeqNo = (s.mNextExpectedSeqNo + 1) % 4294967296 := by
  unfold packetLost at h
  split_ifs at h
  cases h
  exact ⟨rfl, rfl⟩

/-- C14, the code at the failing input.  The accumulator holds a unit captured
at 1000 and the cursor is established.  First, `packetLost` is notified and a
unit captured at 2000 is added, which emits the access unit: it does not
carry the damaged flag.  Second, `assembleMore` discards the packet 101 that
lies below the cursor, reports it as abandoned, and routes the packet 102,
which emits the access unit: it does not carry the damaged flag either. -/
theorem damaged_flag_never_set :
    (packetLost sampleLossy).map State.mNextExpectedSeqNo = some 103
    ∧ ((packetLost sampleLossy).bind
          (addSingleNALUnit sampleEnv (sampleUnit 0x01 2000 [9]))).map
        (fun s => s.posted.map ABuffer.damaged) = some [false]
    ∧ (assembleMore sampleEnvLate sampleLossy).map
        (fun r => (r.1, r.2.abandoned, r.2.mNALUnits.map ABuffer.int32Data,
          r.2.posted.map ABuffer.damaged))
        = some (AssemblyStatus.OK, [1], [102], [false]) := by
  decide

/-- The four ways in which the scanning loop of `addFragmentedNALUnit` ends:
the run is incomplete; it is complete at a packet of the list; a packet is
malformed or the run is rejected, and the packets below a new cursor are
deleted; or, for a unit that is not inter-predicted, a sequence number is not
the expected one. -/
theorem fuScan_cases (indicator nalType rtp startSeqNo : Nat) (pFrame : Bool) (s : State)
    (l : List ABuffer) :
    ∀ (e ts tc c : Nat) (snapped : Bool),
      (∃ e' ts' tc', fuScan indicator nalType rtp startSeqNo pFrame s l e ts tc c snapped
          = FUScan.left false e' ts' tc')
      ∨ (∃ pre p post e', l = pre ++ p :: post
          ∧ fuScan indicator nalType rtp startSeqNo pFrame s l e ts tc c snapped
            = FUScan.left true e' (ts + (payloads (pre ++ [p])).length) (tc + pre.length + 1))
      ∨ (∃ next, fuScan indicator nalType rtp startSeqNo pFrame s l e ts tc c snapped
          = FUScan.ret AssemblyStatus.MALFORMED_PACKET
              { s with mNextExpectedSeqNo := next,
                       queue := (deleteUnitUnderSeq s.queue next).1 })
      ∨ (pFrame = false
          ∧ fuScan indicator nalType rtp startSeqNo pFrame s l e ts tc c snapped
            = FUScan.ret AssemblyStatus.WRONG_SEQUENCE_NUMBER s) := by
  induction l with
  | nil => intro e ts tc c snapped; exact Or.inl ⟨_, _, _, rfl⟩
  | cons p ps ih =>
    intro e ts tc c snapped
    rw [fuScan_cons]
    by_cases hw : (decide (u32 p.int32Data ≠ e) && !pFrame) = true
    · rw [if_pos hw]
      refine Or.inr (Or.inr (Or.inr ⟨?_, rfl⟩))
      have hw2 := hw
      simp only [Bool.and_eq_true, Bool.not_eq_true'] at hw2
      exact hw2.2
    rw [if_neg hw]
    by_cases hm : fuMalformed indicator nalType rtp p = true
    · rw [if_pos hm]
      exact Or.inr (Or.inr (Or.inl ⟨_, rfl⟩))
    rw [if_neg hm]
    by_cases hend : fuEnd p = true
    · rw [if_pos hend]
      generalize (pFrame && !recycleUnit startSeqNo ((u32 p.int32Data + 1) % 4294967296)
        (if !(snapped || decide (u32 p.int32Data ≠ e)) then c + 1 else c) (tc + 1) (1 / 2)) = cond
      cases cond
      · refine Or.inr (Or.inl ⟨[], p, ps, (u32 p.int32Data + 1) % 4294967296, rfl, ?_⟩)
        simp [payloads]
      · exact Or.inr (Or.inr (Or.inl ⟨_, rfl⟩))
    · rw [if_neg hend]
      rcases ih ((u32 p.int32Data + 1) % 4294967296) (ts + (p.data.length - 3)) (tc + 1)
          (if !(snapped || decide (u32 p.int32Data ≠ e)) then c + 1 else c)
          (snapped || decide (u32 p.int32Data ≠ e))
        with ⟨e', ts', tc', h⟩ | ⟨pre, p', post, e', hl, h⟩ | ⟨next, h⟩ | ⟨hp, h⟩
      · exact Or.inl ⟨e', ts', tc', h⟩
      · refine Or.inr (Or.inl ⟨p :: pre, p', post, e', by rw [hl]; rfl, ?_⟩)
        rw [h, List.cons_append, payloads_length_cons, List.length_cons]
        congr 1 <;> omega
      · exact Or.inr (Or.inr (Or.inl ⟨next, h⟩))
      · exact Or.inr (Or.inr (Or.inr ⟨hp, h⟩))

/-- On a run of continuation fragments of a unit that is not inter-predicted,
followed by a packet whose sequence number is not the expected one, the
scanning loop returns `WRONG_SEQUENCE_NUMBER` with the state it started
from. -/
theorem fuScan_intra_gap (t tid T startSeqNo : Nat) (s : State) (ht : t < 64)
    (bad : ABuffer) (rest : List ABuffer) (mids : List ABuffer) :
    ∀ (e ts tc c : Nat), e < 4294967296 → IsOpenRun t tid T e mids →
      u32 bad.int32Data ≠ (e + mids.length) % 4294967296 →
      fuScan H265_NALU_FU t T startSeqNo false s (mids ++ bad :: rest) e ts tc c false
        = FUScan.ret AssemblyStatus.WRONG_SEQUENCE_NUMBER s := by
  induction mids with
  | nil =>
    intro e ts tc c he _ hbad
    rw [List.length_nil, Nat.add_zero, Nat.mod_eq_of_lt he] at hbad
    rw [List.nil_append, fuScan_cons]
    simp [hbad]
  | cons p ps ih =>
    intro e ts tc c he hrun hbad
    obtain ⟨⟨piece, hf⟩, hrest⟩ := hrun
    obtain ⟨f1, f2, f3, -⟩ := hf.scan ht
    rw [List.cons_append, fuScan_cons]
    simp only [f1, f2, f3, ne_eq, not_true_eq_false, decide_False, Bool.false_and,
      Bool.false_eq_true, if_false, Bool.or_false, Bool.not_false, if_true]
    apply ih _ _ _ _ (Nat.mod_lt _ (by decide)) hrest
    rw [List.length_cons] at hbad
    omega

/-- The loop of `addSingleTimeAggregationPacket` on well-formed records
followed by other bytes: the units of the records are passed to
`addSingleNALUnit`, in order, and the loop goes on with the bytes behind
them. -/
theorem stapLoop_prefix (env : Env) (buffer : ABuffer) (units : List (List Nat))
    (hlen : ∀ u ∈ units, u.length ≤ 65535) (tailData : List Nat) (fuel : Nat)
    (hfuel : units.length ≤ fuel) (s : State) :
    stapLoop env buffer fuel
        ((units.map (fun u => [u.length / 256, u.length % 256] ++ u)).flatten ++ tailData) s
      = (feedUnits env (units.map (embeddedUnit buffer)) s).bind
          (fun s' => stapLoop env buffer (fuel - units.length) tailData s') := by
  induction units generalizing fuel s with
  | nil => simp [feedUnits]
  | cons u us ih =>
    cases fuel with
    | zero => simp at hfuel
    | succ f =>
      have hu : u.length ≤ 65535 := hlen u (List.mem_cons_self _ _)
      have hsz := bigEndian16 u.length hu
      have hdata : (List.map (fun u => [u.length / 256, u.length % 256] ++ u) (u :: us)).flatten
            ++ tailData
          = u.length / 256 :: u.length % 256 ::
              (u ++ ((List.map (fun u => [u.length / 256, u.length % 256] ++ u) us).flatten
                ++ tailData)) := by
        simp
      rw [hdata]
      conv_lhs => unfold stapLoop
      have hb0 : byteAt (u.length / 256 :: u.length % 256 ::
          (u ++ ((List.map (fun u => [u.length / 256, u.length % 256] ++ u) us).flatten
            ++ tailData))) 0 = u.length / 256 % 256 := rfl
      have hb1 : byteAt (u.length / 256 :: u.length % 256 ::
          (u ++ ((List.map (fun u => [u.length / 256, u.length % 256] ++ u) us).flatten
            ++ tailData))) 1 = u.length % 256 % 256 := rfl
      simp only [hb0, hb1, hsz]
      rw [if_pos (by simp only [List.length_cons]; omega),
        if_neg (by simp only [List.length_cons, List.length_append]; omega)]
      have htake : (List.drop 2 (u.length / 256 :: u.length % 256 ::
          (u ++ ((List.map (fun u => [u.length / 256, u.length % 256] ++ u) us).flatten
            ++ tailData)))).take u.length = u := by
        simp
      have hdrop : List.drop (2 + u.length) (u.length / 256 :: u.length % 256 ::
          (u ++ ((List.map (fun u => [u.length / 256, u.length % 256] ++ u) us).flatten
            ++ tailData)))
          = (List.map (fun u => [u.length / 256, u.length % 256] ++ u) us).flatten
            ++ tailData := by
        rw [show 2 + u.length = u.length + 1 + 1 by omega]
        simp
      have hunit : CopyTimes
          { ABuffer.new u.length with data := memcpy (ABuffer.new u.length).data 0 u }
          buffer = embeddedUnit buffer u := by
        have := memcpy_zeros [] u u.length
        simp only [List.nil_append, List.length_nil, Nat.sub_self, List.replicate_zero,
          List.append_nil] at this
        simp [CopyTimes, ABuffer.new, embeddedUnit, this]
      have hf : us.length ≤ f := by
        simp only [List.length_cons] at hfuel; omega
      clear hb0 hb1 hsz
      rw [htake, hdrop, hunit]
      simp only [feedUnits, List.map_cons, List.length_cons, Nat.add_sub_add_right]
      cases hadd : addSingleNALUnit env (embeddedUnit buffer u) s with
      | none => rfl
      | some s1 =>
        simp only [Option.bind_eq_bind, Option.some_bind]
        exact ih (fun v hv => hlen v (List.mem_cons_of_mem _ hv)) f hf s1

/-- C16, counterexample.  The packet aggregates a record with a unit of 3 bytes
and a record that declares 5 bytes while 1 byte remains.
`addSingleTimeAggregationPacket` reports failure, and `addNALUnit` returns
`MALFORMED_PACKET`, but the unit of the first record has been routed: it is in
the accumulator. -/
theorem aggregation_truncated_counterexample :
    (addSingleTimeAggregationPacket sampleEnv sampleTruncated sampleInit).map
        (fun r => (r.1, r.2.mNALUnits.map ABuffer.data))
      = some (false, [[0x26, 0x01, 0xAA]])
    ∧ (addNALUnit sampleEnvLate { sampleInit with queue := [sampleTruncated] }).map
        (fun r => (r.1, r.2.mNALUnits.map ABuffer.data, r.2.queue, r.2.mNextExpectedSeqNo))
      = some (AssemblyStatus.MALFORMED_PACKET, [[0x26, 0x01, 0xAA]], [], 8) := by
  decide

/-- C16, as amended.  Take an aggregated payload made of well-formed records
followed by a record whose declared 2-byte length exceeds the bytes that
remain behind it.  `addSingleTimeAggregationPacket` reports failure, after it
has passed the units of the records before that one to `addSingleNALUnit`, in
order; no unit of that record or of the bytes behind it is passed on.  When
the packet is the head of the queue and carries the cursor's sequence number,
the dispatch of `addNALUnit` returns `MALFORMED_PACKET`, removes the packet
and advances the cursor by one. -/
theorem aggregation_truncated (env : Env) (buffer : ABuffer) (s : State) (typeByte : Nat)
    (units : List (List Nat)) (hi lo : Nat) (tailData : List Nat)
    (hlen : ∀ u ∈ units, u.length ≤ 65535) (hhi : hi < 256) (hlo : lo < 256)
    (hbad : tailData.length < hi * 256 + lo)
    (hdata : buffer.data = aggregationPayload typeByte units ++ [hi, lo] ++ tailData) :
    ∃ s', feedUnits env (units.map (embeddedUnit buffer)) s = some s'
      ∧ addSingleTimeAggregationPacket env buffer s = some (false, s')
      ∧ ∀ rest, s.queue = buffer :: rest → s.mNextExpectedSeqNoValid = true →
          s.mNextExpectedSeqNo = u32 buffer.int32Data →
          byteAt buffer.data 0 &&& 0x80 = 0 → nalTypeOf buffer.data = H265_NALU_AP →
          addNALUnitDispatch env s
            = some (AssemblyStatus.MALFORMED_PACKET,
                { s' with queue := rest,
                          mNextExpectedSeqNo := (s.mNextExpectedSeqNo + 1) % 4294967296 }) := by
  obtain ⟨s', hs'⟩ := feedUnits_total env (units.map (embeddedUnit buffer)) s
  have hdrop : buffer.data.drop 1
      = (units.map (fun u => [u.length / 256, u.length % 256] ++ u)).flatten
        ++ (hi :: lo :: tailData) := by
    rw [hdata]
    simp [aggregationPayload]
  have hsize : ¬ buffer.data.length < 3 := by
    rw [hdata]
    simp only [aggregationPayload, List.length_append, List.length_cons, List.length_nil]
    omega
  have hfuel : units.length + 1 ≤ buffer.data.length := by
    rw [hdata]
    clear hdata hlen hs' hdrop hsize
    induction units with
    | nil => simp [aggregationPayload]
    | cons u us ih =>
      simp only [aggregationPayload, List.map_cons, List.flatten_cons, List.length_cons,
        List.length_append, List.length_nil] at ih ⊢
      omega
  have hword : (byteAt (hi :: lo :: tailData) 0 <<< 8) ||| byteAt (hi :: lo :: tailData) 1
      = hi * 256 + lo := by
    simp only [byteAt, List.getD_cons_zero, List.getD_cons_succ, Nat.mod_eq_of_lt hhi,
      Nat.mod_eq_of_lt hlo]
    have hl : lo < 2 ^ 8 := hlo
    rw [Nat.shiftLeft_eq, Nat.mul_comm, ← Nat.mul_add_lt_is_or hl, Nat.mul_comm]
  have hlast : ∀ st : State,
      stapLoop env buffer (buffer.data.length - units.length) (hi :: lo :: tailData) st
        = some (false, st) := by
    intro st
    obtain ⟨f, hf⟩ : ∃ f, buffer.data.length - units.length = f + 1 :=
      ⟨buffer.data.length - units.length - 1, by omega⟩
    rw [hf]
    unfold stapLoop
    rw [hword, if_pos (by simp), if_pos (by simp only [List.length_cons]; omega)]
  have hstap : addSingleTimeAggregationPacket env buffer s = some (false, s') := by
    unfold addSingleTimeAggregationPacket
    simp only [if_neg hsize]
    rw [hdrop, stapLoop_prefix env buffer units hlen _ _ (by omega) s, hs']
    exact hlast s'
  refine ⟨s', hs', hstap, ?_⟩
  intro rest hq hv hcur hf hap
  unfold addNALUnitDispatch
  rw [hq]
  have hlen1 : ¬ buffer.data.length < 1 := by omega
  have hnot : ¬ (buffer.data.length < 1 ∨ byteAt buffer.data 0 &&& 0x80 ≠ 0) := by
    rintro (h | h)
    · exact hlen1 h
    · exact h hf
  simp only [hv, hcur, ne_eq, not_true_eq_false, decide_False, Bool.and_false, Bool.not_true,
    Bool.false_eq_true, if_false]
  rw [if_neg hnot, if_neg (by rw [hap]; simp [H265_NALU_AP]),
    if_neg (by rw [hap]; simp [H265_NALU_AP, H265_NALU_FU]), if_pos hap, hstap]
  rfl

/-- Witness of C16 as amended: a packet with one well-formed record and a
record that declares 5 bytes while 1 byte remains, at the head of the queue
with the cursor on it. -/
theorem aggregation_truncated_witness :
    ∃ s', feedUnits sampleEnv ([[0x26, 0x01, 0xAA]].map (embeddedUnit sampleTruncated))
          sampleTruncatedHead = some s'
      ∧ addSingleTimeAggregationPacket sampleEnv sampleTruncated sampleTruncatedHead
          = some (false, s')
      ∧ addNALUnitDispatch sampleEnv sampleTruncatedHead
          = some (AssemblyStatus.MALFORMED_PACKET,
              { s' with queue := [],
                        mNextExpectedSeqNo :=
                          (sampleTruncatedHead.mNextExpectedSeqNo + 1) % 4294967296 }) :=
  let ⟨s', h1, h2, h3⟩ :=
    aggregation_truncated sampleEnv sampleTruncated sampleTruncatedHead 0x60
      [[0x26, 0x01, 0xAA]] 0x00 0x05 [0x02] (by decide) (by decide) (by decide) (by decide) rfl
  ⟨s', h1, h2, h3 [] rfl rfl (by decide) (by decide) (by decide)⟩

/-- On every queue whose head packet is of the fragmentation type,
`addFragmentedNALUnit` returns, and the queue it leaves is a suffix of the
queue it found.  It returns `WRONG_SEQUENCE_NUMBER` only for a unit that is
not inter-predicted, and then it leaves the state as it was. -/
theorem addFragmentedNALUnit_cases (env : Env) (s : State) (h : ABuffer) (l : List ABuffer)
    (hq : s.queue = h :: l) (hsz : 0 < h.data.length) (hfu : nalTypeOf h.data = H265_NALU_FU) :
    ∃ status s', addFragmentedNALUnit env s = some (status, s')
      ∧ s'.queue <:+ s.queue
      ∧ (status = AssemblyStatus.WRONG_SEQUENCE_NUMBER →
          s' = s ∧ ¬ byteAt h.data 2 &&& H265_NALU_MASK < 0x10) := by
  by_cases hsz3 : h.data.length < 3
  · refine ⟨AssemblyStatus.MALFORMED_PACKET,
      { s with queue := l, mNextExpectedSeqNo := (s.mNextExpectedSeqNo + 1) % 4294967296 },
      ?_, by rw [hq]; exact List.suffix_cons _ _, (by intro hh; cases hh)⟩
    unfold nalTypeOf at hfu
    unfold addFragmentedNALUnit
    rw [hq]
    simp only []
    rw [if_neg (by omega), if_neg (by rw [hfu]; simp), if_pos hsz3]
  by_cases hstart : byteAt h.data 2 &&& 0x80 = 0
  · refine ⟨AssemblyStatus.MALFORMED_PACKET,
      { s with queue := l, mNextExpectedSeqNo := (s.mNextExpectedSeqNo + 1) % 4294967296 },
      ?_, by rw [hq]; exact List.suffix_cons _ _, (by intro hh; cases hh)⟩
    unfold nalTypeOf at hfu
    unfold addFragmentedNALUnit
    rw [hq]
    simp only []
    rw [if_neg (by omega), if_neg (by rw [hfu]; simp), if_neg hsz3, if_pos hstart]
  rw [addFragmentedNALUnit_scan env s h l hq (by omega) hfu hstart]
  by_cases hend : byteAt h.data 2 &&& 0x40 ≠ 0
  · rw [if_pos hend]
    simp only []
    obtain ⟨cvo, hasm⟩ := fuAssemble_payloads env s h (byteAt h.data 2 &&& H265_NALU_MASK)
      (byteAt h.data 1 &&& 0x7) ((u32 h.int32Data + 1) % 4294967296) [h] l (by rw [hq]; rfl)
    have hpl : (payloads [h]).length = h.data.length - 3 := by simp [payloads]
    rw [hpl] at hasm
    simp only [List.length_cons, List.length_nil, zero_add] at hasm
    obtain ⟨s', hs'⟩ := addSingleNALUnit_total env
      { data := [((byteAt h.data 2 &&& H265_NALU_MASK) <<< 1) % 256, byteAt h.data 1 &&& 0x7]
          ++ payloads [h],
        int32Data := h.int32Data, rtpTime := h.rtpTime, cvo := cvo, source := false,
        damaged := false }
      { s with mNextExpectedSeqNo := (u32 h.int32Data + 1) % 4294967296, queue := l }
    obtain ⟨k1, -⟩ := addSingleNALUnit_keepsQueue _ _ _ _ hs'
    refine ⟨AssemblyStatus.OK, s', ?_, by rw [k1, hq]; exact List.suffix_cons _ _,
      (by intro hh; cases hh)⟩
    rw [hasm, hs']
    rfl
  rw [if_neg hend]
  rcases fuScan_cases (byteAt h.data 0 >>> 1) (byteAt h.data 2 &&& H265_NALU_MASK) h.rtpTime
      (u32 h.int32Data) (decide (byteAt h.data 2 &&& H265_NALU_MASK < 0x10)) s l
      ((u32 h.int32Data + 1) % 4294967296) (h.data.length - 3) 1 1 false
    with ⟨e', ts', tc', hscan⟩ | ⟨pre, p, post, e', hL, hscan⟩ | ⟨next, hscan⟩ | ⟨hp, hscan⟩
  · rw [hscan]
    exact ⟨AssemblyStatus.NOT_ENOUGH_DATA, s, rfl, List.suffix_refl _, (by intro hh; cases hh)⟩
  · rw [hscan]
    simp only []
    obtain ⟨cvo, hasm⟩ := fuAssemble_payloads env s h (byteAt h.data 2 &&& H265_NALU_MASK)
      (byteAt h.data 1 &&& 0x7) e' (h :: (pre ++ [p])) post (by rw [hq, hL]; simp)
    have hpl : (payloads (h :: (pre ++ [p]))).length
        = h.data.length - 3 + (payloads (pre ++ [p])).length := by
      rw [payloads_length_cons]
    have hln : (h :: (pre ++ [p])).length = 1 + pre.length + 1 := by
      simp only [List.length_cons, List.length_append, List.length_nil]
      omega
    rw [hpl, hln] at hasm
    obtain ⟨s', hs'⟩ := addSingleNALUnit_total env
      { data := [((byteAt h.data 2 &&& H265_NALU_MASK) <<< 1) % 256, byteAt h.data 1 &&& 0x7]
          ++ payloads (h :: (pre ++ [p])),
        int32Data := h.int32Data, rtpTime := h.rtpTime, cvo := cvo, source := false,
        damaged := false }
      { s with mNextExpectedSeqNo := e', queue := post }
    obtain ⟨k1, -⟩ := addSingleNALUnit_keepsQueue _ _ _ _ hs'
    refine ⟨AssemblyStatus.OK, s', ?_, ?_, (by intro hh; cases hh)⟩
    · rw [hasm, hs']
      rfl
    · rw [k1, hq, hL]
      exact ⟨h :: (pre ++ [p]), by simp⟩
  · rw [hscan]
    exact ⟨AssemblyStatus.MALFORMED_PACKET, _, rfl, deleteUnitUnderSeq_suffix _ _,
      (by intro hh; cases hh)⟩
  · rw [hscan]
    refine ⟨AssemblyStatus.WRONG_SEQUENCE_NUMBER, s, rfl, List.suffix_refl _, fun _ => ⟨rfl, ?_⟩⟩
    simpa using hp

theorem sampleIntraFragment_isFragment (seq : Int) (start last : Bool) (payload : List Nat) :
    IsFragment 0x13 1 1000 (u32 seq) start last payload
      (sampleIntraFragment seq start last payload) :=
  ⟨⟨0x62, 0x01, rfl, by decide, by decide, by decide⟩, rfl, rfl⟩

/-- C15 (fragment gap on an intra frame is fatal).  The queue starts with a
start fragment of a unit of type `t`, continuation fragments with the next
sequence numbers, and then, before any end-flagged fragment, a packet whose
sequence number is not the expected next one.  If the unit is not
inter-predicted (`t >= 0x10`), `addFragmentedNALUnit` returns
`WRONG_SEQUENCE_NUMBER` and leaves the whole state, so the queue, the cursor
and the accumulator, as it was.  If the unit is inter-predicted (`t < 0x10`),
the gap is tolerated: the call returns, and not with
`WRONG_SEQUENCE_NUMBER`. -/
theorem fragment_gap_intra (env : Env) (s : State) (t tid T seq0 : Nat) (piece0 : List Nat)
    (head bad : ABuffer) (mids rest : List ABuffer) (ht : t < 64)
    (hhead : IsFragment t tid T seq0 true false piece0 head)
    (hmids : IsOpenRun t tid T ((seq0 + 1) % 4294967296) mids)
    (hq : s.queue = head :: (mids ++ bad :: rest))
    (hbad : u32 bad.int32Data ≠ (seq0 + 1 + mids.length) % 4294967296) :
    (0x10 ≤ t →
      addFragmentedNALUnit env s = some (AssemblyStatus.WRONG_SEQUENCE_NUMBER, s))
    ∧ (t < 0x10 →
        ∃ status s', addFragmentedNALUnit env s = some (status, s')
          ∧ status ≠ AssemblyStatus.WRONG_SEQUENCE_NUMBER) := by
  obtain ⟨r1, r2, r3, r4, r5, r6, r7, -⟩ := hhead.reads ht
  have hseq0 := hhead.seqNo
  have hT0 := hhead.time
  constructor
  · intro hintra
    have hstart : ¬ (byteAt head.data 2 &&& 0x80 = 0) := fun h => absurd (r6.mp h) (by simp)
    have hnoend : ¬ (byteAt head.data 2 &&& 0x40 ≠ 0) := by
      simp only [ne_eq, not_not]; exact r7.mpr rfl
    have hp : decide (t < 0x10) = false := decide_eq_false (by omega)
    rw [addFragmentedNALUnit_scan env s head _ hq (by omega) r3 hstart, if_neg hnoend]
    simp only [r2, r5, hseq0, hT0, hp]
    rw [fuScan_intra_gap t tid T seq0 s ht bad rest mids _ _ _ _ (Nat.mod_lt _ (by decide))
      hmids (by omega)]
  · intro hinter
    obtain ⟨status, s', h1, -, h3⟩ :=
      addFragmentedNALUnit_cases env s head _ hq (by omega) r3
    refine ⟨status, s', h1, fun hw => ?_⟩
    have := (h3 hw).2
    rw [r5] at this
    exact this hinter

/-- Witness of C15: the fragments 100 and 101 of an intra-coded unit followed
by the fragment 103 give `WRONG_SEQUENCE_NUMBER` and leave the state; the
fragments 100 to 102 of an inter-coded unit followed by the fragment 104 do
not give `WRONG_SEQUENCE_NUMBER`. -/
theorem fragment_gap_intra_witness :
    addFragmentedNALUnit sampleEnv sampleIntraGap
        = some (AssemblyStatus.WRONG_SEQUENCE_NUMBER, sampleIntraGap)
    ∧ ∃ status s',
        addFragmentedNALUnit sampleEnv
            { sampleOpen with
                queue := [sampleFragment 100 true false [0], sampleFragment 101 false false [1],
                          sampleFragment 102 false false [2], sampleFragment 104 false true [4]] }
          = some (status, s')
        ∧ status ≠ AssemblyStatus.WRONG_SEQUENCE_NUMBER :=
  ⟨(fragment_gap_intra sampleEnv sampleIntraGap 0x13 1 1000 100 [1]
      (sampleIntraFragment 100 true false [1]) (sampleIntraFragment 103 false true [3])
      [sampleIntraFragment 101 false false [2]] [] (by decide)
      (sampleIntraFragment_isFragment 100 true false [1])
      ⟨⟨[2], sampleIntraFragment_isFragment 101 false false [2]⟩, trivial⟩ rfl
      (by decide)).1 (by decide),
   (fragment_gap_intra sampleEnv
      { sampleOpen with
          queue := [sampleFragment 100 true false [0], sampleFragment 101 false false [1],
                    sampleFragment 102 false false [2], sampleFragment 104 false true [4]] }
      0x01 1 1000 100 [0]
      (sampleFragment 100 true false [0]) (sampleFragment 104 false true [4])
      [sampleFragment 101 false false [1], sampleFragment 102 false false [2]] [] (by decide)
      (sampleFragment_isFragment 100 true false [0])
      ⟨⟨[1], sampleFragment_isFragment 101 false false [1]⟩,
        ⟨[2], sampleFragment_isFragment 102 false false [2]⟩, trivial⟩ rfl
      (by decide)).2 (by decide)⟩

/-- The dispatch of a head packet that carries the cursor's sequence number
returns, and the queue it leaves is a suffix of the queue it found. -/
theorem addNALUnitDispatch_match (env : Env) (s : State) (h : ABuffer) (l : List ABuffer)
    (hq : s.queue = h :: l) (hv : s.mNextExpectedSeqNoValid = true)
    (hcur : s.mNextExpectedSeqNo = u32 h.int32Data) :
    ∃ status s', addNALUnitDispatch env s = some (status, s') ∧ s'.queue <:+ s.queue := by
  have htail : l <:+ h :: l := List.suffix_cons _ _
  unfold addNALUnitDispatch
  rw [hq]
  simp only [hv, hcur, ne_eq, not_true_eq_false, decide_False, Bool.and_false, Bool.not_true,
    Bool.false_eq_true, if_false]
  by_cases hcorrupt : h.data.length < 1 ∨ ¬ (byteAt h.data 0 &&& 0x80 = 0)
  · rw [if_pos hcorrupt]
    exact ⟨_, _, rfl, htail⟩
  rw [if_neg hcorrupt]
  by_cases hsingle : nalTypeOf h.data > 0 ∧ nalTypeOf h.data < H265_NALU_AP
  · rw [if_pos hsingle]
    obtain ⟨s1, hs1⟩ := addSingleNALUnit_total env h s
    rw [hs1]
    exact ⟨_, _, rfl, htail⟩
  rw [if_neg hsingle]
  by_cases hfu : nalTypeOf h.data = H265_NALU_FU
  · rw [if_pos hfu]
    obtain ⟨status, s', h1, h2, -⟩ := addFragmentedNALUnit_cases env s h l hq (by omega) hfu
    rw [hq] at h2
    exact ⟨status, s', h1, h2⟩
  rw [if_neg hfu]
  by_cases hap : nalTypeOf h.data = H265_NALU_AP
  · rw [if_pos hap]
    obtain ⟨ok, s1, hs1, -⟩ := addSingleTimeAggregationPacket_total env h s
    rw [hs1]
    exact ⟨_, _, rfl, htail⟩
  rw [if_neg hap]
  by_cases hzero : nalTypeOf h.data = 0
  · rw [if_pos hzero]
    exact ⟨_, _, rfl, htail⟩
  · rw [if_neg hzero]
    exact ⟨_, _, rfl, htail⟩

/-- While the cursor is not established, the dispatch sets it to the sequence
number of the head packet and goes on as if it had found it so. -/
theorem addNALUnitDispatch_establish (env : Env) (s : State) (h : ABuffer) (l : List ABuffer)
    (hq : s.queue = h :: l) (hv : s.mNextExpectedSeqNoValid = false) :
    addNALUnitDispatch env s
      = addNALUnitDispatch env
          { s with mNextExpectedSeqNoValid := true, mNextExpectedSeqNo := u32 h.int32Data } := by
  unfold addNALUnitDispatch
  simp only [hq, hv, Bool.false_and, Bool.not_false, Bool.false_eq_true, if_false, if_true,
    ne_eq, not_true_eq_false, decide_False, Bool.and_false, Bool.not_true]

/-- The dispatch of the head of a non-empty queue returns, and the queue it
leaves is a suffix of the queue it found. -/
theorem addNALUnitDispatch_cases (env : Env) (s : State) (h : ABuffer) (l : List ABuffer)
    (hq : s.queue = h :: l) :
    ∃ status s', addNALUnitDispatch env s = some (status, s') ∧ s'.queue <:+ s.queue := by
  cases hv : s.mNextExpectedSeqNoValid
  · rw [addNALUnitDispatch_establish env s h l hq hv]
    exact addNALUnitDispatch_match env _ h l hq rfl rfl
  · by_cases hcur : s.mNextExpectedSeqNo = u32 h.int32Data
    · exact addNALUnitDispatch_match env s h l hq hv hcur
    · refine ⟨AssemblyStatus.WRONG_SEQUENCE_NUMBER, s, ?_, List.suffix_refl _⟩
      unfold addNALUnitDispatch
      rw [hq]
      have hne : u32 h.int32Data ≠ s.mNextExpectedSeqNo := fun e => hcur e.symm
      simp only [hv, hne, ne_eq, not_false_eq_true, decide_True, Bool.and_self, if_true,
        Bool.not_true, Bool.false_eq_true, if_false]
      rfl

/-- The prefix discard leaves a suffix of the queue. -/
theorem addNALUnitDiscard_suffix (s : State) :
    (addNALUnitDiscard s).queue <:+ s.queue
      ∧ (addNALUnitDiscard s).mNextExpectedSeqNoValid = s.mNextExpectedSeqNoValid := by
  cases hv : s.mNextExpectedSeqNoValid
  · rw [addNALUnitDiscard_invalid s hv]
    exact ⟨List.suffix_refl _, hv⟩
  · rw [addNALUnitDiscard_valid s hv]
    exact ⟨deleteUnitUnderSeq_suffix _ _, hv⟩

/-- On every state `addNALUnit` returns, and the queue it leaves is a suffix of
the queue it found (whose head packet has the source attached). -/
theorem addNALUnit_suffix (env : Env) (s : State) :
    ∃ status s', addNALUnit env s = some (status, s') ∧ s'.queue <:+ markSource s.queue := by
  cases hq : s.queue with
  | nil =>
    refine ⟨AssemblyStatus.NOT_ENOUGH_DATA, s, ?_, by rw [hq]; exact List.suffix_refl _⟩
    unfold addNALUnit
    rw [hq]
  | cons head rest =>
    simp only [markSource]
    by_cases helig : eligible env s { head with source := true } = true
    · obtain ⟨highest, requests, -, hgap⟩ := afterGapHandler_eq env s head rest
      rw [addNALUnit_eligible env s head rest hq helig, hgap]
      simp only [Option.some_bind]
      obtain ⟨d1, d2⟩ := addNALUnitDiscard_suffix
        { s with
            queue := { head with source := true } :: rest
            mHighestNackNumber := highest
            nackRequests := s.nackRequests ++ requests
            mNextExpectedSeqNo :=
              if firstLineBroken env s { head with source := true }
                  && secondLineBroken env s { head with source := true }
              then u32 (pickProperSeqLoop env s.mFirstRtpTime (playedTime env s)
                    (jitterTolerance env s) ({ head with source := true } :: rest)
                    head.int32Data)
              else s.mNextExpectedSeqNo }
      have d3 := addNALUnitDiscard_invalid
        { s with
            queue := { head with source := true } :: rest
            mHighestNackNumber := highest
            nackRequests := s.nackRequests ++ requests
            mNextExpectedSeqNo :=
              if firstLineBroken env s { head with source := true }
                  && secondLineBroken env s { head with source := true }
              then u32 (pickProperSeqLoop env s.mFirstRtpTime (playedTime env s)
                    (jitterTolerance env s) ({ head with source := true } :: rest)
                    head.int32Data)
              else s.mNextExpectedSeqNo }
      revert d1 d2 d3
      generalize addNALUnitDiscard _ = s1
      intro d1 d2 d3
      simp only [] at d1 d2 d3
      cases hq1 : s1.queue with
      | nil =>
        by_cases hv : s.mNextExpectedSeqNoValid = true
        · rw [hv] at d2
          simp only [d2, List.isEmpty_nil, Bool.and_self, if_true]
          exact ⟨_, _, rfl, by rw [hq1]; exact List.nil_suffix⟩
        · have hs1 := congrArg State.queue (d3 (by simpa using hv))
          rw [hq1] at hs1
          cases hs1
      | cons h1 l1 =>
        simp only [List.isEmpty_cons, Bool.and_false, Bool.false_eq_true, if_false]
        obtain ⟨status, s', r1, r2⟩ := addNALUnitDispatch_cases env s1 h1 l1 hq1
        exact ⟨status, s', r1, r2.trans d1⟩
    · rw [addNALUnit_early env s head rest hq (by simpa using helig)]
      exact ⟨_, _, rfl, by
        rw [(addNack_frame { s with queue := { head with source := true } :: rest }).1]⟩

/-- C13 (queue prefix-removal invariant).  For every state, so for every
packet queue, `assembleMore` returns, and the queue it leaves is a suffix of
the queue it found: packets are removed from the front only, and none is
inserted, reordered or removed from the middle, on every path.  (The queue it
found is taken with the `"source"` entry attached to its head packet, which
is the first thing `addNALUnit` does to a non-empty queue.) -/
theorem assembleMore_suffix (env : Env) (s : State) :
    ∃ status s', assembleMore env s = some (status, s')
      ∧ s'.queue <:+ markSource s.queue
      ∧ (markSource s.queue).map (fun p => (p.data, p.int32Data, p.rtpTime, p.cvo, p.damaged))
          = s.queue.map (fun p => (p.data, p.int32Data, p.rtpTime, p.cvo, p.damaged)) := by
  obtain ⟨status, s1, h1, h2⟩ := addNALUnit_suffix env s
  have hmark : (markSource s.queue).map
      (fun p => (p.data, p.int32Data, p.rtpTime, p.cvo, p.damaged))
      = s.queue.map (fun p => (p.data, p.int32Data, p.rtpTime, p.cvo, p.damaged)) := by
    cases s.queue <;> rfl
  unfold assembleMore
  rw [h1]
  simp only [Option.bind_eq_bind, Option.some_bind]
  split_ifs
  · exact ⟨status, _, rfl, h2, hmark⟩
  · exact ⟨status, _, rfl, h2, hmark⟩
  · exact ⟨status, _, rfl, h2, hmark⟩

/-- C19, counterexample.  The cursor is not established.  The head packet 100,
captured at 1000, is beyond the second lateness line 120 ms after the first
packet, and `pickProperSeq` selects 102, the packet that is in time.  Yet
`addNALUnit` does not discard the packet 100 and reports nothing to the
source: the prefix discard is skipped, the cursor is set to 100, the sequence
number of the head packet, and the call returns `WRONG_SEQUENCE_NUMBER` with
both packets in the queue. -/
theorem second_line_resync_counterexample :
    secondLineBroken sampleEnvLate sampleUnestablished
        { sampleIntraFragment 100 true false [1] with source := true } = true
    ∧ pickProperSeq sampleEnvLate (markSource sampleUnestablished.queue)
        sampleUnestablished.mFirstRtpTime (playedTime sampleEnvLate sampleUnestablished)
        (jitterTolerance sampleEnvLate sampleUnestablished) = some 102
    ∧ (addNALUnit sampleEnvLate sampleUnestablished).map
        (fun r => (r.1, r.2.mNextExpectedSeqNo, r.2.queue.map ABuffer.int32Data, r.2.abandoned))
        = some (AssemblyStatus.WRONG_SEQUENCE_NUMBER, 100, [100, 102], []) := by
  decide

theorem timesJitterMultiple_nonneg (x : Int) (h : 0 ≤ x) : 0 ≤ timesJitterMultiple x := by
  unfold timesJitterMultiple
  exact Int.tdiv_nonneg (by omega) (by decide)

/-- The number picked by `pickProperSeq` is the sequence number of a queued
packet. -/
theorem pickProperSeqLoop_in_queue (env : Env) (first : Nat) (play jit : Int) (b : ABuffer)
    (rest : List ABuffer) :
    ∃ p ∈ b :: rest, pickProperSeqLoop env first play jit (b :: rest) b.int32Data
      = p.int32Data := by
  rcases pickProperSeqLoop_mem env first play jit (b :: rest) b.int32Data with h | ⟨p, hp, h⟩
  · exact ⟨b, List.mem_cons_self _ _, h⟩
  · exact ⟨p, hp, h⟩

/-- C19, as amended (second-line resynchronisation).  Take a queue in
ascending order of sequence numbers, an established cursor, and jitter terms
that are not negative.  Whenever the lateness of the head packet crosses the
second line, `addNALUnit` takes the resynchronisation path: the cursor is
reset to the value selected by `pickProperSeq`, every queued packet with a
sequence number below that value is removed, their number is reported to the
source when it is positive, and the head of the queue that remains is
dispatched. -/
theorem second_line_resync (env : Env) (s : State) (head : ABuffer) (rest : List ABuffer)
    (hq : s.queue = head :: rest) (hv : s.mNextExpectedSeqNoValid = true)
    (hstatic : 0 ≤ env.MsToRtp s.staticJitterTimeMs s.mClockRate)
    (hdyn : 0 ≤ min (env.MsToRtp s.dynamicJitterTimeMs s.mClockRate)
      (env.MsToRtp 150 s.mClockRate))
    (hsecond : secondLineBroken env s { head with source := true } = true)
    (hsorted : (head :: rest).Pairwise (fun a b => u32 a.int32Data ≤ u32 b.int32Data)) :
    ∃ picked s1,
      pickProperSeq env ({ head with source := true } :: rest) s.mFirstRtpTime
          (playedTime env s) (jitterTolerance env s) = some picked
      ∧ afterGapHandler env s head rest = some s1
      ∧ s1.mNextExpectedSeqNo = u32 picked
      ∧ s1.queue = ({ head with source := true } :: rest).filter
          (fun p => decide (u32 picked ≤ u32 p.int32Data))
      ∧ s1.abandoned = s.abandoned ++
          (if (({ head with source := true } :: rest).filter
                (fun p => decide (u32 p.int32Data < u32 picked))).length > 0
           then [((({ head with source := true } :: rest).filter
                (fun p => decide (u32 p.int32Data < u32 picked))).length : Int)]
           else [])
      ∧ addNALUnit env s = addNALUnitDispatch env s1 := by
  have hmargin := timesJitterMultiple_nonneg _ hdyn
  have hjit : 0 ≤ jitterTolerance env s := by
    unfold jitterTolerance; omega
  have hdiff := of_decide_eq_true hsecond
  have hfirst : firstLineBroken env s { head with source := true } = true := by
    unfold firstLineBroken
    exact decide_eq_true (by omega)
  have helig : eligible env s { head with source := true } = true := by
    unfold eligible
    exact decide_eq_true (by omega)
  have hsorted2 : ({ head with source := true } :: rest).Pairwise
      (fun a b => u32 a.int32Data ≤ u32 b.int32Data) := by
    obtain ⟨h1, h2⟩ := List.pairwise_cons.mp hsorted
    exact List.pairwise_cons.mpr ⟨h1, h2⟩
  obtain ⟨highest, requests, -, hgap⟩ := afterGapHandler_eq env s head rest
  rw [addNALUnitDiscard_valid _ (by exact hv)] at hgap
  simp only [hfirst, hsecond, Bool.and_self, if_true] at hgap
  obtain ⟨p, hp, hpick⟩ := pickProperSeqLoop_in_queue env s.mFirstRtpTime (playedTime env s)
    (jitterTolerance env s) { head with source := true } rest
  simp only [] at hpick
  refine ⟨_, _, rfl, hgap, rfl, ?_, ?_, ?_⟩
  · exact deleteUnitUnderSeq_filter _ _ hsorted2
  · simp only [deleteUnitUnderSeq_removed _ _ hsorted2, Int.natCast_pos]
  · rw [addNALUnit_eligible env s head rest hq helig, hgap]
    simp only [Option.some_bind, hv, Bool.true_and]
    have hmem : p ∈ (deleteUnitUnderSeq ({ head with source := true } :: rest)
        (u32 (pickProperSeqLoop env s.mFirstRtpTime (playedTime env s) (jitterTolerance env s)
          ({ head with source := true } :: rest) head.int32Data))).1 := by
      rw [deleteUnitUnderSeq_filter _ _ hsorted2, List.mem_filter]
      exact ⟨hp, by rw [hpick]; simp⟩
    have hne : (deleteUnitUnderSeq ({ head with source := true } :: rest)
        (u32 (pickProperSeqLoop env s.mFirstRtpTime (playedTime env s) (jitterTolerance env s)
          ({ head with source := true } :: rest) head.int32Data))).1.isEmpty = false := by
      cases hd : (deleteUnitUnderSeq ({ head with source := true } :: rest)
        (u32 (pickProperSeqLoop env s.mFirstRtpTime (playedTime env s) (jitterTolerance env s)
          ({ head with source := true } :: rest) head.int32Data))).1 with
      | nil => rw [hd] at hmem; cases hmem
      | cons a as => rfl
    rw [hne]
    simp only [Bool.false_eq_true, if_false]

/-- Witness of C19 as amended: the cursor is established at 100, the head
packet 100 is beyond the second line, and the packet 102 is in time. -/
theorem second_line_resync_witness :
    ∃ picked s1,
      pickProperSeq sampleEnvLate
          ({ sampleIntraFragment 100 true false [1] with source := true }
            :: [{ sampleIntraFragment 102 false true [3] with rtpTime := 10000 }])
          sampleEstablished.mFirstRtpTime
          (playedTime sampleEnvLate sampleEstablished)
          (jitterTolerance sampleEnvLate sampleEstablished) = some picked
      ∧ afterGapHandler sampleEnvLate sampleEstablished (sampleIntraFragment 100 true false [1])
          [{ sampleIntraFragment 102 false true [3] with rtpTime := 10000 }] = some s1
      ∧ s1.mNextExpectedSeqNo = u32 picked
      ∧ s1.queue = (({ sampleIntraFragment 100 true false [1] with source := true }
            :: [{ sampleIntraFragment 102 false true [3] with rtpTime := 10000 }])).filter
          (fun p => decide (u32 picked ≤ u32 p.int32Data))
      ∧ s1.abandoned = sampleEstablished.abandoned ++
          (if ((({ sampleIntraFragment 100 true false [1] with source := true }
                :: [{ sampleIntraFragment 102 false true [3] with rtpTime := 10000 }])).filter
                (fun p => decide (u32 p.int32Data < u32 picked))).length > 0
           then [(((({ sampleIntraFragment 100 true false [1] with source := true }
                :: [{ sampleIntraFragment 102 false true [3] with rtpTime := 10000 }])).filter
                (fun p => decide (u32 p.int32Data < u32 picked))).length : Int)]
           else [])
      ∧ addNALUnit sampleEnvLate sampleEstablished
          = addNALUnitDispatch sampleEnvLate s1 :=
  second_line_resync sampleEnvLate sampleEstablished (sampleIntraFragment 100 true false [1])
    [{ sampleIntraFragment 102 false true [3] with rtpTime := 10000 }] rfl rfl (by decide)
    (by decide) (by decide) (by decide)

/-- When the scanning loop of `addFragmentedNALUnit` leaves with the run
complete, it has walked over fragments of at least 3 bytes without the end
flag and stopped at the first fragment with the end flag; the expected
sequence number is the one behind that fragment, and the size and the count
have grown by the payloads and the number of the fragments walked over. -/
theorem fuScan_complete (indicator nalType rtp startSeqNo : Nat) (pFrame : Bool) (s : State)
    (l : List ABuffer) :
    ∀ (e ts tc c : Nat) (snapped : Bool) (e' ts' tc' : Nat),
      fuScan indicator nalType rtp startSeqNo pFrame s l e ts tc c snapped
        = FUScan.left true e' ts' tc' →
      ∃ pre p post, l = pre ++ p :: post
        ∧ (∀ q ∈ pre, fuEnd q = false ∧ 3 ≤ q.data.length)
        ∧ fuEnd p = true ∧ 3 ≤ p.data.length
        ∧ e' = (u32 p.int32Data + 1) % 4294967296
        ∧ ts' = ts + (payloads (pre ++ [p])).length
        ∧ tc' = tc + pre.length + 1 := by
  induction l with
  | nil =>
    intro e ts tc c snapped e' ts' tc' h
    simp only [fuScan] at h
    cases h
  | cons p ps ih =>
    intro e ts tc c snapped e' ts' tc' h
    rw [fuScan_cons] at h
    by_cases hw : (decide (u32 p.int32Data ≠ e) && !pFrame) = true
    · rw [if_pos hw] at h
      cases h
    rw [if_neg hw] at h
    by_cases hm : fuMalformed indicator nalType rtp p = true
    · rw [if_pos hm] at h
      cases h
    rw [if_neg hm] at h
    have hsz : 3 ≤ p.data.length := by
      by_contra hlt
      apply hm
      unfold fuMalformed
      exact decide_eq_true (Or.inl (by omega))
    by_cases hend : fuEnd p = true
    · rw [if_pos hend] at h
      revert h
      generalize (pFrame && !recycleUnit startSeqNo ((u32 p.int32Data + 1) % 4294967296)
        (if !(snapped || decide (u32 p.int32Data ≠ e)) then c + 1 else c) (tc + 1) (1 / 2)) = cond
      intro h
      cases cond
      · simp only [Bool.false_eq_true, if_false, FUScan.left.injEq, true_and] at h
        obtain ⟨h1, h2, h3⟩ := h
        refine ⟨[], p, ps, rfl, fun q hq => (by cases hq), hend, hsz, h1.symm, ?_, ?_⟩
        · rw [← h2]
          simp [payloads]
        · rw [← h3]
          rfl
      · simp only [if_true] at h
        cases h
    · rw [if_neg hend] at h
      obtain ⟨pre, p', post, hl, hpre, hp', hsz', he', hts', htc'⟩ := ih _ _ _ _ _ _ _ _ h
      refine ⟨p :: pre, p', post, by rw [hl]; rfl, ?_, hp', hsz', he', ?_, ?_⟩
      · intro q hq
        rcases List.mem_cons.mp hq with hqp | hq
        · rw [hqp]
          exact ⟨(Bool.not_eq_true _).mp hend, hsz⟩
        · exact hpre q hq
      · rw [hts', List.cons_append, payloads_length_cons]
        omega
      · rw [htc', List.length_cons]
        omega

theorem payloads_length_sum (run : List ABuffer) :
    (payloads run).length = (run.map (fun p => p.data.length - 3)).sum := by
  induction run with
  | nil => rfl
  | cons p ps ih => rw [payloads_length_cons, List.map_cons, List.sum_cons, ih]

/-- The head checks of `addFragmentedNALUnit`: a call that returns `OK` has
found a head packet of at least 3 bytes, of the fragmentation type, with the
start flag. -/
theorem addFragmentedNALUnit_ok_head (env : Env) (s s' : State)
    (h : addFragmentedNALUnit env s = some (AssemblyStatus.OK, s')) :
    ∃ hd l, s.queue = hd :: l ∧ 3 ≤ hd.data.length ∧ nalTypeOf hd.data = H265_NALU_FU
      ∧ byteAt hd.data 2 &&& 0x80 ≠ 0 := by
  obtain ⟨_ | ⟨hd, l⟩, hq⟩ : ∃ q, s.queue = q := ⟨_, rfl⟩
  · unfold addFragmentedNALUnit at h
    rw [hq] at h
    cases h
  · refine ⟨hd, l, hq, ?_⟩
    unfold addFragmentedNALUnit at h
    rw [hq] at h
    simp only [] at h
    by_cases h1 : ¬ hd.data.length > 0
    · rw [if_pos h1] at h
      cases h
    rw [if_neg h1] at h
    by_cases h2 : byteAt hd.data 0 >>> 1 &&& H265_NALU_MASK ≠ H265_NALU_FU
    · rw [if_pos h2] at h
      cases h
    rw [if_neg h2] at h
    by_cases h3 : hd.data.length < 3
    · rw [if_pos h3] at h
      cases h
    rw [if_neg h3] at h
    by_cases h4 : byteAt hd.data 2 &&& 0x80 = 0
    · rw [if_pos h4] at h
      cases h
    exact ⟨by omega, by unfold nalTypeOf; exact not_not.mp h2, h4⟩

/-- C22 (accepted fragment run).  Whenever `addFragmentedNALUnit` returns
`OK`, the queue is a run of fragments followed by the rest: the run begins
with a start-flagged fragment, ends with its first end-flagged fragment, and
each of its fragments has at least 3 bytes.  The unit passed to
`addSingleNALUnit` is the 2-byte header (type shifted left by one, temporal-id)
followed by the payloads of the run in queue order, each fragment minus its
3-byte fragmentation header, so its length is 2 plus the sum of the fragment
sizes minus 3; afterwards the queue is the rest and the cursor is the end
fragment's sequence number plus one (as `uint32_t`). -/
theorem accepted_fragment_run (env : Env) (s s' : State)
    (h : addFragmentedNALUnit env s = some (AssemblyStatus.OK, s')) :
    ∃ head last run rest unit,
      s.queue = run ++ rest
      ∧ run.head? = some head ∧ run.getLast? = some last
      ∧ byteAt head.data 2 &&& 0x80 ≠ 0
      ∧ IsCompleteRun run
      ∧ (∀ p ∈ run, 3 ≤ p.data.length)
      ∧ unit.data
          = [(byteAt head.data 2 &&& H265_NALU_MASK) <<< 1, byteAt head.data 1 &&& 0x7]
              ++ payloads run
      ∧ unit.data.length = 2 + (run.map (fun p => p.data.length - 3)).sum
      ∧ addSingleNALUnit env unit
            { s with mNextExpectedSeqNo := (u32 last.int32Data + 1) % 4294967296, queue := rest }
          = some s'
      ∧ s'.queue = rest
      ∧ s'.mNextExpectedSeqNo = (u32 last.int32Data + 1) % 4294967296 := by
  obtain ⟨hd, l, hq, hsz, hfu, hstart⟩ := addFragmentedNALUnit_ok_head env s s' h
  rw [addFragmentedNALUnit_scan env s hd l hq hsz hfu hstart] at h
  have hbyte : ((byteAt hd.data 2 &&& H265_NALU_MASK) <<< 1) % 256
      = (byteAt hd.data 2 &&& H265_NALU_MASK) <<< 1 :=
    nalHeader_byte _ (Nat.lt_succ_of_le Nat.and_le_right)
  -- the conclusion, once the run scanned is known
  have key : ∀ (run rest : List ABuffer) (last : ABuffer), s.queue = run ++ rest →
      run.head? = some hd → run.getLast? = some last → IsCompleteRun run →
      (∀ p ∈ run, 3 ≤ p.data.length) →
      fuAssemble env s hd (byteAt hd.data 2 &&& H265_NALU_MASK) (byteAt hd.data 1 &&& 0x7)
          ((u32 last.int32Data + 1) % 4294967296) (payloads run).length run.length
        = some (AssemblyStatus.OK, s') →
      ∃ head last run rest unit,
        s.queue = run ++ rest
        ∧ run.head? = some head ∧ run.getLast? = some last
        ∧ byteAt head.data 2 &&& 0x80 ≠ 0
        ∧ IsCompleteRun run
        ∧ (∀ p ∈ run, 3 ≤ p.data.length)
        ∧ unit.data
            = [(byteAt head.data 2 &&& H265_NALU_MASK) <<< 1, byteAt head.data 1 &&& 0x7]
                ++ payloads run
        ∧ unit.data.length = 2 + (run.map (fun p => p.data.length - 3)).sum
        ∧ addSingleNALUnit env unit
              { s with mNextExpectedSeqNo := (u32 last.int32Data + 1) % 4294967296,
                       queue := rest }
            = some s'
        ∧ s'.queue = rest
        ∧ s'.mNextExpectedSeqNo = (u32 last.int32Data + 1) % 4294967296 := by
    intro run rest last hrun hhead hlast hcomplete hsizes hasm
    obtain ⟨cvo, hasm2⟩ := fuAssemble_payloads env s hd (byteAt hd.data 2 &&& H265_NALU_MASK)
      (byteAt hd.data 1 &&& 0x7) ((u32 last.int32Data + 1) % 4294967296) run rest hrun
    rw [hasm2, hbyte] at hasm
    cases hs : addSingleNALUnit env
        { data := [(byteAt hd.data 2 &&& H265_NALU_MASK) <<< 1, byteAt hd.data 1 &&& 0x7]
            ++ payloads run,
          int32Data := hd.int32Data, rtpTime := hd.rtpTime, cvo := cvo,
          source := false, damaged := false }
        { s with mNextExpectedSeqNo := (u32 last.int32Data + 1) % 4294967296, queue := rest }
      with
    | none =>
      rw [hs] at hasm
      cases hasm
    | some s2 =>
      rw [hs] at hasm
      have hs2 : s2 = s' := by
        simp only [Option.map_some', Option.some.injEq, Prod.mk.injEq, true_and] at hasm
        exact hasm
      subst hs2
      obtain ⟨k1, k2, -, -⟩ := addSingleNALUnit_keepsQueue env _ _ _ hs
      refine ⟨hd, last, run, rest, _, hrun, hhead, hlast, hstart, hcomplete, hsizes, rfl, ?_,
        hs, k1, k2⟩
      simp only [List.length_append, List.length_cons, List.length_nil, payloads_length_sum]
  by_cases hend : byteAt hd.data 2 &&& 0x40 ≠ 0
  · rw [if_pos hend] at h
    simp only [] at h
    have hpl : (payloads [hd]).length = hd.data.length - 3 := by
      rw [payloads_length_cons]
      rfl
    rw [← hpl] at h
    refine key [hd] l hd hq rfl rfl ⟨fun p hp => (by cases hp), hd, rfl, ?_⟩ ?_ h
    · unfold fuEnd
      exact decide_eq_true hend
    · intro p hp
      rw [List.mem_singleton.mp hp]
      exact hsz
  · rw [if_neg hend] at h
    rcases fuScan_cases (byteAt hd.data 0 >>> 1) (byteAt hd.data 2 &&& H265_NALU_MASK) hd.rtpTime
        (u32 hd.int32Data) (decide (byteAt hd.data 2 &&& H265_NALU_MASK < 0x10)) s l
        ((u32 hd.int32Data + 1) % 4294967296) (hd.data.length - 3) 1 1 false
      with ⟨e', ts', tc', hr⟩ | ⟨pre, p, post, e', -, hr⟩ | ⟨next, hr⟩ | ⟨-, hr⟩
    · rw [hr] at h
      cases h
    · obtain ⟨pre2, p2, post2, hl, hpre, hp2, hsz2, he', hts', htc'⟩ :=
        fuScan_complete _ _ _ _ _ _ _ _ _ _ _ _ _ _ _ hr
      rw [hr] at h
      simp only [] at h
      have hts : hd.data.length - 3 + (payloads (pre ++ [p])).length
          = (payloads (hd :: (pre2 ++ [p2]))).length := by
        rw [hts', payloads_length_cons]
      have htc : 1 + pre.length + 1 = (hd :: (pre2 ++ [p2])).length := by
        rw [htc']
        simp only [List.length_cons, List.length_append, List.length_nil]
        omega
      rw [hts, htc, he'] at h
      refine key (hd :: (pre2 ++ [p2])) post2 p2 ?_ rfl ?_ ⟨?_, p2, ?_, hp2⟩ ?_ h
      · rw [hq, hl]
        simp
      · rw [← List.cons_append, List.getLast?_concat]
      · intro q hq2
        have hdl : (hd :: (pre2 ++ [p2])).dropLast = hd :: pre2 := by
          rw [← List.cons_append, List.dropLast_concat]
        rw [hdl] at hq2
        rcases List.mem_cons.mp hq2 with hqh | hqp
        · rw [hqh]
          unfold fuEnd
          exact decide_eq_false hend
        · exact (hpre q hqp).1
      · rw [← List.cons_append, List.getLast?_concat]
      · intro q hq2
        rcases List.mem_cons.mp hq2 with hqh | hqp
        · rw [hqh]
          exact hsz
        · rcases List.mem_append.mp hqp with hq3 | hq3
          · exact (hpre q hq3).2
          · rw [List.mem_singleton.mp hq3]
            exact hsz2
    · rw [hr] at h
      cases h
    · rw [hr] at h
      cases h

theorem getLast?_map_getD {α β : Type} (f : α → β) (l : List α) (hl : l ≠ []) (d d2 : β) :
    (l.getLast?.map f).getD d = (l.getLast?.map f).getD d2 := by
  cases h : l.getLast? with
  | none => exact absurd (List.getLast?_eq_none_iff.mp h) hl
  | some a => rfl

/-- In a list ordered by sequence number no packet lies above the last one. -/
theorem pairwise_le_getLast (l : List ABuffer) (prev : ABuffer)
    (h : l.Pairwise (fun a b => u32 a.int32Data < u32 b.int32Data))
    (hl : l.getLast? = some prev) : ∀ p ∈ l, u32 p.int32Data ≤ u32 prev.int32Data := by
  induction l with
  | nil => intro p hp; cases hp
  | cons a l ih =>
    cases l with
    | nil =>
      intro p hp
      simp only [List.getLast?_singleton, Option.some.injEq] at hl
      rw [List.mem_singleton.mp hp, hl]
    | cons b bs =>
      rw [List.getLast?_cons_cons] at hl
      obtain ⟨h1, h2⟩ := List.pairwise_cons.mp h
      intro p hp
      rcases List.mem_cons.mp hp with hpa | hpl
      · rw [hpa]
        exact Nat.le_of_lt (h1 prev (List.mem_of_mem_getLast? hl))
      · exact ih h2 hl p hpl

/-- The scanning loop of `addFragmentedNALUnit` at a malformed continuation
packet `bad` behind the well-formed fragments `mids`, none with the end flag,
which it can walk over (the unit is inter-predicted, or the sequence numbers
up to `bad` have no gap): it returns `MALFORMED_PACKET`, the cursor is the
sequence number expected at `bad` plus one, and the packets below the new
cursor are deleted. -/
theorem fuScan_malformed (indicator nalType rtp startSeqNo : Nat) (pFrame : Bool) (s : State)
    (bad : ABuffer) (rest : List ABuffer) (hbad : fuMalformed indicator nalType rtp bad = true)
    (mids : List ABuffer) :
    ∀ (e ts tc c : Nat) (snapped : Bool),
      (∀ p ∈ mids, fuMalformed indicator nalType rtp p = false ∧ fuEnd p = false
        ∧ u32 p.int32Data + 1 < 4294967296) →
      (pFrame = true ∨ GapFreeFrom e (mids ++ [bad])) →
      fuScan indicator nalType rtp startSeqNo pFrame s (mids ++ bad :: rest) e ts tc c snapped
        = FUScan.ret AssemblyStatus.MALFORMED_PACKET
            { s with
                mNextExpectedSeqNo :=
                  ((mids.getLast?.map (fun l => u32 l.int32Data + 1)).getD e + 1) % 4294967296,
                queue := (deleteUnitUnderSeq s.queue
                  (((mids.getLast?.map (fun l => u32 l.int32Data + 1)).getD e + 1)
                    % 4294967296)).1 } := by
  induction mids with
  | nil =>
    intro e ts tc c snapped _ hg
    rw [List.nil_append, fuScan_cons]
    have hw : (decide (u32 bad.int32Data ≠ e) && !pFrame) = false := by
      rcases hg with hp | hg
      · rw [hp]
        simp
      · have : u32 bad.int32Data = e := hg.1
        simp [this]
    rw [hw, hbad]
    rfl
  | cons p ps ih =>
    intro e ts tc c snapped hm hg
    obtain ⟨hpm, hpe, hpw⟩ := hm p (List.mem_cons_self _ _)
    rw [List.cons_append, fuScan_cons]
    have hw : (decide (u32 p.int32Data ≠ e) && !pFrame) = false := by
      rcases hg with hp | hg
      · rw [hp]
        simp
      · have : u32 p.int32Data = e := hg.1
        simp [this]
    rw [hw, hpm, hpe]
    simp only [Bool.false_eq_true, if_false]
    rw [Nat.mod_eq_of_lt hpw]
    have hg2 : pFrame = true ∨ GapFreeFrom (u32 p.int32Data + 1) (ps ++ [bad]) := by
      rcases hg with hp | hg
      · exact Or.inl hp
      · right
        have h1 : u32 p.int32Data = e := hg.1
        rw [h1]
        exact hg.2
    rw [ih _ _ _ _ _ (fun q hq => hm q (List.mem_cons_of_mem _ hq)) hg2]
    have hE : ((p :: ps).getLast?.map (fun l => u32 l.int32Data + 1)).getD e
        = (ps.getLast?.map (fun l => u32 l.int32Data + 1)).getD (u32 p.int32Data + 1) := by
      cases ps with
      | nil => rfl
      | cons q qs =>
        rw [List.getLast?_cons_cons]
        exact getLast?_map_getD _ _ (List.cons_ne_nil _ _) _ _
    rw [hE]

/-- C21, counterexample.  A start fragment (100) of an inter-coded unit is
followed, behind a gap, by the packet 103, which is not a fragment and so is
malformed as a continuation.  `addFragmentedNALUnit` returns
`MALFORMED_PACKET`, but the cursor becomes 102, the sequence number expected at
the offending packet plus one, not 104, and the offending packet stays in the
queue.  For an intra-coded unit the same queue gives
`WRONG_SEQUENCE_NUMBER` and nothing changes. -/
theorem malformed_continuation_counterexample :
    fuMalformed H265_NALU_FU 0x01 1000 (samplePacket 103 [0x02, 0x01, 0x08]) = true
    ∧ addFragmentedNALUnit sampleEnv sampleBehindGap
        = some (AssemblyStatus.MALFORMED_PACKET,
            { sampleBehindGap with
                mNextExpectedSeqNo := 102
                queue := [samplePacket 103 [0x02, 0x01, 0x08]] })
    ∧ fuMalformed H265_NALU_FU 0x13 1000 (samplePacket 103 [0x02, 0x01, 0x08]) = true
    ∧ addFragmentedNALUnit sampleEnv sampleIntraBehindGap
        = some (AssemblyStatus.WRONG_SEQUENCE_NUMBER, sampleIntraBehindGap) := by
  decide

/-- C21 (malformed continuation fragment), as the code has it.  Take a queue
ordered by sequence number whose head is a start fragment followed by
well-formed continuation fragments without the end flag (with gaps between the
sequence numbers only for an inter-predicted unit, of type below 0x10) and
then by a packet `bad` that is malformed as a continuation.  With `prev` the
fragment right before `bad`, and its sequence number below `2^32 - 2`,
`addFragmentedNALUnit` returns `MALFORMED_PACKET`, the cursor becomes the
sequence number of `prev` plus two, and every packet queued before `bad` is
gone; `bad` itself is gone exactly when it carries the sequence number of
`prev` plus one, and then the cursor is its own sequence number plus one. -/
theorem malformed_continuation (env : Env) (s : State) (t tid T seq0 : Nat)
    (piece0 : List Nat) (head prev bad : ABuffer) (mids rest : List ABuffer)
    (ht : t < 64)
    (hhead : IsFragment t tid T seq0 true false piece0 head)
    (hmids : ∀ p ∈ mids, ∃ piece seq, IsFragment t tid T seq false false piece p)
    (hgaps : t < 0x10 ∨ GapFreeFrom seq0 (head :: (mids ++ [bad])))
    (hbad : fuMalformed H265_NALU_FU t T bad = true)
    (hprev : (head :: mids).getLast? = some prev)
    (hq : s.queue = head :: (mids ++ bad :: rest))
    (hsorted : s.queue.Pairwise (fun a b => u32 a.int32Data < u32 b.int32Data))
    (hwrap : u32 prev.int32Data + 2 < 4294967296) :
    addFragmentedNALUnit env s
        = some (AssemblyStatus.MALFORMED_PACKET,
            { s with
                mNextExpectedSeqNo := u32 prev.int32Data + 2
                queue := if u32 bad.int32Data = u32 prev.int32Data + 1 then rest
                         else bad :: rest })
    ∧ (u32 bad.int32Data = u32 prev.int32Data + 1 →
        addFragmentedNALUnit env s
          = some (AssemblyStatus.MALFORMED_PACKET,
              { s with mNextExpectedSeqNo := u32 bad.int32Data + 1, queue := rest })) := by
  obtain ⟨r1, r2, r3, -, r5, r6, r7, -⟩ := hhead.reads ht
  have hseq0 := hhead.seqNo
  have hstart : byteAt head.data 2 &&& 0x80 ≠ 0 := fun h => absurd (r6.mp h) (by simp)
  have hnoend : ¬ (byteAt head.data 2 &&& 0x40 ≠ 0) := not_not.mpr (r7.mpr rfl)
  -- the order of the queue
  have hsplit : s.queue = (head :: mids) ++ (bad :: rest) := by rw [hq]; rfl
  rw [hsplit] at hsorted
  obtain ⟨hs1, hs2, hs3⟩ := List.pairwise_append.mp hsorted
  have hle := pairwise_le_getLast _ _ hs1 hprev
  have hprevmem : prev ∈ head :: mids := List.mem_of_mem_getLast? hprev
  have hbadgt : u32 prev.int32Data < u32 bad.int32Data :=
    hs3 prev hprevmem bad (List.mem_cons_self _ _)
  have hrestgt : ∀ r ∈ rest, u32 bad.int32Data < u32 r.int32Data :=
    (List.pairwise_cons.mp hs2).1
  have hheadle : u32 head.int32Data ≤ u32 prev.int32Data := hle head (List.mem_cons_self _ _)
  -- the scan
  have hmain : addFragmentedNALUnit env s
      = some (AssemblyStatus.MALFORMED_PACKET,
          { s with
              mNextExpectedSeqNo := u32 prev.int32Data + 2
              queue := if u32 bad.int32Data = u32 prev.int32Data + 1 then rest
                       else bad :: rest }) := by
    rw [addFragmentedNALUnit_scan env s head (mids ++ bad :: rest) hq (by omega) r3 hstart,
      if_neg hnoend, r2, r5, hhead.time]
    have hmids2 : ∀ p ∈ mids, fuMalformed H265_NALU_FU t T p = false ∧ fuEnd p = false
        ∧ u32 p.int32Data + 1 < 4294967296 := by
      intro p hp
      obtain ⟨piece, seq, hf⟩ := hmids p hp
      obtain ⟨f1, f2, -, -⟩ := hf.scan ht
      have := hle p (List.mem_cons_of_mem _ hp)
      exact ⟨f1, f2, by omega⟩
    have he0 : (u32 head.int32Data + 1) % 4294967296 = u32 head.int32Data + 1 :=
      Nat.mod_eq_of_lt (by omega)
    have hg : decide (t < 0x10) = true ∨ GapFreeFrom (u32 head.int32Data + 1) (mids ++ [bad]) := by
      rcases hgaps with hg | hg
      · exact Or.inl (decide_eq_true hg)
      · right
        rw [hseq0]
        exact hg.2
    rw [he0, fuScan_malformed _ _ _ _ _ _ bad rest hbad mids _ _ _ _ _ hmids2 hg]
    simp only []
    have hE : (mids.getLast?.map (fun l => u32 l.int32Data + 1)).getD (u32 head.int32Data + 1)
        = u32 prev.int32Data + 1 := by
      cases hmc : mids with
      | nil =>
        rw [hmc] at hprev
        simp only [List.getLast?_singleton, Option.some.injEq] at hprev
        rw [hprev]
        rfl
      | cons q qs =>
        rw [hmc, List.getLast?_cons_cons] at hprev
        rw [hprev]
        rfl
    rw [hE, Nat.mod_eq_of_lt (by omega : u32 prev.int32Data + 1 + 1 < 4294967296)]
    have hdel : (deleteUnitUnderSeq s.queue (u32 prev.int32Data + 1 + 1)).1
        = if u32 bad.int32Data = u32 prev.int32Data + 1 then rest else bad :: rest := by
      by_cases hb : u32 bad.int32Data = u32 prev.int32Data + 1
      · rw [if_pos hb]
        have hsp : s.queue = (head :: (mids ++ [bad])) ++ rest := by
          rw [hq]
          simp
        rw [hsp]
        apply deleteUnitUnderSeq_run
        · intro p hp
          rcases List.mem_cons.mp hp with hph | hpm
          · rw [hph]
            omega
          · rcases List.mem_append.mp hpm with hpm | hpb
            · have := hle p (List.mem_cons_of_mem _ hpm)
              omega
            · rw [List.mem_singleton.mp hpb]
              omega
        · intro r hr
          have := hrestgt r hr
          omega
      · rw [if_neg hb, hsplit]
        apply deleteUnitUnderSeq_run
        · intro p hp
          have := hle p hp
          omega
        · intro r hr
          rcases List.mem_cons.mp hr with hrb | hrr
          · rw [hrb]
            omega
          · have := hrestgt r hrr
            omega
    rw [hdel]
  exact ⟨hmain, fun hb => by rw [hmain, if_pos hb, hb]⟩

/-- Witness of C21 as amended: the fragments 100 and 101 of an inter-coded unit
are followed directly by the single-unit packet 102, which is malformed as a
continuation; the cursor becomes 103 and only the packet 103 stays. -/
theorem malformed_continuation_witness :
    fuMalformed H265_NALU_FU 0x01 1000 (samplePacket 102 [0x02, 0x01, 0x08]) = true
    ∧ sampleInterrupted.queue.Pairwise (fun a b => u32 a.int32Data < u32 b.int32Data)
    ∧ addFragmentedNALUnit sampleEnv sampleInterrupted
        = some (AssemblyStatus.MALFORMED_PACKET,
            { sampleInterrupted with
                mNextExpectedSeqNo := 103
                queue := [samplePacket 103 [0x02, 0x01, 0x09]] }) :=
  ⟨by decide, by decide,
    (malformed_continuation sampleEnv sampleInterrupted 0x01 1 1000 100 [0]
      (sampleFragment 100 true false [0]) (sampleFragment 101 false false [1])
      (samplePacket 102 [0x02, 0x01, 0x08]) [sampleFragment 101 false false [1]]
      [samplePacket 103 [0x02, 0x01, 0x09]]
      (by decide) (sampleFragment_isFragment 100 true false [0])
      (by
        intro p hp
        rw [List.mem_singleton.mp hp]
        exact ⟨_, _, sampleFragment_isFragment 101 false false [1]⟩)
      (Or.inl (by decide)) (by decide) rfl rfl (by decide) (by decide)).2 (by decide)⟩

/-- Witness of C22: the inter-frame run 100..109 without the fragment 105 is
salvaged, and the call that returns `OK` has consumed the nine fragments. -/
theorem accepted_fragment_run_witness :
    ∃ s', addFragmentedNALUnit sampleEnv { sampleOpen with queue := sampleRunWithout [105] }
        = some (AssemblyStatus.OK, s')
      ∧ ∃ head last run rest unit,
          (sampleRunWithout [105]) = run ++ rest
          ∧ run.head? = some head ∧ run.getLast? = some last
          ∧ byteAt head.data 2 &&& 0x80 ≠ 0
          ∧ IsCompleteRun run
          ∧ (∀ p ∈ run, 3 ≤ p.data.length)
          ∧ unit.data
              = [(byteAt head.data 2 &&& H265_NALU_MASK) <<< 1, byteAt head.data 1 &&& 0x7]
                  ++ payloads run
          ∧ unit.data.length = 2 + (run.map (fun p => p.data.length - 3)).sum
          ∧ addSingleNALUnit sampleEnv unit
                { sampleOpen with
                    mNextExpectedSeqNo := (u32 last.int32Data + 1) % 4294967296, queue := rest }
              = some s'
          ∧ s'.queue = rest
          ∧ s'.mNextExpectedSeqNo = (u32 last.int32Data + 1) % 4294967296 := by
  have hst : (addFragmentedNALUnit sampleEnv
      { sampleOpen with queue := sampleRunWithout [105] }).map Prod.fst
        = some AssemblyStatus.OK := by
    decide!
  cases hr : addFragmentedNALUnit sampleEnv { sampleOpen with queue := sampleRunWithout [105] }
    with
  | none =>
    rw [hr] at hst
    cases hst
  | some r =>
    obtain ⟨status, s'⟩ := r
    rw [hr] at hst
    simp only [Option.map_some', Option.some.injEq] at hst
    subst hst
    exact ⟨s', rfl, accepted_fragment_run sampleEnv _ s' hr⟩

end AHEVCAssembler
